import Mathlib

/-!
# Boost.Beast: read engine, test stream and handshake

A shallow embedding of

* `include/boost/beast/core/detail/impl/read.hpp` (the completion-driven read
  loop `detail::read` and the coroutine `dynamic_read_ops::read_op`),
* `include/boost/beast/_experimental/test/impl/stream.hpp` (the in-memory
  test stream: `read_some`, `write_some`, `run_read_op`, `run_write_op`).

Conventions.  `std::size_t` values are natural numbers; the subtractions
`capacity() - size()` and `max_size() - size()` are guarded by the buffer
invariant `DynamicBuffer.wf`.  An `error_code&` parameter is an in/out
parameter: a function takes the value the caller's variable holds on entry and
returns the value it holds on exit.  `BOOST_ASSERT` is a debugging aid that is
compiled out under `NDEBUG`; it has no effect on the modelled behaviour.
Bytes are opaque payload.
-/

namespace Beast

/-! ## Definitions -/

abbrev byte := Nat

/-- The error codes the three files mention; `success` is the default-constructed
`error_code{}`, for which `if(ec)` is false. -/
inductive error_code where
  | success
  | eof
  | operation_aborted
  | connection_reset
  | would_block
  | buffer_overflow
  | other (value : Nat)
deriving DecidableEq, Repr

/-- Modelled from the spec: the `DynamicBuffer` template parameter of
`detail::read` (no buffer type is part of the three files).  "Growable byte
storage with current size, capacity, and a hard max_size; supports reserving a
write region of N bytes (prepare), acknowledging M ≤ N bytes actually written
(commit), and draining K bytes from the front (consume)."  `out` is the size of
the region reserved by the last `prepare`. -/
structure DynamicBuffer where
  bytes : List byte
  capacity : Nat
  max_size : Nat
  out : Nat
deriving DecidableEq, Repr

namespace DynamicBuffer

def size (b : DynamicBuffer) : Nat := b.bytes.length

/-- The buffer invariant: readable bytes plus the reserved region fit in the
capacity and below `max_size`. -/
def wf (b : DynamicBuffer) : Prop :=
  b.size + b.out ≤ b.capacity ∧ b.size + b.out ≤ b.max_size

instance (b : DynamicBuffer) : Decidable b.wf := by
  unfold wf; exact inferInstance

/-- The call `prepare(n)`: reserves a writable region of `n` bytes, growing the
capacity when needed.  Exceeding `max_size` is a reported overflow
(`std::length_error`), modelled by `none`. -/
def prepare (b : DynamicBuffer) (n : Nat) : Option DynamicBuffer :=
  if b.size + n ≤ b.max_size then
    some { b with capacity := max b.capacity (b.size + n), out := n }
  else
    none

/-- The call `commit(n)` after the caller wrote `region` into the reserved
region: at most the reserved size becomes readable. -/
def commit (b : DynamicBuffer) (region : List byte) (n : Nat) : DynamicBuffer :=
  { b with bytes := b.bytes ++ region.take (min n b.out), out := 0 }

/-- The call `consume(k)`: drops `k` bytes from the front. -/
def consume (b : DynamicBuffer) (k : Nat) : DynamicBuffer :=
  { b with bytes := b.bytes.drop k, out := 0 }

end DynamicBuffer

/-! ### The read engine (`core/detail/impl/read.hpp`) -/

/-- What one physical read (`read_some` / `async_read_some`) produced: the
bytes it wrote to the front of the region it was given
(`bytes_transferred = data.length`), the error it reported, and the stream
afterwards. -/
structure read_result (σ : Type) where
  data : List byte
  ec : error_code
  next : σ

/-- A stream: `read_some st n` is the physical read of a region of `n` bytes in
stream state `st`.  The blocking `read_some` and the handler arguments of
`async_read_some` are both drawn from it. -/
abbrev ReadStream (σ : Type) := σ → Nat → read_result σ

/-- A stream is conforming when no read transfers more than the region it was
given. -/
def ReadStream.conforming {σ : Type} (s : ReadStream σ) : Prop :=
  ∀ st n, (s st n).data.length ≤ n

/-- What a call `cond(ec, total, buffer)` leaves behind.  The condition
receives `error_code&` and `DynamicBuffer&` (see the `static_assert` on
`void(error_code&, std::size_t, DynamicBuffer&)`), so it may assign both; it is
a function object passed by value, so it may also update itself. -/
structure cond_result (κ : Type) where
  wanted : Nat
  ec : error_code
  buffer : DynamicBuffer
  self : κ

abbrev CompletionCondition (κ : Type) :=
  κ → error_code → Nat → DynamicBuffer → cond_result κ

/-- A condition that uses the buffer through its interface keeps the buffer
invariant and cannot change `max_size`. -/
def CompletionCondition.respects {κ : Type} (cond : CompletionCondition κ) : Prop :=
  ∀ k ec total b, b.wf →
    (cond k ec total b).buffer.wf ∧ (cond k ec total b).buffer.max_size = b.max_size

/-- Instrumentation: one physical read of the loop. -/
structure round_record where
  requested : Nat
  transferred : Nat
  committed : Nat
  ec : error_code
deriving DecidableEq, Repr

/-- The variables of the loop of `detail::read`; `log` is instrumentation. -/
structure loop_state (σ κ : Type) where
  stream : σ
  cond : κ
  buffer : DynamicBuffer
  ec : error_code
  total : Nat
  log : List round_record

/-- How a (fuel-bounded) run ends. -/
inductive outcome (α : Type) where
  | returned (a : α)
  | length_error
  | running

/-- The expression assigned to `max_prepare` (read.hpp lines 82-86 and 348-352). -/
def max_prepare (b : DynamicBuffer) (max_size : Nat) : Nat :=
  min (max 512 (b.capacity - b.size)) (min max_size (b.max_size - b.size))

/-- One iteration of the `for(;;)` of `detail::read` (lines 347-358): `inr` is
the `break`, `inl none` the exception of `prepare`. -/
def read_round {σ κ : Type} (s : ReadStream σ) (cond : CompletionCondition κ)
    (x : loop_state σ κ) : Option (loop_state σ κ) ⊕ loop_state σ κ :=
  let c := cond x.cond x.ec x.total x.buffer
  let mp := max_prepare c.buffer c.wanted
  if mp = 0 then
    .inr { x with cond := c.self, ec := c.ec, buffer := c.buffer }
  else
    match c.buffer.prepare mp with
    | none => .inl none
    | some pb =>
      let r := s x.stream mp
      let bytes_transferred := r.data.length
      let b := pb.commit r.data bytes_transferred
      .inl (some
        { stream := r.next
          cond := c.self
          buffer := b
          ec := r.ec
          total := x.total + bytes_transferred
          log := x.log ++ [⟨mp, bytes_transferred, b.size - pb.size, r.ec⟩] })

/-- The loop of `detail::read`, at most `fuel` iterations. -/
def read_loop {σ κ : Type} (s : ReadStream σ) (cond : CompletionCondition κ) :
    Nat → loop_state σ κ → outcome (loop_state σ κ)
  | 0, _ => .running
  | fuel + 1, x =>
    match read_round s cond x with
    | .inr y => .returned y
    | .inl none => .length_error
    | .inl (some y) => read_loop s cond fuel y

/-- The function `detail::read(stream, buffer, cond, ec)` (lines 320-361):
`ec = {}; total = 0;` then the loop.  The returned state holds the return value
`total`, the caller's `ec` and the buffer. -/
def read {σ κ : Type} (s : ReadStream σ) (cond : CompletionCondition κ)
    (fuel : Nat) (st : σ) (k : κ) (buffer : DynamicBuffer) :
    outcome (loop_state σ κ) :=
  read_loop s cond fuel ⟨st, k, buffer, .success, 0, []⟩

/-- Where the coroutine `read_op` is re-entered: at its start, after the
`BOOST_ASIO_CORO_YIELD` of line 89, or nowhere once it has run to its end. -/
inductive coro where
  | start
  | yielded
  | complete
deriving DecidableEq, Repr

/-- The members of `dynamic_read_ops::read_op` (lines 44-47): `cond_`,
`total_` and the coroutine position; `s_` and `b_` are references and are
passed to `read_op.call`. -/
structure read_op (κ : Type) where
  cond_ : κ
  total_ : Nat
  coro_ : coro

/-- What one call of `read_op::operator()` did before it returned. -/
inductive op_step (κ : Type) where
  /-- The call `s_.async_read_some(b_.prepare(max_prepare), std::move(*this))`. -/
  | async_read_some (op : read_op κ) (b_ : DynamicBuffer) (max_prepare : Nat)
  /-- The call `this->invoke(cont, ec, total_)`: the handler receives `(ec, total_)`. -/
  | invoke (op : read_op κ) (b_ : DynamicBuffer) (cont : Bool) (ec : error_code)
      (total_ : Nat)
  /-- The exception of `prepare`. -/
  | length_error
  /-- A coroutine that has completed does nothing when re-entered. -/
  | nothing

/-- The body of the `for(;;)` of `read_op::operator()` from its head to the
yield (lines 81-91) or to the `invoke` after the `break` (line 95). -/
def read_op.loop_head {κ : Type} (cond : CompletionCondition κ) (op : read_op κ)
    (b_ : DynamicBuffer) (ec : error_code) (cont : Bool) : op_step κ :=
  let c := cond op.cond_ ec op.total_ b_
  let mp := max_prepare c.buffer c.wanted
  if mp = 0 then
    .invoke ⟨c.self, op.total_, .complete⟩ c.buffer cont c.ec op.total_
  else
    match c.buffer.prepare mp with
    | none => .length_error
    | some pb => .async_read_some ⟨c.self, op.total_, .yielded⟩ pb mp

/-- The function `read_op::operator()(ec, bytes_transferred, cont)` (lines
69-97).  `region` is what the stream wrote into the region handed to
`async_read_some`.  Re-entered after the yield it commits and adds to `total_`
(lines 92-93), then continues with the loop. -/
def read_op.call {κ : Type} (cond : CompletionCondition κ) (op : read_op κ)
    (b_ : DynamicBuffer) (region : List byte) (ec : error_code)
    (bytes_transferred : Nat) (cont : Bool) : op_step κ :=
  match op.coro_ with
  | .start => read_op.loop_head cond op b_ ec cont
  | .yielded =>
    read_op.loop_head cond { op with total_ := op.total_ + bytes_transferred }
      (b_.commit region bytes_transferred) ec cont
  | .complete => .nothing

/-- The scheduler's side of the suspended operation: while an
`async_read_some` is outstanding, the stream completes it and calls the
operation with `(ec, bytes_transferred)` (and the default `cont = true`); at
most `fuel` calls of `operator()` are made.  `log` is instrumentation. -/
def read_op.drive {σ κ : Type} (s : ReadStream σ) (cond : CompletionCondition κ) :
    Nat → σ → List round_record → op_step κ → outcome (loop_state σ κ)
  | _, st, log, .invoke op b_ _ ec total_ => .returned ⟨st, op.cond_, b_, ec, total_, log⟩
  | _, _, _, .length_error => .length_error
  | _, _, _, .nothing => .running
  | 0, _, _, .async_read_some _ _ _ => .running
  | fuel + 1, st, log, .async_read_some op pb mp =>
    let r := s st mp
    let bytes_transferred := r.data.length
    read_op.drive s cond fuel r.next
      (log ++ [⟨mp, bytes_transferred,
        (pb.commit r.data bytes_transferred).size - pb.size, r.ec⟩])
      (read_op.call cond op pb r.data r.ec bytes_transferred true)

/-- The constructor of `read_op` (lines 53-67), which starts the operation
with `(*this)({}, 0, false)`, followed by the scheduler's calls.  The returned
state holds the `(ec, total_)` given to the handler and the buffer `b_`. -/
def async_read {σ κ : Type} (s : ReadStream σ) (cond : CompletionCondition κ)
    (fuel : Nat) (st : σ) (k : κ) (buffer : DynamicBuffer) :
    outcome (loop_state σ κ) :=
  match fuel with
  | 0 => .running
  | fuel + 1 =>
    read_op.drive s cond fuel st []
      (read_op.call cond ⟨k, 0, .start⟩ buffer [] .success 0 false)

/-- The loop invariant of `detail::read`: the buffer invariant, `max_size`
untouched, and `total` equal to the bytes committed so far. -/
def read_inv {σ κ : Type} (M : Nat) (x : loop_state σ κ) : Prop :=
  x.buffer.wf ∧ x.buffer.max_size = M ∧
    x.total = (x.log.map round_record.committed).sum ∧
    x.total = (x.log.map round_record.transferred).sum

/-- The condition stops on error: given an error it asks for nothing more and
leaves the error as it is. -/
def CompletionCondition.stops_on_error {κ : Type} (cond : CompletionCondition κ) : Prop :=
  ∀ k ec total b, ec ≠ .success →
    (cond k ec total b).wanted = 0 ∧ (cond k ec total b).ec = ec

/-- The condition never makes the buffer smaller. -/
def CompletionCondition.no_shrink {κ : Type} (cond : CompletionCondition κ) : Prop :=
  ∀ k ec total b, b.size ≤ (cond k ec total b).buffer.size

/-- At a loop head of the read engine: every physical read but the last
reported success, and `ec` is what the last one reported. -/
def error_inv {σ κ : Type} (x : loop_state σ κ) : Prop :=
  (∀ r ∈ x.log.dropLast, r.ec = .success) ∧
  (∀ r, x.log.getLast? = some r → r.ec = x.ec) ∧
  (x.log = [] → x.ec = .success)

/-! ### Example streams and conditions -/

/-- A stream that replays a script of read results, cut to the size asked for;
after the script it reports `eof` with no bytes. -/
def scripted : ReadStream (List (List byte × error_code)) := fun st n =>
  match st with
  | [] => ⟨[], .eof, []⟩
  | (d, e) :: rest => ⟨d.take n, e, rest⟩

/-- Wants `N` bytes in all and stops on error, leaving `ec` and the buffer alone. -/
def transfer_exactly (N : Nat) : CompletionCondition Unit := fun _ ec total b =>
  ⟨if ec = .success then N - total else 0, ec, b, ()⟩

/-- Wants `N` bytes in all and does not look at `ec`. -/
def ignore_errors (N : Nat) : CompletionCondition Unit := fun _ ec total b =>
  ⟨N - total, ec, b, ()⟩

/-- Wants `N` bytes in all, stops on error, and consumes what is in the buffer
(as a parser does). -/
def consuming (N : Nat) : CompletionCondition Unit := fun _ ec total b =>
  ⟨if ec = .success then N - total else 0, ec, b.consume b.size, ()⟩

/-! ### The test stream (`_experimental/test/impl/stream.hpp`) -/

namespace test

/-- The lifecycle status of a stream half (`status::ok` is the open one). -/
inductive status where
  | ok
  | eof
  | reset
deriving DecidableEq, Repr

/-- Modelled from the spec: the fault injector `fail_count` (its class is not
part of the three files).  "Internal countdown state; exposes one decision
function: given the current operation attempt, return no failure or a specific
error; deterministic and advances its internal state on every consultation,
not just on failures."  `decision i` is the decision for consultation `i`. -/
structure fail_count where
  decision : Nat → Option error_code
  attempt : Nat

/-- The injector after one more consultation. -/
def fail_count.next (f : fail_count) : fail_count :=
  { f with attempt := f.attempt + 1 }

/-- The test `in_->fc && in_->fc->fail(ec)` (lines 144, 228, 313, 398): whether
it holds, the resulting `ec`, and the injector afterwards.  Without an
injector `ec` is not touched.  The injector reports its decision through `ec`:
the injected error on failure, no error otherwise. -/
def test_failure (fc : Option fail_count) (ec : error_code) :
    Bool × error_code × Option fail_count :=
  match fc with
  | none => (false, ec, none)
  | some f =>
    match f.decision f.attempt with
    | some e => (true, e, some f.next)
    | none => (false, .success, some f.next)

/-- A registered `stream::read_op<Handler, Buffers>` (lines 24-113): the
handler `h_` (by identifier) and the size of the destination `b_`; `s_` is
passed to `read_op.lambda`. -/
structure read_op where
  h_ : Nat
  b_ : Nat
deriving DecidableEq, Repr

/-- The members of `stream::state` that the operations use: the receive buffer
`b`, the caps `read_max` and `write_max`, the slot `op` of the pending read,
the counters, the injector `fc` and the status `code`. -/
structure state where
  b : List byte
  read_max : Nat
  write_max : Nat
  op : Option read_op
  nread : Nat
  nwrite : Nat
  fc : Option fail_count
  code : status

/-- What an operation hands to other contexts. -/
inductive effect where
  /-- The call `net::post(ex, bind_front_handler(h, ec, bytes_transferred))`
  (or the `dispatch` of line 82). -/
  | handler (h : Nat) (ec : error_code) (bytes_transferred : Nat)
  /-- The call `read_op::operator()(cancel)` (lines 103-112) of a registered
  read: its `fn_` is posted. -/
  | fn (op : read_op) (cancel : Bool)
  /-- The call `cv.notify_all()`. -/
  | notify_all
deriving DecidableEq, Repr

/-- The call `net::buffer_copy(buffers, b.data(), read_max)` followed by
`b.consume(n)`: the count, the bytes copied and the bytes left. -/
def copy_out (buffers : Nat) (b : List byte) (read_max : Nat) :
    Nat × List byte × List byte :=
  let n := min buffers (min b.length read_max)
  (n, b.take n, b.drop n)

/-- Modelled from the spec: `state::notify_read` (defined outside the three
files): "wake any pending reader".  A registered read is taken out of the slot
and fired; otherwise the blocked readers are woken. -/
def state.notify_read (s : state) : state × List effect :=
  match s.op with
  | some p => ({ s with op := none }, [.fn p false])
  | none => (s, [.notify_all])

/-- The result of a blocking call on the stream. -/
structure read_some_result where
  n : Nat
  ec : error_code
  data : List byte
  in_ : state

/-- A blocking call either returns or waits on the condition variable for
another thread. -/
inductive blocking (α : Type) where
  | returned (a : α)
  | waits (in_ : state)

/-- The function `stream::read_some(buffers, ec)` (lines 300-346).  `buffers`
is the size of the destination, `ec` the caller's value on entry; `data` is
what was copied into the destination. -/
def read_some (in_ : state) (buffers : Nat) (ec : error_code) :
    blocking read_some_result :=
  let in1 := { in_ with nread := in_.nread + 1 }
  match test_failure in1.fc ec with
  | (true, ec, fc) => .returned ⟨0, ec, [], { in1 with fc := fc }⟩
  | (false, ec, fc) =>
    let in2 := { in1 with fc := fc }
    if buffers = 0 then
      .returned ⟨0, .success, [], in2⟩
    else if in2.b.length > 0 ∨ in2.code ≠ .ok then
      if in2.b.length > 0 then
        let (n, data, rest) := copy_out buffers in2.b in2.read_max
        .returned ⟨n, ec, data, { in2 with b := rest }⟩
      else
        .returned ⟨0, .eof, [], in2⟩
    else
      .waits in2

/-- The result of `write_some`: `out` is the peer half afterwards (`none` when
it no longer exists). -/
structure write_some_result where
  n : Nat
  ec : error_code
  in_ : state
  out : Option state
  effects : List effect

/-- The function `stream::write_some(buffers, ec)` (lines 385-426).  `out_` is
what `out_.lock()` yields: the peer half, or `none` once it is destroyed. -/
def write_some (in_ : state) (out_ : Option state) (buffers : List byte)
    (ec : error_code) : write_some_result :=
  let in1 := { in_ with nwrite := in_.nwrite + 1 }
  match test_failure in1.fc ec with
  | (true, ec, fc) => ⟨0, ec, { in1 with fc := fc }, out_, []⟩
  | (false, ec, fc) =>
    let in2 := { in1 with fc := fc }
    if buffers.length = 0 then
      ⟨0, .success, in2, out_, []⟩
    else
      match out_ with
      | none => ⟨0, .connection_reset, in2, none, []⟩
      | some out =>
        let n := min buffers.length in2.write_max
        let out1 := { out with b := out.b ++ buffers.take n }
        let (out2, effects) := out1.notify_read
        ⟨n, ec, in2, some out2, effects⟩

/-- How an initiating function ends: normally, or with the exception
`std::logic_error` of line 139 (`in_` is the half at the throw). -/
inductive initiation (α : Type) where
  | done (a : α)
  | logic_error (in_ : state)

/-- The state of the world after an asynchronous read step: the half, the
bytes copied into the destination, and what was handed to other contexts. -/
structure async_read_result where
  in_ : state
  data : List byte
  effects : List effect

/-- The function `stream::run_read_op::operator()` (lines 115-201), the
initiation of `async_read_some`; `h` is the handler, `buffers` the size of the
destination.  Its `error_code ec;` is a fresh local. -/
def run_read_op (h : Nat) (in_ : state) (buffers : Nat) :
    initiation async_read_result :=
  let in1 := { in_ with nread := in_.nread + 1 }
  if in1.op.isSome then
    .logic_error in1
  else
    match test_failure in1.fc .success with
    | (true, ec, fc) => .done ⟨{ in1 with fc := fc }, [], [.handler h ec 0]⟩
    | (false, ec, fc) =>
      let in2 := { in1 with fc := fc }
      if buffers = 0 then
        .done ⟨in2, [], [.handler h ec 0]⟩
      else if in2.b.length > 0 then
        let (n, data, rest) := copy_out buffers in2.b in2.read_max
        .done ⟨{ in2 with b := rest }, data, [.handler h ec n]⟩
      else if in2.code ≠ .ok then
        .done ⟨in2, [], [.handler h .eof 0]⟩
      else
        .done ⟨{ in2 with op := some ⟨h, buffers⟩ }, [], []⟩

/-- The function `stream::read_op::lambda::operator()(cancel)` (lines 56-86):
the registered read `p`, once fired, running on the half `s_`. -/
def read_op.lambda (p : read_op) (s_ : state) (cancel : Bool) : async_read_result :=
  if cancel then
    ⟨s_, [], [.handler p.h_ .operation_aborted 0]⟩
  else if s_.b.length > 0 then
    let (n, data, rest) := copy_out p.b_ s_.b s_.read_max
    ⟨{ s_ with b := rest }, data, [.handler p.h_ .success n]⟩
  else
    ⟨s_, [], [.handler p.h_ .eof 0]⟩

/-- The state of the world after `run_write_op`. -/
structure async_write_result where
  in_ : state
  out : Option state
  effects : List effect

/-- The function `stream::run_write_op::operator()` (lines 203-281), the
initiation of `async_write_some`.  Its `error_code ec;` is a fresh local. -/
def run_write_op (h : Nat) (in_ : state) (out_ : Option state)
    (buffers : List byte) : async_write_result :=
  let in1 := { in_ with nwrite := in_.nwrite + 1 }
  match test_failure in1.fc .success with
  | (true, ec, fc) => ⟨{ in1 with fc := fc }, out_, [.handler h ec 0]⟩
  | (false, ec, fc) =>
    let in2 := { in1 with fc := fc }
    if buffers.length = 0 then
      ⟨in2, out_, [.handler h ec 0]⟩
    else
      match out_ with
      | none => ⟨in2, none, [.handler h .connection_reset 0]⟩
      | some out =>
        let n := min buffers.length in2.write_max
        let out1 := { out with b := out.b ++ buffers.take n }
        let (out2, effects) := out1.notify_read
        ⟨in2, some out2, effects ++ [.handler h ec n]⟩

end test

namespace test

/-- The injector, if there is one, does not signal failure at its next
consultation. -/
def no_failure (fc : Option fail_count) : Prop :=
  ∀ f, fc = some f → f.decision f.attempt = none

/-- The caller's `ec` after a consultation that did not signal failure:
cleared by the injector, untouched when there is none. -/
def ec_after (fc : Option fail_count) (ec : error_code) : error_code :=
  if fc.isSome then .success else ec

/-- An injector that fails every consultation with `e`. -/
def always_fail (e : error_code) : fail_count := ⟨fun _ => some e, 0⟩

/-- An open half with read and write caps of 8, no pending read and no
injector. -/
def plain (b : List byte) : state := ⟨b, 8, 8, none, 0, 0, none, .ok⟩

end test

/-- The condition is of the form "transfer exactly `N`": it wants `N - total`
more bytes and leaves `ec` and the buffer alone. -/
def CompletionCondition.exactly {κ : Type} (cond : CompletionCondition κ) (N : Nat) : Prop :=
  ∀ k ec total b,
    (cond k ec total b).wanted = N - total ∧ (cond k ec total b).ec = ec ∧
      (cond k ec total b).buffer = b

/-- Every physical read reports no error and delivers at least one byte and
at most the size it was asked for. -/
def ReadStream.progressing {σ : Type} (s : ReadStream σ) : Prop :=
  ∀ st n, 0 < n →
    (s st n).ec = .success ∧ 1 ≤ (s st n).data.length ∧ (s st n).data.length ≤ n

/-- In every round of `log` the size requested was at most `N` minus the bytes
transferred in the rounds before it. -/
def requests_within (N : Nat) (log : List round_record) : Prop :=
  ∀ i (h : i < log.length),
    log[i].requested + ((log.take i).map round_record.transferred).sum ≤ N

/-- The invariant of the loop of `detail::read` under a transfer-exactly-`N`
condition and a progressing stream. -/
def exactly_inv {σ κ : Type} (N : Nat) (x : loop_state σ κ) : Prop :=
  x.buffer.wf ∧ x.ec = .success ∧ x.total ≤ N ∧
    N - x.total ≤ x.buffer.max_size - x.buffer.size ∧
    x.total = (x.log.map round_record.transferred).sum ∧
    requests_within N x.log ∧
    (∀ r ∈ x.log, 1 ≤ r.transferred ∧ r.transferred ≤ r.requested ∧ r.ec = .success) ∧
    x.log.length ≤ x.total

/-- A stream that never fails: each read delivers as many bytes (zeros) as the
next entry of its schedule says, at least one and at most the size asked for;
after the schedule it fills the whole region. -/
def chunked : ReadStream (List Nat) := fun st n =>
  match st with
  | [] => ⟨List.replicate n 0, .success, []⟩
  | c :: rest => ⟨List.replicate (min (max 1 c) n) 0, .success, rest⟩

/-! ### The opening handshake (`websocket/impl/handshake.hpp`) -/

namespace websocket

/-- What a handshake does, in order (instrumentation).  A read step records
the contents of the buffer it reads into at the call; `read_fb` also records
what `rd_buf` holds at that time. -/
inductive step where
  | change_status
  | reset
  | build_request
  | do_pmd_config
  | update_timer
  | write
  | check_stop_now (ec : error_code)
  | read_rd_buf (rd_buf : List byte)
  | read_fb (fb : List byte) (rd_buf : List byte)
  | reset_idle
  | on_response (ec : error_code)
deriving DecidableEq, Repr

/-- The steps that talk to the peer or validate its answer. -/
def step.io : step → Bool
  | .write => true
  | .read_rd_buf _ => true
  | .read_fb _ _ => true
  | .on_response _ => true
  | _ => false

/-- The response reads. -/
def step.is_read : step → Bool
  | .read_rd_buf _ => true
  | .read_fb _ _ => true
  | _ => false

/-- The external collaborators of the handshake, none of them part of the
three files, by the results they return; `R` is the type of the response
message.  `capacity` is `impl.rd_buf.capacity()`; `reset` is what
`impl.reset()` leaves in `rd_buf`; `write` is the error of `http::write` /
`http::async_write`; `check_stop_now i ec` is the answer of the `i`-th call of
`impl.check_stop_now(ec)` and the `ec` it leaves; `read_rd_buf b` and
`read_fb b` are the results of `http::read` / `http::async_read` into `rd_buf`
and into the fallback buffer holding `b`: the buffer afterwards, the error, and
the parser's message `p.get()`; `on_response m ec` is the `ec` that
`impl.on_response(m, key, ec)` leaves; `p0` is the message of a fresh parser. -/
structure collaborators (R : Type) where
  capacity : Nat
  reset : List byte → List byte
  write : error_code
  check_stop_now : Nat → error_code → Bool × error_code
  read_rd_buf : List byte → List byte × error_code × R
  read_fb : List byte → List byte × error_code × R
  on_response : R → error_code → error_code
  p0 : R

/-- The connection object `impl_type` as far as the handshake shows it: the
bounded read buffer `rd_buf`; `stops` counts the calls of `check_stop_now`
and `trace` lists the steps made (instrumentation). -/
structure impl_type where
  rd_buf : List byte
  stops : Nat
  trace : List step
deriving DecidableEq, Repr

def impl_type.log (impl : impl_type) (s : step) : impl_type :=
  { impl with trace := impl.trace ++ [s] }

/-- The connection after a call `impl.check_stop_now(ec)`; the answer and the
`ec` the call leaves are `c.check_stop_now impl.stops ec`. -/
def impl_type.checked (impl : impl_type) (ec : error_code) : impl_type :=
  { impl with stops := impl.stops + 1, trace := impl.trace ++ [.check_stop_now ec] }

/-- How a handshake ends: the error, the connection, and the caller's response
object (`none` when `res_p` is null). -/
structure handshake_result (R : Type) where
  ec : error_code
  impl : impl_type
  res : Option R

/-- Lines 219-253 of `do_handshake`: the response read into `rd_buf` and,
when it ends with `buffer_overflow`, the recovery through a fresh
`flat_buffer fb`.  Yields `ec`, the connection and the parser's message.
The call `rd_buf.prepare(fb.size())` cannot overflow where it is made,
`rd_buf` being empty and `fb.size() <= capacity`. -/
def do_handshake.read_response {R : Type} (c : collaborators R) (impl : impl_type) :
    error_code × impl_type × R :=
  let r1 := c.read_rd_buf impl.rd_buf
  let impl : impl_type :=
    { impl with rd_buf := r1.1, trace := impl.trace ++ [step.read_rd_buf impl.rd_buf] }
  if r1.2.1 = .buffer_overflow then
    let fb : List byte := [] ++ impl.rd_buf
    let impl : impl_type := { impl with rd_buf := [] }
    let r2 := c.read_fb fb
    let impl := impl.log (.read_fb fb impl.rd_buf)
    let fb := r2.1
    if r2.2.1 = .success then
      if fb.length ≤ c.capacity then
        (r2.2.1, { impl with rd_buf := impl.rd_buf ++ fb }, r2.2.2)
      else
        (.buffer_overflow, impl, r2.2.2)
    else
      (r2.2.1, impl, r2.2.2)
  else
    (r1.2.1, impl, r1.2.2)

/-- The function `stream::do_handshake` (lines 196-263).  `res_p` is the
caller's response object, `none` for a null pointer.  Each `s` is the answer
of a `check_stop_now` and the `ec` it leaves. -/
def do_handshake {R : Type} (c : collaborators R) (impl : impl_type)
    (res_p : Option R) : handshake_result R :=
  let impl := impl.log .change_status
  let impl : impl_type :=
    { impl with rd_buf := c.reset impl.rd_buf, trace := impl.trace ++ [step.reset] }
  let impl := impl.log .build_request
  let impl := impl.log .do_pmd_config
  let impl := impl.log .write
  let s0 := c.check_stop_now impl.stops c.write
  let impl := impl.checked c.write
  if s0.1 then
    ⟨s0.2, impl, res_p⟩
  else
    let rr := do_handshake.read_response c impl
    let p := rr.2.2
    let s1 := c.check_stop_now rr.2.1.stops rr.1
    let impl := rr.2.1.checked rr.1
    if s1.1 then
      ⟨s1.2, impl, res_p⟩
    else
      let impl := impl.log (.on_response s1.2)
      let ec := c.on_response p s1.2
      let s2 := c.check_stop_now impl.stops ec
      let impl := impl.checked ec
      if s2.1 then
        ⟨s2.2, impl, res_p⟩
      else
        ⟨s2.2, impl, res_p.map fun _ => p⟩

/-- Where the coroutine `handshake_op` is re-entered. -/
inductive hs_coro where
  | start
  | after_write
  | after_read
  | after_fb_read
  | complete
deriving DecidableEq, Repr

/-- The members of `handshake_op` that its steps use: the coroutine position,
the caller's response object behind `res_p_` (`none` for a null pointer), and
of `d_` the fallback buffer `fb` and the message of the parser `p`; `wp_` is
passed to `handshake_op.call` as the result of `wp_.lock()`. -/
structure handshake_op (R : Type) where
  coro_ : hs_coro
  res_p_ : Option R
  fb : List byte
  p : R

/-- What one call of `handshake_op::operator()` did before it returned: one of
the three asynchronous calls it yields on, or the `invoke` of the handler. -/
inductive hs_step (R : Type) where
  | async_write (op : handshake_op R) (impl : impl_type)
  | async_read_rd_buf (op : handshake_op R) (impl : impl_type)
  | async_read_fb (op : handshake_op R) (impl : impl_type)
  | invoke (op : handshake_op R) (impl : Option impl_type) (cont : Bool)
      (ec : error_code)
  | nothing

/-- Lines 148-158 of `handshake_op::operator()`: the second `check_stop_now`,
then `reset_idle`, `on_response`, the `swap` into the caller's response
object, and the upcall. -/
def handshake_op.finish {R : Type} (c : collaborators R) (op : handshake_op R)
    (impl : impl_type) (ec : error_code) (cont : Bool) : hs_step R :=
  let s1 := c.check_stop_now impl.stops ec
  let impl := impl.checked ec
  if s1.1 then
    .invoke { op with coro_ := .complete } (some impl) cont s1.2
  else
    let impl := impl.log .reset_idle
    let impl := impl.log (.on_response s1.2)
    let ec := c.on_response op.p s1.2
    .invoke { op with coro_ := .complete, res_p_ := op.res_p_.map fun _ => op.p }
      (some impl) cont ec

/-- The function `handshake_op::operator()(ec, bytes_used, cont)` (lines
82-160).  `sp` is the result of `wp_.lock()`: the connection, or `none` once
it no longer exists. -/
def handshake_op.call {R : Type} (c : collaborators R) (op : handshake_op R)
    (sp : Option impl_type) (ec : error_code) (_bytes_used : Nat) (cont : Bool) :
    hs_step R :=
  match sp with
  | none => .invoke op none cont .operation_aborted
  | some impl =>
    match op.coro_ with
    | .start =>
      let impl := impl.log .change_status
      let impl := impl.log .update_timer
      let impl := impl.log .do_pmd_config
      let impl := impl.log .write
      .async_write { op with coro_ := .after_write } impl
    | .after_write =>
      let s0 := c.check_stop_now impl.stops ec
      let impl := impl.checked ec
      if s0.1 then
        .invoke { op with coro_ := .complete } (some impl) cont s0.2
      else
        .async_read_rd_buf { op with coro_ := .after_read }
          (impl.log (.read_rd_buf impl.rd_buf))
    | .after_read =>
      if ec = .buffer_overflow then
        let op : handshake_op R := { op with fb := op.fb ++ impl.rd_buf }
        let impl : impl_type := { impl with rd_buf := [] }
        .async_read_fb { op with coro_ := .after_fb_read }
          (impl.log (.read_fb op.fb impl.rd_buf))
      else
        handshake_op.finish c op impl ec cont
    | .after_fb_read =>
      if ec = .success then
        if op.fb.length ≤ c.capacity then
          handshake_op.finish c { op with fb := [] }
            { impl with rd_buf := impl.rd_buf ++ op.fb } ec cont
        else
          handshake_op.finish c { op with fb := [] } impl .buffer_overflow cont
      else
        handshake_op.finish c { op with fb := [] } impl ec cont
    | .complete => .nothing

/-- The scheduler's side of the suspended handshake, the connection staying
alive: each outstanding asynchronous call completes with the collaborator's
result and the operation is called again (with the default `cont = true`); at
most `fuel` calls are made. -/
def handshake_op.drive {R : Type} (c : collaborators R) :
    Nat → hs_step R → Option (handshake_result R)
  | _, .invoke op (some impl) _ ec => some ⟨ec, impl, op.res_p_⟩
  | _, .invoke _ none _ _ => none
  | _, .nothing => none
  | 0, _ => none
  | fuel + 1, .async_write op impl =>
    handshake_op.drive c fuel (handshake_op.call c op (some impl) c.write 0 true)
  | fuel + 1, .async_read_rd_buf op impl =>
    handshake_op.drive c fuel
      (handshake_op.call c { op with p := (c.read_rd_buf impl.rd_buf).2.2 }
        (some { impl with rd_buf := (c.read_rd_buf impl.rd_buf).1 })
        (c.read_rd_buf impl.rd_buf).2.1 0 true)
  | fuel + 1, .async_read_fb op impl =>
    handshake_op.drive c fuel
      (handshake_op.call c
        { op with fb := (c.read_fb op.fb).1, p := (c.read_fb op.fb).2.2 }
        (some impl) (c.read_fb op.fb).2.1 0 true)

/-- The constructor of `handshake_op` (lines 61-80): `build_request`,
`sp->reset()`, then `(*this)({}, 0, false)`; followed by the scheduler's
calls.  Three resumptions at most follow the first call. -/
def async_handshake {R : Type} (c : collaborators R) (impl : impl_type)
    (res_p : Option R) : Option (handshake_result R) :=
  let impl := impl.log .build_request
  let impl : impl_type :=
    { impl with rd_buf := c.reset impl.rd_buf, trace := impl.trace ++ [step.reset] }
  handshake_op.drive c 3
    (handshake_op.call c ⟨.start, res_p, [], c.p0⟩ (some impl) .success 0 false)

end websocket

namespace websocket

/-- Example collaborators for a bounded buffer of capacity 4: the write
succeeds, `check_stop_now` stops exactly when it is given an error and leaves
the error as it is, the first response read fills `rd_buf` with `[1, 2, 3, 4]`
and ends with `first`, the read into the fallback buffer ends with `second`
and leaves `leftover` in it, and `on_response` reports `validation`. -/
def example_collaborators (first second : error_code) (leftover : List byte)
    (validation : error_code) : collaborators Nat where
  capacity := 4
  reset := fun _ => []
  write := .success
  check_stop_now := fun _ ec => (decide (ec ≠ .success), ec)
  read_rd_buf := fun b => (b ++ [1, 2, 3, 4], first, 100)
  read_fb := fun _ => (leftover, second, 101)
  on_response := fun _ _ => validation
  p0 := 0

end websocket

/-! ### The non-blocking read paths (`read.hpp`, `BOOST_BEAST_ENABLE_NON_BLOCKING`) -/

/-- The constant `default_max_stack_buffer` (line 25). -/
def default_max_stack_buffer : Nat := 16384

/-- A `net::basic_stream_socket` as the non-blocking reads use it: `wait st`
is `socket.wait(wait_read, ec)` (or the completion of `async_wait`), the
error it reports and the socket afterwards; `read_some` is the physical read;
`available st` is `socket.available()`. -/
structure socket (σ : Type) where
  wait : σ → error_code × σ
  read_some : ReadStream σ
  available : σ → Nat

/-- A fresh `flat_static_buffer<default_max_stack_buffer> sb`. -/
def stack_buffer : DynamicBuffer :=
  ⟨[], default_max_stack_buffer, default_max_stack_buffer, 0⟩

/-- The variables of the loop of the non-blocking `detail::read` (lines
382-386); `log` is instrumentation. -/
structure nb_state (σ κ : Type) where
  stream : σ
  cond : κ
  buffer : DynamicBuffer
  ec : error_code
  total : Nat
  limit : Nat
  log : List round_record

/-- Lines 403-408 (and 160-165): a fresh stack buffer `sb` receives the
contents of the buffer, which are then consumed from the buffer.  Yields `sb`
and the buffer; `none` is the exception of `sb.prepare`. -/
def stage (buffer : DynamicBuffer) : Option (DynamicBuffer × DynamicBuffer) :=
  match stack_buffer.prepare buffer.size with
  | none => none
  | some sb0 =>
    some (sb0.commit buffer.bytes (min sb0.out buffer.size),
      buffer.consume (min sb0.out buffer.size))

/-- Lines 410-413 (and 167-170): the size `n` of the staged read,
`min(limit, sb.capacity() - sb.size(), buffer.max_size() - sb.size())`. -/
def staged_size (limit : Nat) (sb buffer : DynamicBuffer) : Nat :=
  min limit (min (sb.capacity - sb.size) (buffer.max_size - sb.size))

/-- Lines 423-424 (and 177-178): the contents of `sb` are copied back,
`buffer.commit(buffer_copy(buffer.prepare(sb.size()), sb.data()))`; `none` is
the exception of `buffer.prepare`. -/
def unstage (buffer sb : DynamicBuffer) : Option DynamicBuffer :=
  match buffer.prepare sb.size with
  | none => none
  | some b1 => some (b1.commit sb.bytes (min b1.out sb.size))

namespace basic_stream_socket

/-- Lines 403-424: the branch of the non-blocking `detail::read` that stages
the transfer through the stack buffer `sb`; `st` is the socket after the
wait.  `none` is the exception of a `prepare`. -/
def read_staged {σ κ : Type} (sock : socket σ) (cond : CompletionCondition κ)
    (x : nb_state σ κ) (st : σ) : Option (nb_state σ κ) :=
  match stage x.buffer with
  | none => none
  | some p =>
    match p.1.prepare (staged_size x.limit p.1 p.2) with
    | none => none
    | some sb1 =>
      let r := sock.read_some st (staged_size x.limit p.1 p.2)
      if r.ec ≠ .would_block then
        let sb2 := sb1.commit r.data r.data.length
        let c := cond x.cond r.ec (x.total + r.data.length) sb2
        match unstage p.2 c.buffer with
        | none => none
        | some b =>
          some
            { stream := r.next
              cond := c.self
              buffer := b
              ec := c.ec
              total := x.total + r.data.length
              limit := c.wanted
              log := x.log ++
                [⟨staged_size x.limit p.1 p.2, r.data.length, sb2.size - sb1.size, r.ec⟩] }
      else
        match unstage p.2 sb1 with
        | none => none
        | some b =>
          some
            { x with
              stream := r.next
              buffer := b
              ec := r.ec
              log := x.log ++ [⟨staged_size x.limit p.1 p.2, r.data.length, 0, r.ec⟩] }

/-- Lines 427-442: the branch of the non-blocking `detail::read` that reads
into the buffer directly. -/
def read_direct {σ κ : Type} (sock : socket σ) (cond : CompletionCondition κ)
    (x : nb_state σ κ) (st : σ) : Option (nb_state σ κ) :=
  let n := min x.limit (min (sock.available st)
    (min (x.buffer.max_size - x.buffer.size)
      (max 512 (x.buffer.capacity - x.buffer.size))))
  match x.buffer.prepare n with
  | none => none
  | some b1 =>
    let r := sock.read_some st n
    let bytes_transferred := r.data.length
    if r.ec ≠ .would_block then
      let b2 := b1.commit r.data bytes_transferred
      let total := x.total + bytes_transferred
      let c := cond x.cond r.ec total b2
      some
        { stream := r.next
          cond := c.self
          buffer := c.buffer
          ec := c.ec
          total := total
          limit := c.wanted
          log := x.log ++ [⟨n, bytes_transferred, b2.size - b1.size, r.ec⟩] }
    else
      some
        { x with
          stream := r.next
          buffer := b1
          ec := r.ec
          log := x.log ++ [⟨n, bytes_transferred, 0, r.ec⟩] }

/-- One iteration of the `for(;;)` of the non-blocking `detail::read` (lines
390-443): `inr` is the `break`, `inl none` an exception of `prepare`. -/
def read_round {σ κ : Type} (sock : socket σ) (cond : CompletionCondition κ)
    (x : nb_state σ κ) : Option (nb_state σ κ) ⊕ nb_state σ κ :=
  let n := min x.limit (x.buffer.max_size - x.buffer.size)
  if n = 0 then
    .inr x
  else
    let w := sock.wait x.stream
    if w.1 ≠ .success then
      let c := cond x.cond w.1 x.total x.buffer
      .inl (some
        { x with stream := w.2, cond := c.self, buffer := c.buffer, ec := c.ec,
                 limit := c.wanted })
    else if x.buffer.size ≤ default_max_stack_buffer then
      .inl (read_staged sock cond { x with ec := w.1 } w.2)
    else
      .inl (read_direct sock cond { x with ec := w.1 } w.2)

/-- The loop of the non-blocking `detail::read`, at most `fuel` iterations. -/
def read_loop {σ κ : Type} (sock : socket σ) (cond : CompletionCondition κ) :
    Nat → nb_state σ κ → outcome (nb_state σ κ)
  | 0, _ => .running
  | fuel + 1, x =>
    match read_round sock cond x with
    | .inr y => .returned y
    | .inl none => .length_error
    | .inl (some y) => read_loop sock cond fuel y

/-- The function `detail::read(socket, buffer, cond, ec)` for a
`net::basic_stream_socket` (lines 363-447): `ec = {}; total = 0;
limit = cond(ec, total, buffer);` then the loop. -/
def read {σ κ : Type} (sock : socket σ) (cond : CompletionCondition κ)
    (fuel : Nat) (st : σ) (k : κ) (buffer : DynamicBuffer) :
    outcome (nb_state σ κ) :=
  let c := cond k .success 0 buffer
  read_loop sock cond fuel ⟨st, c.self, c.buffer, c.ec, 0, c.wanted, []⟩

end basic_stream_socket

namespace read_non_blocking_op

/-- What one call of `read_non_blocking_op::operator()` did before it
returned.  The state `x` holds the members `s_`, `b_`, `cond_`, `limit_`,
`total_` and, in `x.ec`, the parameter `ec`. -/
inductive nb_step (σ κ : Type) where
  /-- The call `s_.async_wait(wait_read, std::move(*this))`. -/
  | async_wait (x : nb_state σ κ)
  /-- The call `this->invoke(cont, ec, total_)`. -/
  | invoke (x : nb_state σ κ) (cont : Bool)
  /-- An exception of `prepare`. -/
  | length_error
  /-- A coroutine that has completed does nothing when re-entered. -/
  | nothing

/-- Lines 151-157 and 196: the head of the `for(;;)`, up to the yield or to
the `invoke` after the `break`. -/
def loop_head {σ κ : Type} (x : nb_state σ κ) (cont : Bool) : nb_step σ κ :=
  let n := min x.limit (x.buffer.max_size - x.buffer.size)
  if n = 0 then
    .invoke x cont
  else
    .async_wait x

/-- Lines 159-178: the branch that stages the transfer through the stack
buffer `sb`.  Unlike lines 417-422 of the blocking function it commits, adds
to `total_` and calls the condition whatever `read_some` reported. -/
def staged {σ κ : Type} (sock : socket σ) (cond : CompletionCondition κ)
    (x : nb_state σ κ) : Option (nb_state σ κ) :=
  match stage x.buffer with
  | none => none
  | some p =>
    match p.1.prepare (staged_size x.limit p.1 p.2) with
    | none => none
    | some sb1 =>
      let r := sock.read_some x.stream (staged_size x.limit p.1 p.2)
      let sb2 := sb1.commit r.data r.data.length
      let c := cond x.cond r.ec (x.total + r.data.length) sb2
      match unstage p.2 c.buffer with
      | none => none
      | some b =>
        some
          { stream := r.next
            cond := c.self
            buffer := b
            ec := c.ec
            total := x.total + r.data.length
            limit := c.wanted
            log := x.log ++
              [⟨staged_size x.limit p.1 p.2, r.data.length, sb2.size - sb1.size, r.ec⟩] }

/-- Lines 181-193: the branch that reads into `b_` directly. -/
def direct {σ κ : Type} (sock : socket σ) (cond : CompletionCondition κ)
    (x : nb_state σ κ) : Option (nb_state σ κ) :=
  let n := min x.limit (min (sock.available x.stream)
    (min (x.buffer.max_size - x.buffer.size)
      (max 512 (x.buffer.capacity - x.buffer.size))))
  match x.buffer.prepare n with
  | none => none
  | some b1 =>
    let r := sock.read_some x.stream n
    let bytes_transferred := r.data.length
    let b2 := b1.commit r.data bytes_transferred
    let total := x.total + bytes_transferred
    let c := cond x.cond r.ec total b2
    some
      { stream := r.next
        cond := c.self
        buffer := c.buffer
        ec := c.ec
        total := total
        limit := c.wanted
        log := x.log ++ [⟨n, bytes_transferred, b2.size - b1.size, r.ec⟩] }

/-- The function `read_non_blocking_op::operator()(ec, cont)` (lines
141-198), re-entered at `pos`. -/
def call {σ κ : Type} (sock : socket σ) (cond : CompletionCondition κ) (pos : coro)
    (x : nb_state σ κ) (ec : error_code) (cont : Bool) : nb_step σ κ :=
  match pos with
  | .start =>
    let c := cond x.cond ec x.total x.buffer
    loop_head { x with cond := c.self, buffer := c.buffer, ec := c.ec, limit := c.wanted }
      cont
  | .yielded =>
    if x.buffer.size ≤ default_max_stack_buffer then
      match staged sock cond { x with ec := ec } with
      | none => .length_error
      | some y => loop_head y cont
    else
      match direct sock cond { x with ec := ec } with
      | none => .length_error
      | some y => loop_head y cont
  | .complete => .nothing

/-- The scheduler's side: each outstanding `async_wait` completes with the
socket's answer and the operation is called again; at most `fuel` waits. -/
def drive {σ κ : Type} (sock : socket σ) (cond : CompletionCondition κ) :
    Nat → nb_step σ κ → outcome (nb_state σ κ)
  | _, .invoke x _ => .returned x
  | _, .length_error => .length_error
  | _, .nothing => .running
  | 0, .async_wait _ => .running
  | fuel + 1, .async_wait x =>
    drive sock cond fuel
      (call sock cond .yielded { x with stream := (sock.wait x.stream).2 }
        (sock.wait x.stream).1 true)

end read_non_blocking_op

/-- The constructor of `read_non_blocking_op` (lines 125-139), which starts
the operation with `(*this)({}, false)`, followed by the scheduler's calls.
The returned state holds the `(ec, total_)` given to the handler. -/
def async_read_non_blocking {σ κ : Type} (sock : socket σ)
    (cond : CompletionCondition κ) (fuel : Nat) (st : σ) (k : κ)
    (buffer : DynamicBuffer) : outcome (nb_state σ κ) :=
  read_non_blocking_op.drive sock cond fuel
    (read_non_blocking_op.call sock cond .start ⟨st, k, buffer, .success, 0, 0, []⟩
      .success false)

/-- A socket whose reads replay a script (see `scripted`), whose waits
succeed at once, and which reports nothing as available. -/
def scripted_socket : socket (List (List byte × error_code)) :=
  ⟨fun st => (.success, st), scripted, fun _ => 0⟩

/-- The socket is a reliable source of the byte sequence `pending st`: a wait
succeeds and takes nothing, and a read of a non-empty region reports no error
and delivers, from the front of the sequence, at least one byte and at most
the size of the region. -/
def socket.source {σ : Type} (sock : socket σ) (pending : σ → Nat → byte) : Prop :=
  (∀ st, (sock.wait st).1 = .success ∧ pending (sock.wait st).2 = pending st) ∧
  (∀ st n, 0 < n →
    (sock.read_some st n).ec = .success ∧
    1 ≤ (sock.read_some st n).data.length ∧ (sock.read_some st n).data.length ≤ n ∧
    (sock.read_some st n).data =
      (List.range (sock.read_some st n).data.length).map (pending st) ∧
    pending (sock.read_some st n).next =
      fun i => pending st ((sock.read_some st n).data.length + i))

/-- The buffer holds its initial bytes `b0` followed by the first `total`
bytes of the sequence `src`, and what the socket has pending is the rest of
`src`. -/
def content_inv {σ : Type} (pending : σ → Nat → byte) (src : Nat → byte)
    (b0 : List byte) (stream : σ) (bytes : List byte) (total : Nat) : Prop :=
  bytes = b0 ++ (List.range total).map src ∧
    pending stream = fun i => src (total + i)

/-- The invariant of the loop of the non-blocking `detail::read` under a
transfer-exactly-`N` condition and a reliable source, for a destination that
stays within the stack buffer. -/
def staged_inv {σ κ : Type} (pending : σ → Nat → byte) (src : Nat → byte)
    (b0 : List byte) (M N : Nat) (x : nb_state σ κ) : Prop :=
  x.limit = N - x.total ∧ x.total ≤ N ∧ x.ec = .success ∧
    x.buffer.max_size = M ∧ content_inv pending src b0 x.stream x.buffer.bytes x.total

/-- A socket that delivers the bytes `0, 1, 2, ...`: its state is the next
byte and a schedule of how many bytes each read delivers at most (at least
one, and no more than asked for); its waits succeed at once. -/
def counting_socket : socket (Nat × List Nat) where
  wait := fun st => (.success, st)
  read_some := fun st n =>
    match st.2 with
    | [] => ⟨(List.range n).map (fun i => st.1 + i), .success, (st.1 + n, [])⟩
    | c :: rest =>
      ⟨(List.range (min (max 1 c) n)).map (fun i => st.1 + i), .success,
        (st.1 + min (max 1 c) n, rest)⟩
  available := fun _ => 1

/-- Wants up to `W` bytes at a time until at least `minimum` bytes have
arrived or an error is reported, leaving `ec` and the buffer alone (the shape
of `net::transfer_at_least`). -/
def transfer_at_least (minimum W : Nat) : CompletionCondition Unit := fun _ ec total b =>
  ⟨if ec = .success ∧ total < minimum then W else 0, ec, b, ()⟩

/-- Every physical read of a non-empty region transfers at least one byte. -/
def ReadStream.makes_progress {σ : Type} (s : ReadStream σ) : Prop :=
  ∀ st n, 0 < n → 1 ≤ (s st n).data.length

/-- A buffer that holds `default_max_stack_buffer` bytes (zeros) and may grow
to `max_size`. -/
def full_stack_buffer (max_size : Nat) : DynamicBuffer :=
  ⟨List.replicate default_max_stack_buffer 0, default_max_stack_buffer, max_size, 0⟩

namespace test

/-- Modelled from the spec: `stream::close()` (defined outside the three
files): "Closing a half sets status to closed/eof and must wake any blocked
or pending reader of that half." -/
def state.close (s : state) : state × List effect :=
  state.notify_read { s with code := .eof }

/-- What `async_teardown` did: the half afterwards, whether `s.close()` was
called, what the close handed to other contexts, and the calls
`net::post(s.get_executor(), bind_front_handler(handler, ec))` as pairs of
handler and error. -/
structure teardown_result where
  in_ : state
  closed : Bool
  effects : List effect
  posts : List (Nat × error_code)

/-- The function `async_teardown(role_type, s, handler)` (lines 452-477); the
unnamed role is not used.  It starts from a fresh `error_code ec`. -/
def async_teardown (h : Nat) (in_ : state) : teardown_result :=
  let f1 := test_failure in_.fc .success
  if f1.1 then
    ⟨{ in_ with fc := f1.2.2 }, false, [], [(h, f1.2.1)]⟩
  else
    let c := state.close { in_ with fc := f1.2.2 }
    let f2 := test_failure c.1.fc f1.2.1
    ⟨{ c.1 with fc := f2.2.2 }, true, c.2, [(h, if f2.1 then .eof else .success)]⟩

end test

/-- The condition is of the form "transfer exactly `N`, stopping on the errors
that `stops` selects": it wants nothing when given such an error and
`N - total` more bytes otherwise, and leaves `ec` and the buffer alone. -/
def CompletionCondition.exactly_until {κ : Type} (cond : CompletionCondition κ) (N : Nat)
    (stops : error_code → Bool) : Prop :=
  ∀ k ec total b,
    (cond k ec total b).wanted = (if stops ec then 0 else N - total) ∧
      (cond k ec total b).ec = ec ∧ (cond k ec total b).buffer = b

/-- The socket is a source of the byte sequence `pending st` that runs dry
after `left st` more bytes: a wait succeeds and takes nothing; while bytes
are left, a read of a non-empty region reports no error and delivers, from
the front of the sequence, at least one byte and at most the size of the
region; once none is left, it delivers nothing and reports `e`. -/
def socket.source_until {σ : Type} (sock : socket σ) (pending : σ → Nat → byte)
    (left : σ → Nat) (e : error_code) : Prop :=
  (∀ st, (sock.wait st).1 = .success ∧ pending (sock.wait st).2 = pending st ∧
    left (sock.wait st).2 = left st) ∧
  (∀ st n, 0 < n → 0 < left st →
    (sock.read_some st n).ec = .success ∧
    1 ≤ (sock.read_some st n).data.length ∧ (sock.read_some st n).data.length ≤ n ∧
    (sock.read_some st n).data.length ≤ left st ∧
    (sock.read_some st n).data =
      (List.range (sock.read_some st n).data.length).map (pending st) ∧
    pending (sock.read_some st n).next =
      (fun i => pending st ((sock.read_some st n).data.length + i)) ∧
    left (sock.read_some st n).next = left st - (sock.read_some st n).data.length) ∧
  (∀ st n, 0 < n → left st = 0 →
    (sock.read_some st n).ec = e ∧ (sock.read_some st n).data = [])

/-- At a loop head of a read from a source that runs dry after `K` bytes:
the buffer holds its initial bytes `b0` and the first `total` bytes of `src`;
and either no error was reported, the socket has the rest of `src` pending
and `K - total` bytes left, or the source ran dry before `N` bytes and `ec`
is its error. -/
def until_inv {σ : Type} (pending : σ → Nat → byte) (left : σ → Nat)
    (src : Nat → byte) (b0 : List byte) (K N : Nat) (e : error_code)
    (stream : σ) (bytes : List byte) (ec : error_code) (total : Nat) : Prop :=
  total ≤ N ∧ bytes = b0 ++ (List.range total).map src ∧
    ((ec = .success ∧ pending stream = (fun i => src (total + i)) ∧
        left stream + total = K) ∨
      (ec = e ∧ total = K ∧ K < N))

/-- A socket that delivers the bytes `0, 1, 2, ...` and runs dry: its state is
the next byte, the number of bytes left and a schedule of how many bytes each
read delivers at most (at least one, and no more than asked for or left);
once nothing is left every read reports `e` with no bytes.  Its waits succeed
at once. -/
def draining_socket (e : error_code) : socket (Nat × Nat × List Nat) where
  wait := fun st => (.success, st)
  read_some := fun st n =>
    if st.2.1 = 0 then
      ⟨[], e, st⟩
    else
      ⟨(List.range (min (min (max 1 (st.2.2.headD n)) n) st.2.1)).map (fun i => st.1 + i),
        .success,
        (st.1 + min (min (max 1 (st.2.2.headD n)) n) st.2.1,
          st.2.1 - min (min (max 1 (st.2.2.headD n)) n) st.2.1, st.2.2.tail)⟩
  available := fun _ => 1

/-- A socket like `scripted_socket` whose waits report the error `e`. -/
def failing_wait_socket (e : error_code) : socket (List (List byte × error_code)) :=
  ⟨fun st => (e, st), scripted, fun _ => 0⟩

/-! ## Theorems -/

/-! ### The read engine -/

theorem max_prepare_le_wanted (b : DynamicBuffer) (w : Nat) : max_prepare b w ≤ w := by
  unfold max_prepare; omega

theorem max_prepare_le_room (b : DynamicBuffer) (w : Nat) :
    max_prepare b w ≤ b.max_size - b.size := by
  unfold max_prepare; omega

theorem prepare_eq_some (b : DynamicBuffer) (n : Nat) (h : b.size + n ≤ b.max_size) :
    b.prepare n = some { b with capacity := max b.capacity (b.size + n), out := n } := by
  unfold DynamicBuffer.prepare; rw [if_pos h]

theorem prepare_max_prepare (b : DynamicBuffer) (w : Nat) (h : b.wf) :
    b.prepare (max_prepare b w) =
      some { b with capacity := max b.capacity (b.size + max_prepare b w),
                    out := max_prepare b w } := by
  apply prepare_eq_some
  have h1 := max_prepare_le_room b w
  have h2 := h.2
  omega

theorem commit_size (b : DynamicBuffer) (region : List byte) (n : Nat) :
    (b.commit region n).size = b.size + min (min n b.out) region.length := by
  simp [DynamicBuffer.commit, DynamicBuffer.size]

/-- The asynchronous operation, started at a loop head, is the blocking loop
started at the same loop head. -/
theorem drive_loop_head {σ κ : Type} (s : ReadStream σ) (cond : CompletionCondition κ)
    (fuel : Nat) (x : loop_state σ κ) (c : coro) (cont : Bool) :
    read_op.drive s cond fuel x.stream x.log
        (read_op.loop_head cond ⟨x.cond, x.total, c⟩ x.buffer x.ec cont) =
      read_loop s cond (fuel + 1) x := by
  induction fuel generalizing x c cont with
  | zero =>
    simp only [read_loop, read_round, read_op.loop_head]
    split
    · simp [read_op.drive]
    · split <;> simp [read_op.drive, read_loop]
  | succ fuel ih =>
    rw [read_loop]
    simp only [read_round, read_op.loop_head]
    split
    · simp [read_op.drive]
    · split
      · simp [read_op.drive]
      · rename_i pb hpb
        simp only [read_op.drive, read_op.call]
        exact ih ⟨_, _, _, _, _, _⟩ .yielded true

theorem read_round_inv {σ κ : Type} (s : ReadStream σ) (cond : CompletionCondition κ)
    (hs : s.conforming) (hc : cond.respects) (M : Nat) (x : loop_state σ κ)
    (hx : read_inv M x) :
    (∀ y, read_round s cond x = .inr y → read_inv M y ∧ y.total = x.total) ∧
    read_round s cond x ≠ .inl none ∧
    (∀ y, read_round s cond x = .inl (some y) → read_inv M y) := by
  obtain ⟨hwf, hM, hsum, hsum2⟩ := hx
  obtain ⟨cwf, cM⟩ := hc x.cond x.ec x.total x.buffer hwf
  have hprep := prepare_max_prepare _ (cond x.cond x.ec x.total x.buffer).wanted cwf
  have hroom := max_prepare_le_room (cond x.cond x.ec x.total x.buffer).buffer
    (cond x.cond x.ec x.total x.buffer).wanted
  have hlen := hs x.stream (max_prepare (cond x.cond x.ec x.total x.buffer).buffer
    (cond x.cond x.ec x.total x.buffer).wanted)
  refine ⟨?_, ?_, ?_⟩
  · intro y hy
    simp only [read_round] at hy
    split at hy
    · cases hy
      exact ⟨⟨cwf, by rw [cM, hM], hsum, hsum2⟩, rfl⟩
    · rw [hprep] at hy; cases hy
  · simp only [read_round]
    split
    · simp
    · rw [hprep]; simp
  · intro y hy
    simp only [read_round] at hy
    split at hy
    · cases hy
    · rw [hprep] at hy
      simp only [Sum.inl.injEq, Option.some.injEq] at hy
      subst hy
      unfold read_inv
      have hw := cwf.1
      have hw2 := cwf.2
      simp only [DynamicBuffer.wf, DynamicBuffer.size, DynamicBuffer.commit,
        List.length_append, List.length_take, List.map_append, List.sum_append,
        List.map_cons, List.map_nil, List.sum_cons, List.sum_nil] at *
      refine ⟨⟨?_, ?_⟩, ?_, ?_, ?_⟩ <;> omega

theorem read_loop_inv {σ κ : Type} (s : ReadStream σ) (cond : CompletionCondition κ)
    (hs : s.conforming) (hc : cond.respects) (M : Nat) (fuel : Nat) :
    ∀ x : loop_state σ κ, read_inv M x →
      read_loop s cond fuel x ≠ .length_error ∧
      ∀ y, read_loop s cond fuel x = .returned y → read_inv M y := by
  induction fuel with
  | zero => intro x _; simp [read_loop]
  | succ fuel ih =>
    intro x hx
    obtain ⟨h1, h2, h3⟩ := read_round_inv s cond hs hc M x hx
    rw [read_loop]
    match hr : read_round s cond x with
    | .inr y =>
      refine ⟨by simp, ?_⟩
      intro z hz
      cases hz
      exact (h1 y hr).1
    | .inl none => exact absurd hr h2
    | .inl (some y) => exact ih y (h3 y hr)

theorem read_round_grow {σ κ : Type} (s : ReadStream σ) (cond : CompletionCondition κ)
    (hs : s.conforming) (hc : cond.respects) (hn : cond.no_shrink) (M n0 : Nat)
    (x : loop_state σ κ) (hx : read_inv M x) (hg : x.total + n0 ≤ x.buffer.size) :
    (∀ y, read_round s cond x = .inr y → y.total + n0 ≤ y.buffer.size) ∧
    (∀ y, read_round s cond x = .inl (some y) → y.total + n0 ≤ y.buffer.size) := by
  obtain ⟨hwf, hM, _, _⟩ := hx
  obtain ⟨cwf, cM⟩ := hc x.cond x.ec x.total x.buffer hwf
  have hprep := prepare_max_prepare _ (cond x.cond x.ec x.total x.buffer).wanted cwf
  have hlen := hs x.stream (max_prepare (cond x.cond x.ec x.total x.buffer).buffer
    (cond x.cond x.ec x.total x.buffer).wanted)
  have hsh := hn x.cond x.ec x.total x.buffer
  refine ⟨?_, ?_⟩
  · intro y hy
    simp only [read_round] at hy
    split at hy
    · cases hy
      exact le_trans hg hsh
    · rw [hprep] at hy; cases hy
  · intro y hy
    simp only [read_round] at hy
    split at hy
    · cases hy
    · rw [hprep] at hy
      simp only [Sum.inl.injEq, Option.some.injEq] at hy
      subst hy
      simp only [DynamicBuffer.size, DynamicBuffer.commit,
        List.length_append, List.length_take] at *
      omega

theorem read_loop_grow {σ κ : Type} (s : ReadStream σ) (cond : CompletionCondition κ)
    (hs : s.conforming) (hc : cond.respects) (hn : cond.no_shrink) (M n0 : Nat)
    (fuel : Nat) :
    ∀ x : loop_state σ κ, read_inv M x → x.total + n0 ≤ x.buffer.size →
      ∀ y, read_loop s cond fuel x = .returned y → y.total + n0 ≤ y.buffer.size := by
  induction fuel with
  | zero => intro x _ _ y hy; simp [read_loop] at hy
  | succ fuel ih =>
    intro x hx hg y hy
    obtain ⟨_, _, h3⟩ := read_round_inv s cond hs hc M x hx
    obtain ⟨g1, g2⟩ := read_round_grow s cond hs hc hn M n0 x hx hg
    rw [read_loop] at hy
    match hr : read_round s cond x with
    | .inr z =>
      rw [hr] at hy
      cases hy
      exact g1 _ hr
    | .inl none => rw [hr] at hy; cases hy
    | .inl (some z) =>
      rw [hr] at hy
      exact ih z (h3 z hr) (g2 z hr) y hy

theorem scripted_conforming : scripted.conforming := by
  intro st n
  unfold scripted
  split
  · simp
  · simp [List.length_take]

theorem transfer_exactly_respects (N : Nat) : (transfer_exactly N).respects := by
  intro k ec total b hb
  exact ⟨hb, rfl⟩

theorem transfer_exactly_no_shrink (N : Nat) : (transfer_exactly N).no_shrink := by
  intro k ec total b
  exact le_refl _

theorem transfer_exactly_stops (N : Nat) : (transfer_exactly N).stops_on_error := by
  intro k ec total b h
  simp [transfer_exactly, h]

theorem consuming_respects (N : Nat) : (consuming N).respects := by
  intro k ec total b hb
  obtain ⟨h1, h2⟩ := hb
  simp only [consuming, DynamicBuffer.wf, DynamicBuffer.consume, DynamicBuffer.size,
    List.length_drop] at *
  refine ⟨⟨?_, ?_⟩, trivial⟩ <;> omega

/-- C3: for every stream, every completion condition, every initial buffer and
every bound on the number of rounds, the suspend/resume operation `read_op`
and the blocking `detail::read` end in the same way: the same requests with the
same results in the same order (`log`), the same final buffer, the same stream
and condition state, and the same `(ec, total)` given to the caller; one has
not finished exactly when the other has not. -/
theorem async_read_eq_read {σ κ : Type} (s : ReadStream σ) (cond : CompletionCondition κ)
    (fuel : Nat) (st : σ) (k : κ) (buffer : DynamicBuffer) :
    async_read s cond fuel st k buffer = read s cond fuel st k buffer := by
  cases fuel with
  | zero => rfl
  | succ fuel =>
    exact drive_loop_head s cond fuel ⟨st, k, buffer, .success, 0, []⟩ .start false

/-- C1 (as amended): for a stream whose reads never transfer more than they
were asked for, a completion condition that uses the buffer through its
interface, and a well-formed buffer, `detail::read` never makes `prepare`
overflow; the value it returns is the sum of the byte counts committed over
all rounds (which is the sum of the counts transferred); the buffer's size
after the call does not exceed its `max_size`, which is unchanged; and when
the condition never shrinks the buffer, the returned total plus the initial
size does not exceed `max_size`. -/
theorem read_total_committed {σ κ : Type} (s : ReadStream σ)
    (cond : CompletionCondition κ) (fuel : Nat) (st : σ) (k : κ)
    (buffer : DynamicBuffer) (hs : s.conforming) (hc : cond.respects)
    (hb : buffer.wf) :
    read s cond fuel st k buffer ≠ .length_error ∧
    ∀ x, read s cond fuel st k buffer = .returned x →
      x.total = (x.log.map round_record.committed).sum ∧
      x.total = (x.log.map round_record.transferred).sum ∧
      x.buffer.size ≤ x.buffer.max_size ∧
      x.buffer.max_size = buffer.max_size ∧
      (cond.no_shrink → x.total + buffer.size ≤ buffer.max_size) := by
  have h0 : read_inv buffer.max_size (⟨st, k, buffer, .success, 0, []⟩ : loop_state σ κ) :=
    ⟨hb, rfl, rfl, rfl⟩
  obtain ⟨h1, h2⟩ := read_loop_inv s cond hs hc buffer.max_size fuel _ h0
  refine ⟨h1, ?_⟩
  intro x hx
  obtain ⟨hwf, hM, hsum, hsum2⟩ := h2 x hx
  refine ⟨hsum, hsum2, ?_, hM, ?_⟩
  · have := hwf.2
    omega
  · intro hn
    have hg := read_loop_grow s cond hs hc hn buffer.max_size buffer.size fuel _ h0
      (by simp) x hx
    have := hwf.2
    omega

theorem read_total_committed_witness :
    scripted.conforming ∧ (transfer_exactly 5).respects ∧
    DynamicBuffer.wf ⟨[], 0, 16, 0⟩ ∧
    (∃ x, read scripted (transfer_exactly 5) 10
        [([1, 2, 3], .success), ([4, 5, 6], .success)] () ⟨[], 0, 16, 0⟩ = .returned x ∧
      x.total = 5 ∧ x.buffer.bytes = [1, 2, 3, 4, 5]) ∧
    (read scripted (transfer_exactly 5) 10
        [([1, 2, 3], .success), ([4, 5, 6], .success)] () ⟨[], 0, 16, 0⟩ ≠ .length_error ∧
      ∀ x, read scripted (transfer_exactly 5) 10
          [([1, 2, 3], .success), ([4, 5, 6], .success)] () ⟨[], 0, 16, 0⟩ = .returned x →
        x.total = (x.log.map round_record.committed).sum ∧
        x.total = (x.log.map round_record.transferred).sum ∧
        x.buffer.size ≤ x.buffer.max_size ∧
        x.buffer.max_size = (DynamicBuffer.mk [] 0 16 0).max_size ∧
        ((transfer_exactly 5).no_shrink →
          x.total + (DynamicBuffer.mk [] 0 16 0).size ≤ (DynamicBuffer.mk [] 0 16 0).max_size)) :=
  ⟨scripted_conforming, transfer_exactly_respects 5, by decide, ⟨_, rfl, rfl, rfl⟩,
    read_total_committed scripted (transfer_exactly 5) 10
      [([1, 2, 3], .success), ([4, 5, 6], .success)] () ⟨[], 0, 16, 0⟩
      scripted_conforming (transfer_exactly_respects 5) (by decide)⟩

/-- C1, counterexample: a conforming stream, a condition that consumes the
buffer through its interface, and an empty buffer with `max_size` 4:
`detail::read` returns 8, so the returned total plus the initial size exceeds
`max_size`. -/
theorem read_total_exceeds_max_size :
    scripted.conforming ∧ (consuming 8).respects ∧ DynamicBuffer.wf ⟨[], 4, 4, 0⟩ ∧
    ∃ x, read scripted (consuming 8) 10
        [([1, 2, 3, 4], .success), ([5, 6, 7, 8], .success)] () ⟨[], 4, 4, 0⟩ = .returned x ∧
      x.total = 8 ∧ x.buffer.max_size = 4 ∧
      ¬ (x.total + (DynamicBuffer.mk [] 4 4 0).size ≤ (DynamicBuffer.mk [] 4 4 0).max_size) :=
  ⟨scripted_conforming, consuming_respects 8, by decide, ⟨_, rfl, rfl, rfl, by decide⟩⟩

theorem error_inv_all_success {σ κ : Type} (x : loop_state σ κ) (hx : error_inv x)
    (he : x.ec = .success) : ∀ r ∈ x.log, r.ec = .success := by
  obtain ⟨h1, h2, _⟩ := hx
  intro r hr
  cases hl : x.log.getLast? with
  | none =>
    rw [List.getLast?_eq_none_iff] at hl
    rw [hl] at hr
    cases hr
  | some a =>
    have hsplit := List.dropLast_append_getLast? a (by rw [hl]; rfl)
    rw [← hsplit] at hr
    rcases List.mem_append.mp hr with h | h
    · exact h1 r h
    · have : r = a := by simpa using h
      rw [this, h2 a hl, he]

theorem read_round_break {σ κ : Type} (s : ReadStream σ) (cond : CompletionCondition κ)
    (hstop : cond.stops_on_error) (x : loop_state σ κ) :
    (∀ y, read_round s cond x = .inr y →
      y.log = x.log ∧ y.total = x.total ∧ (x.ec ≠ .success → y.ec = x.ec)) ∧
    (x.ec ≠ .success → ∃ y, read_round s cond x = .inr y) := by
  refine ⟨?_, ?_⟩
  · intro y hy
    simp only [read_round] at hy
    split at hy
    · cases hy
      exact ⟨rfl, rfl, fun he => (hstop x.cond x.ec x.total x.buffer he).2⟩
    · split at hy <;> cases hy
  · intro he
    have h0 := (hstop x.cond x.ec x.total x.buffer he).1
    have hle := max_prepare_le_wanted (cond x.cond x.ec x.total x.buffer).buffer
      (cond x.cond x.ec x.total x.buffer).wanted
    have hmp : max_prepare (cond x.cond x.ec x.total x.buffer).buffer
        (cond x.cond x.ec x.total x.buffer).wanted = 0 := by omega
    simp only [read_round]
    rw [if_pos hmp]
    exact ⟨_, rfl⟩

theorem read_round_error {σ κ : Type} (s : ReadStream σ) (cond : CompletionCondition κ)
    (hstop : cond.stops_on_error) (x : loop_state σ κ) (hx : error_inv x) :
    ∀ y, read_round s cond x = .inl (some y) → error_inv y := by
  · intro y hy
    simp only [read_round] at hy
    split at hy
    · cases hy
    · rename_i hmp
      have hsucc : x.ec = .success := by
        by_contra he
        have h0 := (hstop x.cond x.ec x.total x.buffer he).1
        have hle := max_prepare_le_wanted (cond x.cond x.ec x.total x.buffer).buffer
          (cond x.cond x.ec x.total x.buffer).wanted
        omega
      split at hy
      · cases hy
      · simp only [Sum.inl.injEq, Option.some.injEq] at hy
        subst hy
        refine ⟨?_, ?_, ?_⟩
        · simpa using error_inv_all_success x hx hsucc
        · intro r hr
          simp at hr
          rw [← hr]
        · simp

theorem read_loop_error {σ κ : Type} (s : ReadStream σ) (cond : CompletionCondition κ)
    (hstop : cond.stops_on_error) (fuel : Nat) :
    ∀ x : loop_state σ κ, error_inv x →
      ∀ y, read_loop s cond fuel x = .returned y →
        (∀ r ∈ y.log.dropLast, r.ec = .success) ∧
        (∀ r, y.log.getLast? = some r → r.ec ≠ .success → y.ec = r.ec) := by
  induction fuel with
  | zero => intro x _ y hy; simp [read_loop] at hy
  | succ fuel ih =>
    intro x hx y hy
    obtain ⟨h1, _⟩ := read_round_break s cond hstop x
    have h2 := read_round_error s cond hstop x hx
    rw [read_loop] at hy
    match hr : read_round s cond x with
    | .inr z =>
      rw [hr] at hy
      cases hy
      obtain ⟨hlog, _, hec⟩ := h1 _ hr
      rw [hlog]
      refine ⟨hx.1, ?_⟩
      intro r hlast hne
      have hrx := hx.2.1 r hlast
      rw [hec (by rw [← hrx]; exact hne), hrx]
    | .inl none => rw [hr] at hy; cases hy
    | .inl (some z) =>
      rw [hr] at hy
      exact ih z (h2 z hr) y hy

/-- C2 (as amended): the read engine itself never looks at `ec`; after a
physical read reports an error the completion condition is called with that
error.  For a condition that stops on error (it answers 0 and leaves `ec`
alone), in `detail::read` and in `read_op` alike: every physical read before
the last one reported success, so no read follows an error; if the last read
reported an error the caller receives that error; and at the loop head that
follows an error the blocking loop returns at once and the coroutine invokes
the handler at once, with the total so far and with no further read. -/
theorem read_stops_on_error {σ κ : Type} (s : ReadStream σ)
    (cond : CompletionCondition κ) (hstop : cond.stops_on_error) :
    (∀ fuel st k buffer x,
      (read s cond fuel st k buffer = .returned x ∨
        async_read s cond fuel st k buffer = .returned x) →
      (∀ r ∈ x.log.dropLast, r.ec = .success) ∧
      (∀ r, x.log.getLast? = some r → r.ec ≠ .success → x.ec = r.ec)) ∧
    (∀ fuel (x : loop_state σ κ), x.ec ≠ .success →
      ∃ y, read_loop s cond (fuel + 1) x = .returned y ∧
        y.ec = x.ec ∧ y.total = x.total ∧ y.log = x.log) ∧
    (∀ (op : read_op κ) b_ region ec n cont, op.coro_ = .yielded → ec ≠ .success →
      ∃ op1 b1, read_op.call cond op b_ region ec n cont =
        .invoke op1 b1 cont ec (op.total_ + n)) := by
  refine ⟨?_, ?_, ?_⟩
  · intro fuel st k buffer x hx
    have hx1 : read s cond fuel st k buffer = .returned x := by
      rcases hx with h | h
      · exact h
      · cases fuel with
        | zero => cases h
        | succ fuel =>
          rw [← h]
          exact (drive_loop_head s cond fuel ⟨st, k, buffer, .success, 0, []⟩
            .start false).symm
    exact read_loop_error s cond hstop fuel ⟨st, k, buffer, .success, 0, []⟩
      ⟨by simp, by simp, by simp⟩ x hx1
  · intro fuel x he
    obtain ⟨h1, h3⟩ := read_round_break s cond hstop x
    obtain ⟨y, hy⟩ := h3 he
    obtain ⟨hlog, htot, hec⟩ := h1 y hy
    refine ⟨y, ?_, hec he, htot, hlog⟩
    rw [read_loop, hy]
  · intro op b_ region ec n cont hco he
    have h0 := hstop op.cond_ ec (op.total_ + n) (b_.commit region n) he
    have hle := max_prepare_le_wanted
      (cond op.cond_ ec (op.total_ + n) (b_.commit region n)).buffer
      (cond op.cond_ ec (op.total_ + n) (b_.commit region n)).wanted
    have hmp : max_prepare (cond op.cond_ ec (op.total_ + n) (b_.commit region n)).buffer
        (cond op.cond_ ec (op.total_ + n) (b_.commit region n)).wanted = 0 := by omega
    simp only [read_op.call, hco, read_op.loop_head]
    rw [if_pos hmp, h0.2]
    exact ⟨_, _, rfl⟩

theorem read_stops_on_error_witness :
    (transfer_exactly 5).stops_on_error ∧
    ∃ x, read scripted (transfer_exactly 5) 10
        [([1, 2], .success), ([], .eof), ([3], .success)] () ⟨[], 0, 16, 0⟩ = .returned x ∧
      x.ec = .eof ∧ x.total = 2 ∧
      x.log = [⟨5, 2, 2, .success⟩, ⟨3, 0, 0, .eof⟩] ∧
      ((∀ r ∈ x.log.dropLast, r.ec = .success) ∧
        (∀ r, x.log.getLast? = some r → r.ec ≠ .success → x.ec = r.ec)) :=
  ⟨transfer_exactly_stops 5, _, rfl, rfl, rfl, rfl,
    (read_stops_on_error scripted (transfer_exactly 5) (transfer_exactly_stops 5)).1 10
      [([1, 2], .success), ([], .eof), ([3], .success)] () ⟨[], 0, 16, 0⟩ _ (Or.inl rfl)⟩

/-- C2, counterexample: with a completion condition that does not look at
`ec`, the first physical read reports `eof`, a second physical read is issued
all the same, and the caller receives success, in `detail::read` and in
`read_op`. -/
theorem read_continues_after_error :
    ∃ x, read scripted (ignore_errors 1) 10
        [([], .eof), ([9], .success)] () ⟨[], 0, 16, 0⟩ = .returned x ∧
      async_read scripted (ignore_errors 1) 10
        [([], .eof), ([9], .success)] () ⟨[], 0, 16, 0⟩ = .returned x ∧
      x.log = [⟨1, 0, 0, .eof⟩, ⟨1, 1, 1, .success⟩] ∧
      x.ec = .success ∧ x.total = 1 :=
  ⟨_, rfl, rfl, rfl, rfl, rfl⟩

/-! ### The test stream -/

namespace test

theorem test_failure_none (fc : Option fail_count) (ec : error_code)
    (h : no_failure fc) :
    test_failure fc ec = (false, ec_after fc ec, fc.map fail_count.next) := by
  cases fc with
  | none => rfl
  | some f => simp [test_failure, ec_after, h f rfl]

theorem test_failure_some (f : fail_count) (e ec : error_code)
    (h : f.decision f.attempt = some e) :
    test_failure (some f) ec = (true, e, some f.next) := by
  simp [test_failure, h]

theorem no_failure_plain (b : List byte) : no_failure (plain b).fc := by
  intro f hf
  cases hf

/-- C4 (as amended): the injector is consulted before the size of the request
is looked at, and `run_read_op` first rejects a second pending read.  When the
injector does not signal failure, a request of total size 0 completes with
success and 0 bytes in `read_some`, `write_some` and `async_write_some`,
whatever the status, the buffered data, the peer and the pending read, and in
`async_read_some` when no read is pending; nothing but the operation counter
and the injector changes. -/
theorem zero_size_request (in_ : state) (out_ : Option state) (ec : error_code)
    (h : Nat) (hf : no_failure in_.fc) :
    read_some in_ 0 ec =
      .returned ⟨0, .success, [],
        { in_ with nread := in_.nread + 1, fc := in_.fc.map fail_count.next }⟩ ∧
    write_some in_ out_ [] ec =
      ⟨0, .success,
        { in_ with nwrite := in_.nwrite + 1, fc := in_.fc.map fail_count.next },
        out_, []⟩ ∧
    run_write_op h in_ out_ [] =
      ⟨{ in_ with nwrite := in_.nwrite + 1, fc := in_.fc.map fail_count.next },
        out_, [.handler h .success 0]⟩ ∧
    (in_.op = none →
      run_read_op h in_ 0 =
        .done ⟨{ in_ with nread := in_.nread + 1, fc := in_.fc.map fail_count.next },
          [], [.handler h .success 0]⟩) := by
  have hs : ec_after in_.fc .success = .success := by
    unfold ec_after; split <;> rfl
  refine ⟨?_, ?_, ?_, ?_⟩
  · simp [read_some, test_failure_none _ _ hf]
  · simp [write_some, test_failure_none _ _ hf]
  · simp [run_write_op, test_failure_none _ _ hf, hs]
  · intro hop
    simp [run_read_op, test_failure_none _ _ hf, hs, hop]

theorem zero_size_request_witness :
    no_failure (plain [1, 2]).fc ∧
    read_some (plain [1, 2]) 0 .eof =
      .returned ⟨0, .success, [],
        { plain [1, 2] with nread := (plain [1, 2]).nread + 1,
                            fc := (plain [1, 2]).fc.map fail_count.next }⟩ :=
  ⟨no_failure_plain _, (zero_size_request (plain [1, 2]) none .eof 0 (no_failure_plain _)).1⟩

/-- C4, counterexample: with an injector that signals failure, a read and a
write request of size 0 complete with the injected error, not with success;
and with a read pending, `async_read_some` of size 0 throws
`std::logic_error`. -/
theorem zero_size_request_fails :
    (∃ r, read_some { plain [] with fc := some (always_fail (.other 1)) } 0 .success =
        .returned r ∧ r.n = 0 ∧ r.ec = .other 1) ∧
    (write_some { plain [] with fc := some (always_fail (.other 1)) } (some (plain []))
        [] .success).ec = .other 1 ∧
    (∃ s, run_read_op 7 { plain [] with op := some ⟨3, 4⟩ } 0 = .logic_error s) :=
  ⟨⟨_, rfl, rfl, rfl⟩, rfl, ⟨_, rfl⟩⟩

end test

namespace test

/-- C5: when the injector signals failure with error `e`, `read_some` and
`write_some` return 0 bytes with exactly `e`; the half is as before except for
the operation counter and the injector (so its receive buffer, its status and
its pending-read slot are unchanged), the peer half is untouched, and nothing
is notified or scheduled. -/
theorem injected_failure_frame (in_ : state) (out_ : Option state) (n : Nat)
    (buffers : List byte) (ec : error_code) (f : fail_count) (e : error_code)
    (hfc : in_.fc = some f) (hfail : f.decision f.attempt = some e) :
    read_some in_ n ec =
      .returned ⟨0, e, [], { in_ with nread := in_.nread + 1, fc := some f.next }⟩ ∧
    write_some in_ out_ buffers ec =
      ⟨0, e, { in_ with nwrite := in_.nwrite + 1, fc := some f.next }, out_, []⟩ := by
  constructor
  · simp [read_some, hfc, test_failure_some f e ec hfail]
  · simp [write_some, hfc, test_failure_some f e ec hfail]

theorem injected_failure_frame_witness :
    (state.fc { plain [1, 2] with fc := some (always_fail (.other 1)) } =
      some (always_fail (.other 1))) ∧
    (always_fail (.other 1)).decision (always_fail (.other 1)).attempt = some (.other 1) ∧
    (read_some { plain [1, 2] with fc := some (always_fail (.other 1)) } 4 .success =
      .returned ⟨0, .other 1, [],
        { plain [1, 2] with nread := 1, fc := some (always_fail (.other 1)).next }⟩ ∧
    write_some { plain [1, 2] with fc := some (always_fail (.other 1)) }
        (some (plain [5])) [7, 8] .success =
      ⟨0, .other 1,
        { plain [1, 2] with nwrite := 1, fc := some (always_fail (.other 1)).next },
        some (plain [5]), []⟩) :=
  ⟨rfl, rfl,
    injected_failure_frame { plain [1, 2] with fc := some (always_fail (.other 1)) }
      (some (plain [5])) 4 [7, 8] .success (always_fail (.other 1)) (.other 1) rfl rfl⟩

/-- C9: a write of a non-empty source, with no injected failure, on a half
whose peer no longer exists completes with `connection_reset` and 0 bytes, in
`write_some` and in `async_write_some`; the writer's half changes only in its
operation counter and injector, so no buffer is modified. -/
theorem write_to_destroyed_peer (in_ : state) (buffers : List byte) (ec : error_code)
    (h : Nat) (hne : buffers ≠ []) (hf : no_failure in_.fc) :
    write_some in_ none buffers ec =
      ⟨0, .connection_reset,
        { in_ with nwrite := in_.nwrite + 1, fc := in_.fc.map fail_count.next },
        none, []⟩ ∧
    run_write_op h in_ none buffers =
      ⟨{ in_ with nwrite := in_.nwrite + 1, fc := in_.fc.map fail_count.next },
        none, [.handler h .connection_reset 0]⟩ := by
  have hlen : buffers.length ≠ 0 := by
    intro h0
    exact hne (List.length_eq_zero.mp h0)
  constructor
  · simp [write_some, test_failure_none _ _ hf, hne]
  · simp [run_write_op, test_failure_none _ _ hf, hne]

theorem write_to_destroyed_peer_witness :
    ([1, 2, 3] : List byte) ≠ [] ∧ no_failure (plain [9]).fc ∧
    write_some (plain [9]) none [1, 2, 3] .success =
      ⟨0, .connection_reset,
        { plain [9] with nwrite := (plain [9]).nwrite + 1,
                         fc := (plain [9]).fc.map fail_count.next },
        none, []⟩ :=
  ⟨by decide, no_failure_plain _,
    (write_to_destroyed_peer (plain [9]) [1, 2, 3] .success 0 (by decide)
      (no_failure_plain _)).1⟩

/-- C10: `async_read_some` on a half that already has a pending read throws
`std::logic_error`: nothing is scheduled or registered, the injector is not
consulted, and the half is as before except for the read counter, so the
registered read and the receive buffer are unchanged.  Conversely, a call
that does not throw found the slot empty, and leaves it empty or holding its
own read: the slot never holds a second read. -/
theorem second_pending_read_rejected (h : Nat) (in_ : state) (buffers : Nat) :
    (∀ p, in_.op = some p →
      run_read_op h in_ buffers = .logic_error { in_ with nread := in_.nread + 1 }) ∧
    (∀ r, run_read_op h in_ buffers = .done r →
      in_.op = none ∧ (r.in_.op = none ∨ r.in_.op = some ⟨h, buffers⟩)) := by
  constructor
  · intro p hp
    simp [run_read_op, hp]
  · intro r hr
    cases hop : in_.op with
    | some p => simp [run_read_op, hop] at hr
    | none =>
      refine ⟨rfl, ?_⟩
      simp only [run_read_op, hop, Option.isSome_none, Bool.false_eq_true, if_false] at hr
      split at hr
      · cases hr; exact Or.inl rfl
      · split at hr
        · cases hr; exact Or.inl rfl
        · split at hr
          · cases hr; exact Or.inl rfl
          · split at hr
            · cases hr; exact Or.inl rfl
            · cases hr; exact Or.inr rfl

end test

namespace test

theorem second_pending_read_rejected_witness :
    run_read_op 7 { plain [1] with op := some ⟨3, 4⟩ } 2 =
      .logic_error { plain [1] with op := some ⟨3, 4⟩, nread := 1 } :=
  (second_pending_read_rejected 7 { plain [1] with op := some ⟨3, 4⟩ } 2).1 ⟨3, 4⟩ rfl

theorem copy_out_eq (buffers : Nat) (b : List byte) (read_max : Nat) :
    copy_out buffers b read_max =
      (min buffers (min b.length read_max),
        b.take (min buffers (min b.length read_max)),
        b.drop (min buffers (min b.length read_max))) := rfl

/-- The data path of `write_some`: what the call does for a non-empty source,
no injected failure and a live peer. -/
theorem write_some_data_path (in_ out : state) (buffers : List byte) (ec : error_code)
    (hne : buffers ≠ []) (hf : no_failure in_.fc) :
    write_some in_ (some out) buffers ec =
      ⟨min buffers.length in_.write_max, ec_after in_.fc ec,
        { in_ with nwrite := in_.nwrite + 1, fc := in_.fc.map fail_count.next },
        some (state.notify_read
          { out with b := out.b ++ buffers.take (min buffers.length in_.write_max) }).1,
        (state.notify_read
          { out with b := out.b ++ buffers.take (min buffers.length in_.write_max) }).2⟩ := by
  simp [write_some, test_failure_none _ _ hf, hne]

theorem notify_read_b (s : state) : (state.notify_read s).1.b = s.b := by
  unfold state.notify_read
  split <;> rfl

/-- The data path of `read_some`: what the call does for a non-empty
destination, no injected failure and a non-empty receive buffer. -/
theorem read_some_data_path (in_ : state) (d : Nat) (ec : error_code)
    (hd : 0 < d) (hf : no_failure in_.fc) (hb : in_.b ≠ []) :
    read_some in_ d ec =
      .returned ⟨min d (min in_.b.length in_.read_max), ec_after in_.fc ec,
        in_.b.take (min d (min in_.b.length in_.read_max)),
        { in_ with nread := in_.nread + 1, fc := in_.fc.map fail_count.next,
                   b := in_.b.drop (min d (min in_.b.length in_.read_max)) }⟩ := by
  have hd0 : d ≠ 0 := by omega
  have hlen : 0 < in_.b.length := List.length_pos.mpr hb
  simp [read_some, test_failure_none _ _ hf, hd0, hlen, copy_out_eq]

/-- What `write_some` does for a non-empty source of length `len`, no
injected failure and a live peer, `write_some` returns
`n = min(len, write_max)`, the peer's receive buffer becomes its previous
contents followed by the first `n` bytes of the source, and the writer's own
receive buffer is unchanged; but `ec` is assigned on this path only by the
injector, so without an injector the caller's `ec` keeps the value it had on
entry instead of being set to success. -/
theorem write_some_copies (in_ out : state) (buffers : List byte) (ec : error_code)
    (hne : buffers ≠ []) (hf : no_failure in_.fc) :
    (write_some in_ (some out) buffers ec).n = min buffers.length in_.write_max ∧
    (∃ o, (write_some in_ (some out) buffers ec).out = some o ∧
      o.b = out.b ++ buffers.take (min buffers.length in_.write_max)) ∧
    (write_some in_ (some out) buffers ec).in_.b = in_.b ∧
    (write_some in_ (some out) buffers ec).ec = ec_after in_.fc ec ∧
    (in_.fc = none → (write_some in_ (some out) buffers ec).ec = ec) := by
  rw [write_some_data_path in_ out buffers ec hne hf]
  refine ⟨rfl, ⟨_, rfl, ?_⟩, rfl, rfl, ?_⟩
  · rw [notify_read_b]
  · intro hnone
    simp [ec_after, hnone]

/-- C6, the failing input: no injector, a live peer, source `[1, 2, 3]`, and
`eof` in the caller's `ec` on entry; the call transfers 3 bytes and leaves
`eof` in `ec`. -/
theorem write_some_stale_error :
    ([1, 2, 3] : List byte) ≠ [] ∧ no_failure (plain []).fc ∧
    (write_some (plain []) (some (plain [9])) [1, 2, 3] .eof).n = 3 ∧
    (write_some (plain []) (some (plain [9])) [1, 2, 3] .eof).ec = .eof :=
  ⟨by decide, no_failure_plain _, rfl,
    (write_some_copies (plain []) (plain [9]) [1, 2, 3] .eof (by decide)
      (no_failure_plain _)).2.2.2.2 rfl⟩

/-- What `read_some` does for a destination of capacity `d > 0`, no
injected failure and a receive buffer of `k > 0` bytes, whatever the status,
`read_some` returns `n = min(d, k, read_max)`, copies the first `n` buffered
bytes to the destination and leaves the other `k - n` in order; but `ec` is
assigned on this path only by the injector, so without an injector the
caller's `ec` keeps the value it had on entry instead of being set to
success. -/
theorem read_some_delivers (in_ : state) (d : Nat) (ec : error_code)
    (hd : 0 < d) (hf : no_failure in_.fc) (hb : in_.b ≠ []) :
    ∃ r, read_some in_ d ec = .returned r ∧
      r.n = min d (min in_.b.length in_.read_max) ∧
      r.data = in_.b.take r.n ∧
      r.in_.b = in_.b.drop r.n ∧
      r.in_.b.length = in_.b.length - r.n ∧
      r.in_.code = in_.code ∧
      r.ec = ec_after in_.fc ec ∧
      (in_.fc = none → r.ec = ec) := by
  refine ⟨_, read_some_data_path in_ d ec hd hf hb, rfl, rfl, rfl, ?_, rfl, rfl, ?_⟩
  · simp
  · intro hnone
    simp [ec_after, hnone]

/-- C7, the failing input: no injector, receive buffer `[1, 2, 3]`, a
destination of 2 bytes, and `eof` in the caller's `ec` on entry; the call
delivers 2 bytes and leaves `eof` in `ec`. -/
theorem read_some_stale_error :
    0 < 2 ∧ no_failure (plain [1, 2, 3]).fc ∧ (plain [1, 2, 3]).b ≠ [] ∧
    ∃ r, read_some (plain [1, 2, 3]) 2 .eof = .returned r ∧
      r.n = 2 ∧ r.data = [1, 2] ∧ r.in_.b = [3] ∧ r.ec = .eof :=
  ⟨by decide, no_failure_plain _, by decide,
    (read_some_delivers (plain [1, 2, 3]) 2 .eof (by decide) (no_failure_plain _)
      (by decide)).elim fun r hr => ⟨r, hr.1, by rw [hr.2.1]; rfl,
        by rw [hr.2.2.1, hr.2.1]; rfl, by rw [hr.2.2.2.1, hr.2.1]; rfl,
        hr.2.2.2.2.2.2.2 rfl⟩⟩

end test

namespace test

/-- What a read does on a half whose status is not `ok`: with
`read_max > 0`, no injected failure and a non-empty destination, `read_some`
never waits.  While bytes are buffered it delivers at least one of them, from
the front and in order, and does not assign `eof`; with the buffer empty it
returns `eof` and 0 bytes; the status is unchanged, so this repeats until the
buffer is drained.  The fired pending read (`read_op::lambda`) does the same
with a fresh `ec`.  But on the delivering path of `read_some` only the
injector assigns `ec`: without an injector the caller's `ec` keeps its value
on entry, so a read entered with `eof` in `ec` returns bytes together with
`eof`. -/
theorem closed_half_read (in_ : state) (d : Nat) (ec : error_code) (p : read_op)
    (hcode : in_.code ≠ .ok) (hd : 0 < d) (hmax : 0 < in_.read_max)
    (hf : no_failure in_.fc) (hp : 0 < p.b_) :
    (∃ r, read_some in_ d ec = .returned r ∧
      r.data ++ r.in_.b = in_.b ∧ r.n = r.data.length ∧ r.in_.code = in_.code ∧
      (in_.b ≠ [] → 0 < r.n ∧ r.ec = ec_after in_.fc ec) ∧
      (in_.b = [] → r.n = 0 ∧ r.ec = .eof)) ∧
    (in_.b ≠ [] → ∃ n, 0 < n ∧
      read_op.lambda p in_ false =
        ⟨{ in_ with b := in_.b.drop n }, in_.b.take n, [.handler p.h_ .success n]⟩) ∧
    (in_.b = [] →
      read_op.lambda p in_ false = ⟨in_, [], [.handler p.h_ .eof 0]⟩) := by
  have hd0 : d ≠ 0 := by omega
  refine ⟨?_, ?_, ?_⟩
  · by_cases hb : in_.b = []
    · refine ⟨⟨0, .eof, [],
        { in_ with nread := in_.nread + 1, fc := in_.fc.map fail_count.next }⟩,
        ?_, ?_, rfl, rfl, ?_, ?_⟩
      · simp [read_some, test_failure_none _ _ hf, hd0, hb, hcode]
      · simp [hb]
      · intro h; exact absurd hb h
      · intro _; exact ⟨rfl, rfl⟩
    · have hlen : 0 < in_.b.length := List.length_pos.mpr hb
      refine ⟨_, read_some_data_path in_ d ec hd hf hb, ?_, ?_, rfl, ?_, ?_⟩
      · simp
      · simp only [List.length_take]
        omega
      · intro _
        refine ⟨?_, rfl⟩
        show 0 < min d (min in_.b.length in_.read_max)
        omega
      · intro h; exact absurd h hb
  · intro hb
    have hlen : 0 < in_.b.length := List.length_pos.mpr hb
    refine ⟨min p.b_ (min in_.b.length in_.read_max), by omega, ?_⟩
    simp [read_op.lambda, hlen, copy_out_eq]
  · intro hb
    simp [read_op.lambda, hb]

/-- C8, the failing input: a half with status `eof`, no injector, receive
buffer `[1, 2, 3]`, a destination of 2 bytes, and `eof` in the caller's `ec`
on entry: the call returns 2 bytes together with `eof` while a byte is still
buffered. -/
theorem closed_half_read_stale_error :
    ∃ r, read_some { plain [1, 2, 3] with code := .eof } 2 .eof = .returned r ∧
      r.n = 2 ∧ r.data = [1, 2] ∧ r.in_.b = [3] ∧ r.ec = .eof :=
  ⟨_, rfl, rfl, rfl, rfl, rfl⟩

end test

/-- C19: in a round of the read engine, with `wanted` the value the completion
condition returned and the buffer as the condition left it (well formed), the
size asked of the physical read is `min(max(512, capacity - size), wanted,
max_size - size)`; it is 0 exactly when `wanted = 0` or `size = max_size`; it
exceeds neither `wanted` nor `max_size - size`; `detail::read` breaks out of
its loop in that round exactly when it is 0 and otherwise reads with that
size; and `read_op` invokes the handler exactly when it is 0 and otherwise
calls `async_read_some` with that size. -/
theorem chunk_size {σ κ : Type} (s : ReadStream σ) (cond : CompletionCondition κ)
    (x : loop_state σ κ) (cont : Bool) (c : cond_result κ)
    (hc : cond x.cond x.ec x.total x.buffer = c) (hwf : c.buffer.wf) :
    max_prepare c.buffer c.wanted =
      min (min (max 512 (c.buffer.capacity - c.buffer.size)) c.wanted)
        (c.buffer.max_size - c.buffer.size) ∧
    (max_prepare c.buffer c.wanted = 0 ↔
      c.wanted = 0 ∨ c.buffer.size = c.buffer.max_size) ∧
    max_prepare c.buffer c.wanted ≤ c.wanted ∧
    max_prepare c.buffer c.wanted ≤ c.buffer.max_size - c.buffer.size ∧
    (max_prepare c.buffer c.wanted = 0 →
      read_round s cond x =
          .inr { x with cond := c.self, ec := c.ec, buffer := c.buffer } ∧
        read_op.loop_head cond ⟨x.cond, x.total, .yielded⟩ x.buffer x.ec cont =
          .invoke ⟨c.self, x.total, .complete⟩ c.buffer cont c.ec x.total) ∧
    (max_prepare c.buffer c.wanted ≠ 0 →
      ∃ pb, c.buffer.prepare (max_prepare c.buffer c.wanted) = some pb ∧
        pb.out = max_prepare c.buffer c.wanted ∧
        (∃ y, read_round s cond x = .inl (some y) ∧
          y.stream = (s x.stream (max_prepare c.buffer c.wanted)).next ∧
          y.log = x.log ++
            [⟨max_prepare c.buffer c.wanted,
              (s x.stream (max_prepare c.buffer c.wanted)).data.length,
              y.buffer.size - pb.size,
              (s x.stream (max_prepare c.buffer c.wanted)).ec⟩]) ∧
        read_op.loop_head cond ⟨x.cond, x.total, .yielded⟩ x.buffer x.ec cont =
          .async_read_some ⟨c.self, x.total, .yielded⟩ pb
            (max_prepare c.buffer c.wanted)) := by
  have hsz : c.buffer.size ≤ c.buffer.max_size := by
    have := hwf.2
    omega
  refine ⟨?_, ?_, max_prepare_le_wanted _ _, max_prepare_le_room _ _, ?_, ?_⟩
  · unfold max_prepare; omega
  · unfold max_prepare; omega
  · intro h0
    simp only [read_round, read_op.loop_head, hc, h0, if_true]
    exact ⟨trivial, trivial⟩
  · intro hne
    have hprep := prepare_max_prepare c.buffer c.wanted hwf
    refine ⟨_, hprep, rfl, ?_, ?_⟩
    · simp only [read_round, hc, hne, if_false, hprep]
      exact ⟨_, rfl, rfl, rfl⟩
    · simp only [read_op.loop_head, hc, hne, if_false, hprep]

theorem chunk_size_witness :
    DynamicBuffer.wf (transfer_exactly 5 () .success 0 ⟨[], 0, 16, 0⟩).buffer ∧
    max_prepare (DynamicBuffer.mk [] 0 16 0) 5 = 5 ∧
    max_prepare (transfer_exactly 5 () .success 0 ⟨[], 0, 16, 0⟩).buffer
        (transfer_exactly 5 () .success 0 ⟨[], 0, 16, 0⟩).wanted =
      min (min (max 512 ((DynamicBuffer.mk [] 0 16 0).capacity -
          (DynamicBuffer.mk [] 0 16 0).size)) 5)
        ((DynamicBuffer.mk [] 0 16 0).max_size - (DynamicBuffer.mk [] 0 16 0).size) :=
  ⟨by decide, by decide,
    (chunk_size scripted (transfer_exactly 5)
      ⟨[([1, 2, 3], .success)], (), ⟨[], 0, 16, 0⟩, .success, 0, []⟩ true _ rfl
      (by decide)).1⟩

theorem read_round_log {σ κ : Type} (s : ReadStream σ) (cond : CompletionCondition κ)
    (x : loop_state σ κ) :
    (∀ y, read_round s cond x = .inr y → y.log = x.log ∧ y.total = x.total) ∧
    (∀ y, read_round s cond x = .inl (some y) → y.log.length = x.log.length + 1) := by
  constructor
  · intro y hy
    simp only [read_round] at hy
    split at hy
    · cases hy; exact ⟨rfl, rfl⟩
    · split at hy <;> cases hy
  · intro y hy
    simp only [read_round] at hy
    split at hy
    · cases hy
    · split at hy
      · cases hy
      · simp only [Sum.inl.injEq, Option.some.injEq] at hy
        subst hy
        simp

/-- The number of loop iterations a returning run of `detail::read` needs is
the number of physical reads it made plus the final call of the condition. -/
theorem read_loop_fuel {σ κ : Type} (s : ReadStream σ) (cond : CompletionCondition κ)
    (fuel : Nat) :
    ∀ (x y : loop_state σ κ), read_loop s cond fuel x = .returned y →
      x.log.length ≤ y.log.length ∧
      read_loop s cond (y.log.length - x.log.length + 1) x = .returned y ∧
      ∀ f, f ≤ y.log.length - x.log.length → read_loop s cond f x = .running := by
  induction fuel with
  | zero => intro x y h; simp [read_loop] at h
  | succ fuel ih =>
    intro x y h
    obtain ⟨h1, h2⟩ := read_round_log s cond x
    rw [read_loop] at h
    match hr : read_round s cond x with
    | .inr z =>
      rw [hr] at h
      cases h
      have hlog := (h1 _ hr).1
      rw [hlog]
      refine ⟨le_refl _, ?_, ?_⟩
      · simp [read_loop, hr]
      · intro f hf
        have : f = 0 := by omega
        subst this
        rfl
    | .inl none => rw [hr] at h; cases h
    | .inl (some z) =>
      rw [hr] at h
      have hz := h2 z hr
      obtain ⟨g1, g2, g3⟩ := ih z y h
      have hd : y.log.length - x.log.length = (y.log.length - z.log.length) + 1 := by omega
      refine ⟨by omega, ?_, ?_⟩
      · rw [hd, read_loop, hr]
        exact g2
      · intro f hf
        cases f with
        | zero => rfl
        | succ f =>
          rw [read_loop, hr]
          exact g3 f (by omega)

theorem requests_within_append (N : Nat) (log : List round_record) (r : round_record)
    (h : requests_within N log)
    (hr : r.requested + (log.map round_record.transferred).sum ≤ N) :
    requests_within N (log ++ [r]) := by
  intro i hi
  by_cases hlt : i < log.length
  · have := h i hlt
    rw [List.getElem_append_left hlt, List.take_append_of_le_length (le_of_lt hlt)]
    exact this
  · have hi2 : i = log.length := by
      simp at hi
      omega
    subst hi2
    simp
    exact hr

theorem read_round_exactly {σ κ : Type} (s : ReadStream σ) (cond : CompletionCondition κ)
    (N : Nat) (hc : cond.exactly N) (hs : s.progressing) (x : loop_state σ κ)
    (hx : exactly_inv N x) :
    (x.total = N → ∃ y, read_round s cond x = .inr y ∧ exactly_inv N y ∧ y.total = N) ∧
    (x.total < N → ∃ y, read_round s cond x = .inl (some y) ∧ exactly_inv N y ∧
      x.total < y.total) := by
  obtain ⟨hwf, hec, hle, hroom, hsum, hreq, hrec, hlen⟩ := hx
  obtain ⟨cw, ce, cb⟩ := hc x.cond x.ec x.total x.buffer
  have hmp : max_prepare x.buffer (N - x.total) = min (max 512 (x.buffer.capacity -
      x.buffer.size)) (N - x.total) := by
    unfold max_prepare; omega
  constructor
  · intro hN
    have h0 : max_prepare x.buffer (N - x.total) = 0 := by rw [hmp]; omega
    have hr : read_round s cond x = .inr { x with
        cond := (cond x.cond x.ec x.total x.buffer).self,
        ec := (cond x.cond x.ec x.total x.buffer).ec,
        buffer := (cond x.cond x.ec x.total x.buffer).buffer } := by
      simp only [read_round, cw, cb, h0, if_true]
    refine ⟨_, hr, ?_, hN⟩
    exact ⟨by rw [cb]; exact hwf, by rw [ce]; exact hec, hle, by rw [cb]; exact hroom,
      hsum, hreq, hrec, hlen⟩
  · intro hlt
    have hpos : 0 < max_prepare x.buffer (N - x.total) := by rw [hmp]; omega
    have hne : max_prepare x.buffer (N - x.total) ≠ 0 := by omega
    have hprep := prepare_max_prepare x.buffer (N - x.total) hwf
    obtain ⟨se, s1, s2⟩ := hs x.stream _ hpos
    have hmw := max_prepare_le_wanted x.buffer (N - x.total)
    have h1 := hwf.1
    have h2 := hwf.2
    have hr : ∃ y, read_round s cond x = .inl (some y) ∧
        y = { stream := (s x.stream (max_prepare x.buffer (N - x.total))).next,
              cond := (cond x.cond x.ec x.total x.buffer).self,
              buffer := DynamicBuffer.commit
                { x.buffer with
                  capacity := max x.buffer.capacity
                    (x.buffer.size + max_prepare x.buffer (N - x.total)),
                  out := max_prepare x.buffer (N - x.total) }
                (s x.stream (max_prepare x.buffer (N - x.total))).data
                (s x.stream (max_prepare x.buffer (N - x.total))).data.length,
              ec := (s x.stream (max_prepare x.buffer (N - x.total))).ec,
              total := x.total +
                (s x.stream (max_prepare x.buffer (N - x.total))).data.length,
              log := x.log ++ [⟨max_prepare x.buffer (N - x.total),
                (s x.stream (max_prepare x.buffer (N - x.total))).data.length,
                (DynamicBuffer.commit
                  { x.buffer with
                    capacity := max x.buffer.capacity
                      (x.buffer.size + max_prepare x.buffer (N - x.total)),
                    out := max_prepare x.buffer (N - x.total) }
                  (s x.stream (max_prepare x.buffer (N - x.total))).data
                  (s x.stream (max_prepare x.buffer (N - x.total))).data.length).size -
                  (DynamicBuffer.mk x.buffer.bytes
                    (max x.buffer.capacity
                      (x.buffer.size + max_prepare x.buffer (N - x.total)))
                    x.buffer.max_size (max_prepare x.buffer (N - x.total))).size,
                (s x.stream (max_prepare x.buffer (N - x.total))).ec⟩] } := by
      simp only [read_round, cw, cb, hne, if_false, hprep]
      exact ⟨_, rfl, rfl⟩
    obtain ⟨y, hy, hyeq⟩ := hr
    subst hyeq
    refine ⟨_, hy, ?_, ?_⟩
    · refine ⟨?_, se, ?_, ?_, ?_, ?_, ?_, ?_⟩
      · simp only [DynamicBuffer.wf, DynamicBuffer.size, DynamicBuffer.commit,
          List.length_append, List.length_take] at *
        omega
      · show x.total + _ ≤ N
        omega
      · simp only [DynamicBuffer.size, DynamicBuffer.commit,
          List.length_append, List.length_take] at *
        omega
      · simp only [List.map_append, List.sum_append, List.map_cons, List.map_nil,
          List.sum_cons, List.sum_nil]
        omega
      · apply requests_within_append _ _ _ hreq
        show max_prepare x.buffer (N - x.total) + _ ≤ N
        omega
      · intro r hr
        rcases List.mem_append.mp hr with h | h
        · exact hrec r h
        · have hr2 : r = _ := List.mem_singleton.mp h
          subst hr2
          exact ⟨s1, s2, se⟩
      · simp only [List.length_append, List.length_singleton]
        omega
    · show x.total < x.total + _
      omega

theorem read_loop_exactly {σ κ : Type} (s : ReadStream σ) (cond : CompletionCondition κ)
    (N : Nat) (hc : cond.exactly N) (hs : s.progressing) (fuel : Nat) :
    ∀ x : loop_state σ κ, exactly_inv N x → N - x.total < fuel →
      ∃ y, read_loop s cond fuel x = .returned y ∧ exactly_inv N y ∧ y.total = N := by
  induction fuel with
  | zero => intro x _ h; omega
  | succ fuel ih =>
    intro x hx hf
    obtain ⟨h1, h2⟩ := read_round_exactly s cond N hc hs x hx
    have hle := hx.2.2.1
    rcases Nat.lt_or_ge x.total N with hlt | hge
    · obtain ⟨z, hz, hinv, hprog⟩ := h2 hlt
      have hz2 : N - z.total < fuel := by
        clear h1 h2 ih hz hinv
        omega
      obtain ⟨y, hy, hyinv, hyN⟩ := ih z hinv hz2
      exact ⟨y, by rw [read_loop, hz]; exact hy, hyinv, hyN⟩
    · obtain ⟨z, hz, hinv, hzN⟩ := h1 (by omega)
      exact ⟨z, by rw [read_loop, hz], hinv, hzN⟩

/-- C13: for a completion condition of the form "wanted = N - total", a
well-formed buffer with `max_size - size >= N`, and physical reads that
report no error and deliver between 1 and the requested number of bytes,
`detail::read` returns (within `N + 1` loop iterations) `total = N` with
success; in no round did it request more than `N` minus the bytes transferred
before; every round transferred at least one byte; and the loop ran exactly
one iteration per physical read plus the final call of the condition. -/
theorem read_exactly {σ κ : Type} (s : ReadStream σ) (cond : CompletionCondition κ)
    (N fuel : Nat) (st : σ) (k : κ) (buffer : DynamicBuffer)
    (hc : cond.exactly N) (hs : s.progressing) (hwf : buffer.wf)
    (hroom : N ≤ buffer.max_size - buffer.size) (hfuel : N < fuel) :
    ∃ x, read s cond fuel st k buffer = .returned x ∧
      x.total = N ∧ x.ec = .success ∧
      requests_within N x.log ∧
      (∀ r ∈ x.log, 1 ≤ r.transferred ∧ r.transferred ≤ r.requested ∧ r.ec = .success) ∧
      x.log.length ≤ N ∧
      read s cond (x.log.length + 1) st k buffer = .returned x ∧
      (∀ f, f ≤ x.log.length → read s cond f st k buffer = .running) := by
  have h0 : exactly_inv N (⟨st, k, buffer, .success, 0, []⟩ : loop_state σ κ) := by
    refine ⟨hwf, rfl, Nat.zero_le _, hroom, rfl, ?_, ?_, le_refl _⟩
    · intro i hi; cases hi
    · intro r hr; cases hr
  obtain ⟨x, hx, hinv, hN⟩ := read_loop_exactly s cond N hc hs fuel _ h0 (by simpa using hfuel)
  obtain ⟨_, hec, _, _, _, hreq, hrec, hlen⟩ := hinv
  obtain ⟨_, f2, f3⟩ := read_loop_fuel s cond fuel _ x hx
  exact ⟨x, hx, hN, hec, hreq, hrec, by omega, by simpa [read] using f2,
    by simpa [read] using f3⟩

theorem chunked_progressing : chunked.progressing := by
  intro st n hn
  unfold chunked
  split
  · simp; omega
  · simp; omega

theorem ignore_errors_exactly (N : Nat) : (ignore_errors N).exactly N := by
  intro k ec total b
  exact ⟨rfl, rfl, rfl⟩

theorem read_exactly_witness :
    (ignore_errors 100).exactly 100 ∧ chunked.progressing ∧
    DynamicBuffer.wf ⟨[], 0, 1000, 0⟩ ∧
    100 ≤ (DynamicBuffer.mk [] 0 1000 0).max_size - (DynamicBuffer.mk [] 0 1000 0).size ∧
    100 < 101 ∧
    (∃ x, read chunked (ignore_errors 100) 101 [40, 40, 20] () ⟨[], 0, 1000, 0⟩ =
        .returned x ∧
      x.total = 100 ∧ x.ec = .success ∧
      x.log = [⟨100, 40, 40, .success⟩, ⟨60, 40, 40, .success⟩, ⟨20, 20, 20, .success⟩]) ∧
    (∃ x, read chunked (ignore_errors 100) 101 [40, 40, 20] () ⟨[], 0, 1000, 0⟩ =
        .returned x ∧
      x.total = 100 ∧ x.ec = .success ∧
      requests_within 100 x.log ∧
      (∀ r ∈ x.log, 1 ≤ r.transferred ∧ r.transferred ≤ r.requested ∧ r.ec = .success) ∧
      x.log.length ≤ 100 ∧
      read chunked (ignore_errors 100) (x.log.length + 1) [40, 40, 20] ()
        ⟨[], 0, 1000, 0⟩ = .returned x ∧
      (∀ f, f ≤ x.log.length →
        read chunked (ignore_errors 100) f [40, 40, 20] () ⟨[], 0, 1000, 0⟩ = .running)) :=
  ⟨ignore_errors_exactly 100, chunked_progressing, by decide, by decide, by decide,
    ⟨_, rfl, rfl, rfl, rfl⟩,
    read_exactly chunked (ignore_errors 100) 100 101 [40, 40, 20] () ⟨[], 0, 1000, 0⟩
      (ignore_errors_exactly 100) chunked_progressing (by decide) (by decide) (by decide)⟩

namespace test

theorem notify_read_fc (s : state) : (state.notify_read s).1.fc = s.fc := by
  unfold state.notify_read
  split <;> rfl

theorem notify_read_read_max (s : state) :
    (state.notify_read s).1.read_max = s.read_max := by
  unfold state.notify_read
  split <;> rfl

/-- What the round trip of C11 does: with no injected failure on either half,
the peer's receive buffer empty, and a non-empty `s` that fits the writer's
`write_max`, the reader's `read_max` and the destination, `write_some`
transfers all of `s` into the peer and the following `read_some` on the peer
delivers exactly `s` and leaves its buffer empty; each call leaves in `ec`
what the injector left there, which without an injector is the caller's value
on entry. -/
theorem round_trip (a b : state) (s : List byte) (d : Nat) (eca ecb : error_code)
    (hs : s ≠ []) (hb : b.b = []) (hw : s.length ≤ a.write_max)
    (hr : s.length ≤ b.read_max) (hd : s.length ≤ d)
    (hfa : no_failure a.fc) (hfb : no_failure b.fc) :
    (write_some a (some b) s eca).n = s.length ∧
    (write_some a (some b) s eca).ec = ec_after a.fc eca ∧
    ∃ b1, (write_some a (some b) s eca).out = some b1 ∧ b1.b = s ∧
      ∃ r, read_some b1 d ecb = .returned r ∧
        r.n = s.length ∧ r.data = s ∧ r.in_.b = [] ∧ r.ec = ec_after b.fc ecb := by
  have hlen : 0 < s.length := List.length_pos.mpr hs
  rw [write_some_data_path a b s eca hs hfa]
  have hmin : min s.length a.write_max = s.length := by omega
  refine ⟨hmin, rfl, _, rfl, ?_, ?_⟩
  · rw [notify_read_b, hmin]
    simp [hb]
  · have hb1 : (state.notify_read
        { b with b := b.b ++ List.take (min s.length a.write_max) s }).1.b = s := by
      rw [notify_read_b, hmin]
      simp [hb]
    have hf1 : no_failure (state.notify_read
        { b with b := b.b ++ List.take (min s.length a.write_max) s }).1.fc := by
      rw [notify_read_fc]
      exact hfb
    have hne : (state.notify_read
        { b with b := b.b ++ List.take (min s.length a.write_max) s }).1.b ≠ [] := by
      rw [hb1]; exact hs
    refine ⟨_, read_some_data_path _ d ecb (by omega) hf1 hne, ?_, ?_, ?_, ?_⟩
    · show min d (min _ _) = s.length
      rw [hb1, notify_read_read_max]
      show min d (min s.length b.read_max) = s.length
      omega
    · show List.take (min d (min _ _)) _ = s
      rw [hb1, notify_read_read_max]
      have : min d (min s.length b.read_max) = s.length := by omega
      show List.take (min d (min s.length b.read_max)) s = s
      rw [this]
      simp
    · show List.drop (min d (min _ _)) _ = []
      rw [hb1, notify_read_read_max]
      have : min d (min s.length b.read_max) = s.length := by omega
      show List.drop (min d (min s.length b.read_max)) s = []
      rw [this]
      simp
    · show ec_after _ ecb = ec_after b.fc ecb
      rw [notify_read_fc]

/-- C11, the failing input: halves A and B without injector, B's buffer
empty, A writes the 5 bytes of "hello" and B reads into a destination of 10
bytes.  With clear error codes the round trip is as the claim says (5 bytes,
success, "hello", B's buffer empty); entered with `eof` in the caller's `ec`,
`read_some` delivers the same 5 bytes and returns with `eof` still in `ec`. -/
theorem round_trip_stale_error :
    (write_some (plain []) (some (plain [])) [104, 101, 108, 108, 111] .success).n = 5 ∧
    (write_some (plain []) (some (plain [])) [104, 101, 108, 108, 111] .success).ec =
      .success ∧
    (∃ b1, (write_some (plain []) (some (plain [])) [104, 101, 108, 108, 111]
        .success).out = some b1 ∧
      (∃ r, read_some b1 10 .success = .returned r ∧ r.n = 5 ∧
        r.data = [104, 101, 108, 108, 111] ∧ r.in_.b = [] ∧ r.ec = .success) ∧
      (∃ r, read_some b1 10 .eof = .returned r ∧ r.n = 5 ∧
        r.data = [104, 101, 108, 108, 111] ∧ r.in_.b = [] ∧ r.ec = .eof)) :=
  ⟨rfl, rfl, _, rfl, ⟨_, rfl, rfl, rfl, rfl, rfl⟩, ⟨_, rfl, rfl, rfl, rfl, rfl⟩⟩

/-- What `async_read_some` does next to `read_some` (C12), on a half with no
pending read.  When the injector fails, the request is empty, bytes are
buffered or the status is not `ok`, `run_read_op` schedules the handler once,
registers nothing and leaves the half exactly as `read_some` does, with the
same byte count and the same bytes; the error given to the handler is the one
`read_some` returns, except on the delivering path without an injector, where
the handler gets success and `read_some` returns the caller's `ec` as it was
on entry.  In the remaining case `read_some` waits and `run_read_op` registers
the read and schedules nothing. -/
theorem async_read_some_matches (h : Nat) (in_ : state) (d : Nat) (ec : error_code)
    (hop : in_.op = none) :
    (∀ r, read_some in_ d ec = .returned r →
      ∃ e, run_read_op h in_ d = .done ⟨r.in_, r.data, [.handler h e r.n]⟩ ∧
        r.in_.op = none ∧
        ((in_.fc.isSome ∨ d = 0 ∨ in_.b = [] ∨ ec = .success) → e = r.ec) ∧
        (in_.fc = none → d ≠ 0 → in_.b ≠ [] → e = .success ∧ r.ec = ec)) ∧
    (∀ w, read_some in_ d ec = .waits w →
      no_failure in_.fc ∧ d ≠ 0 ∧ in_.b = [] ∧ in_.code = .ok ∧
      run_read_op h in_ d = .done ⟨{ w with op := some ⟨h, d⟩ }, [], []⟩) := by
  cases hfc : in_.fc with
  | none =>
    by_cases hd : d = 0
    · simp [read_some, run_read_op, test_failure, hfc, hop, hd]
    · by_cases hb : in_.b = []
      · by_cases hcode : in_.code = .ok
        · simp [read_some, run_read_op, test_failure, hfc, hop, hd, hb, hcode, no_failure]
        · simp [read_some, run_read_op, test_failure, hfc, hop, hd, hb, hcode]
      · have hlen : 0 < in_.b.length := List.length_pos.mpr hb
        simp [read_some, run_read_op, test_failure, hfc, hop, hd, hb, hlen, copy_out_eq]
        intro hh
        exact hh.symm
  | some f =>
    cases hdec : f.decision f.attempt with
    | some e =>
      simp [read_some, run_read_op, test_failure, hfc, hop, hdec]
    | none =>
      by_cases hd : d = 0
      · simp [read_some, run_read_op, test_failure, hfc, hop, hd, hdec]
      · by_cases hb : in_.b = []
        · by_cases hcode : in_.code = .ok
          · simp [read_some, run_read_op, test_failure, hfc, hop, hd, hb, hcode, hdec,
              no_failure]
          · simp [read_some, run_read_op, test_failure, hfc, hop, hd, hb, hcode, hdec]
        · have hlen : 0 < in_.b.length := List.length_pos.mpr hb
          simp [read_some, run_read_op, test_failure, hfc, hop, hd, hb, hlen, copy_out_eq,
            hdec]

/-- C12, the failing input: a half without injector and without pending read,
receive buffer `[1, 2, 3]`, a destination of 2 bytes, and `eof` in the
caller's `ec` on entry.  `read_some` returns `(eof, 2)`, `run_read_op`
schedules the handler with `(success, 2)`; both deliver `[1, 2]` and leave
`[3]`. -/
theorem async_read_some_differs :
    (∃ r, read_some (plain [1, 2, 3]) 2 .eof = .returned r ∧
      r.ec = .eof ∧ r.n = 2 ∧ r.data = [1, 2] ∧ r.in_.b = [3]) ∧
    (∃ a, run_read_op 7 (plain [1, 2, 3]) 2 = .done a ∧
      a.effects = [.handler 7 .success 2] ∧ a.data = [1, 2] ∧ a.in_.b = [3] ∧
      a.in_.op = none) :=
  ⟨⟨_, rfl, rfl, rfl, rfl, rfl⟩, ⟨_, rfl, rfl, rfl, rfl, rfl⟩⟩

end test

/-! ### The opening handshake -/

namespace websocket

theorem read_response_eq {R : Type} (c : collaborators R) (impl : impl_type) :
    do_handshake.read_response c impl =
      if (c.read_rd_buf impl.rd_buf).2.1 = .buffer_overflow then
        (if (c.read_fb (c.read_rd_buf impl.rd_buf).1).2.1 = .success then
            if (c.read_fb (c.read_rd_buf impl.rd_buf).1).1.length ≤ c.capacity then
              .success else .buffer_overflow
          else (c.read_fb (c.read_rd_buf impl.rd_buf).1).2.1,
          { rd_buf :=
              if (c.read_fb (c.read_rd_buf impl.rd_buf).1).2.1 = .success ∧
                  (c.read_fb (c.read_rd_buf impl.rd_buf).1).1.length ≤ c.capacity then
                (c.read_fb (c.read_rd_buf impl.rd_buf).1).1 else [],
            stops := impl.stops,
            trace := impl.trace ++ [.read_rd_buf impl.rd_buf,
              .read_fb (c.read_rd_buf impl.rd_buf).1 []] },
          (c.read_fb (c.read_rd_buf impl.rd_buf).1).2.2)
      else
        ((c.read_rd_buf impl.rd_buf).2.1,
          { rd_buf := (c.read_rd_buf impl.rd_buf).1, stops := impl.stops,
            trace := impl.trace ++ [.read_rd_buf impl.rd_buf] },
          (c.read_rd_buf impl.rd_buf).2.2) := by
  unfold do_handshake.read_response
  by_cases h1 : (c.read_rd_buf impl.rd_buf).2.1 = .buffer_overflow
  · by_cases h2 : (c.read_fb (c.read_rd_buf impl.rd_buf).1).2.1 = .success
    · by_cases h3 : (c.read_fb (c.read_rd_buf impl.rd_buf).1).1.length ≤ c.capacity
      · simp [h1, h2, h3, impl_type.log]
      · simp [h1, h2, h3, impl_type.log]
    · simp [h1, h2, impl_type.log]
  · simp [h1]

theorem drive_invoke {R : Type} (c : collaborators R) (n : Nat) (op : handshake_op R)
    (impl : impl_type) (cont : Bool) (ec : error_code) :
    handshake_op.drive c n (.invoke op (some impl) cont ec) = some ⟨ec, impl, op.res_p_⟩ := by
  cases n <;> rfl

/-- C17: whenever `handshake_op` is resumed (or started) and the connection no
longer exists, it invokes the handler with `operation_aborted`, whatever
error and byte count it was resumed with and wherever it was suspended; it
makes no further asynchronous call, and its own state, with the fallback
buffer, the parser and the caller's response object, is as before. -/
theorem handshake_op_aborts {R : Type} (c : collaborators R) (op : handshake_op R)
    (ec : error_code) (bytes_used : Nat) (cont : Bool) :
    handshake_op.call c op none ec bytes_used cont =
      .invoke op none cont .operation_aborted := rfl

/-- C14: in `do_handshake` and in `handshake_op`, when the first response read
ends with `buffer_overflow` (the stop check after the write having let the
handshake go on), the response reads made are exactly two: the one into
`rd_buf`, and one into the fallback buffer, which holds at that call exactly
the bytes `rd_buf` held after the first read, `rd_buf` being empty by then.
And whatever the collaborators return, a handshake makes at most two response
reads. -/
theorem overflow_recovery_once {R : Type} (c : collaborators R) (impl : impl_type)
    (res_p : Option R) :
    ((c.check_stop_now impl.stops c.write).1 = false →
      (c.read_rd_buf (c.reset impl.rd_buf)).2.1 = .buffer_overflow →
      (do_handshake c impl res_p).impl.trace.filter step.is_read =
        impl.trace.filter step.is_read ++
          [.read_rd_buf (c.reset impl.rd_buf),
            .read_fb (c.read_rd_buf (c.reset impl.rd_buf)).1 []] ∧
      ∃ a, async_handshake c impl res_p = some a ∧
        a.impl.trace.filter step.is_read =
          impl.trace.filter step.is_read ++
            [.read_rd_buf (c.reset impl.rd_buf),
              .read_fb (c.read_rd_buf (c.reset impl.rd_buf)).1 []]) ∧
    ((do_handshake c impl res_p).impl.trace.filter step.is_read).length ≤
      (impl.trace.filter step.is_read).length + 2 ∧
    ∃ a, async_handshake c impl res_p = some a ∧
      (a.impl.trace.filter step.is_read).length ≤
        (impl.trace.filter step.is_read).length + 2 := by
  simp only [async_handshake, do_handshake, read_response_eq]
  by_cases h0 : (c.check_stop_now impl.stops c.write).1 = true
  · simp [handshake_op.drive, handshake_op.call, handshake_op.finish, impl_type.log,
      impl_type.checked, h0, step.is_read, List.filter_append]
  · by_cases h1 : (c.read_rd_buf (c.reset impl.rd_buf)).2.1 = .buffer_overflow
    · by_cases h2 : (c.read_fb (c.read_rd_buf (c.reset impl.rd_buf)).1).2.1 = .success
      · by_cases h3 :
            (c.read_fb (c.read_rd_buf (c.reset impl.rd_buf)).1).1.length ≤ c.capacity
        · simp [handshake_op.drive, handshake_op.call, handshake_op.finish, impl_type.log,
            impl_type.checked, h0, h1, h2, h3, step.is_read, List.filter_append]
          split_ifs <;> simp [step.is_read, List.filter_append, drive_invoke]
        · simp [handshake_op.drive, handshake_op.call, handshake_op.finish, impl_type.log,
            impl_type.checked, h0, h1, h2, h3, step.is_read, List.filter_append]
          split_ifs <;> simp [step.is_read, List.filter_append, drive_invoke]
      · simp [handshake_op.drive, handshake_op.call, handshake_op.finish, impl_type.log,
          impl_type.checked, h0, h1, h2, step.is_read, List.filter_append]
        split_ifs <;> simp [step.is_read, List.filter_append, drive_invoke]
    · simp [handshake_op.drive, handshake_op.call, handshake_op.finish, impl_type.log,
        impl_type.checked, h0, h1, step.is_read, List.filter_append]
      split_ifs <;> simp [step.is_read, List.filter_append, drive_invoke]

end websocket

namespace websocket

theorem overflow_recovery_once_witness :
    (do_handshake (example_collaborators .buffer_overflow .success [9] .success)
        ⟨[7], 0, []⟩ (some 0)).impl.trace.filter step.is_read =
      [.read_rd_buf [], .read_fb [1, 2, 3, 4] []] :=
  ((overflow_recovery_once (example_collaborators .buffer_overflow .success [9] .success)
    ⟨[7], 0, []⟩ (some 0)).1 rfl rfl).1

/-- C15: in `do_handshake` and in `handshake_op`, when the first response read
ends with `buffer_overflow` and the read into the fallback buffer succeeds,
leaving the bytes `L` in it: if `|L| <= rd_buf.capacity()` then `rd_buf`
becomes exactly `L` and the stop check that follows is given no error;
otherwise `rd_buf` stays empty and the stop check is given
`buffer_overflow`, and when it answers "stop" the handshake ends there with
the error it leaves: `on_response` is not called and the caller's response
object is untouched. -/
theorem leftovers_copied_back {R : Type} (c : collaborators R) (impl : impl_type)
    (res_p : Option R)
    (h0 : (c.check_stop_now impl.stops c.write).1 = false)
    (h1 : (c.read_rd_buf (c.reset impl.rd_buf)).2.1 = .buffer_overflow)
    (h2 : (c.read_fb (c.read_rd_buf (c.reset impl.rd_buf)).1).2.1 = .success) :
    ∃ a, async_handshake c impl res_p = some a ∧
    ((c.read_fb (c.read_rd_buf (c.reset impl.rd_buf)).1).1.length ≤ c.capacity →
      (do_handshake c impl res_p).impl.rd_buf =
          (c.read_fb (c.read_rd_buf (c.reset impl.rd_buf)).1).1 ∧
        a.impl.rd_buf = (c.read_fb (c.read_rd_buf (c.reset impl.rd_buf)).1).1 ∧
        (∃ rest, (do_handshake c impl res_p).impl.trace =
          impl.trace ++ [.change_status, .reset, .build_request, .do_pmd_config, .write,
            .check_stop_now c.write, .read_rd_buf (c.reset impl.rd_buf),
            .read_fb (c.read_rd_buf (c.reset impl.rd_buf)).1 [],
            .check_stop_now .success] ++ rest) ∧
        (∃ rest, a.impl.trace =
          impl.trace ++ [.build_request, .reset, .change_status, .update_timer,
            .do_pmd_config, .write,
            .check_stop_now c.write, .read_rd_buf (c.reset impl.rd_buf),
            .read_fb (c.read_rd_buf (c.reset impl.rd_buf)).1 [],
            .check_stop_now .success] ++ rest)) ∧
    (c.capacity < (c.read_fb (c.read_rd_buf (c.reset impl.rd_buf)).1).1.length →
      (do_handshake c impl res_p).impl.rd_buf = [] ∧ a.impl.rd_buf = [] ∧
        (∃ rest, (do_handshake c impl res_p).impl.trace =
          impl.trace ++ [.change_status, .reset, .build_request, .do_pmd_config, .write,
            .check_stop_now c.write, .read_rd_buf (c.reset impl.rd_buf),
            .read_fb (c.read_rd_buf (c.reset impl.rd_buf)).1 [],
            .check_stop_now .buffer_overflow] ++ rest) ∧
        (∃ rest, a.impl.trace =
          impl.trace ++ [.build_request, .reset, .change_status, .update_timer,
            .do_pmd_config, .write,
            .check_stop_now c.write, .read_rd_buf (c.reset impl.rd_buf),
            .read_fb (c.read_rd_buf (c.reset impl.rd_buf)).1 [],
            .check_stop_now .buffer_overflow] ++ rest) ∧
        ((c.check_stop_now (impl.stops + 1) .buffer_overflow).1 = true →
          (do_handshake c impl res_p).ec =
              (c.check_stop_now (impl.stops + 1) .buffer_overflow).2 ∧
            a.ec = (c.check_stop_now (impl.stops + 1) .buffer_overflow).2 ∧
            (do_handshake c impl res_p).res = res_p ∧ a.res = res_p ∧
            (do_handshake c impl res_p).impl.trace =
              impl.trace ++ [.change_status, .reset, .build_request, .do_pmd_config,
                .write, .check_stop_now c.write, .read_rd_buf (c.reset impl.rd_buf),
                .read_fb (c.read_rd_buf (c.reset impl.rd_buf)).1 [],
                .check_stop_now .buffer_overflow] ∧
            a.impl.trace =
              impl.trace ++ [.build_request, .reset, .change_status, .update_timer,
                .do_pmd_config, .write,
                .check_stop_now c.write, .read_rd_buf (c.reset impl.rd_buf),
                .read_fb (c.read_rd_buf (c.reset impl.rd_buf)).1 [],
                .check_stop_now .buffer_overflow])) := by
  have h0' : ¬ (c.check_stop_now impl.stops c.write).1 = true := by simp [h0]
  simp only [async_handshake, do_handshake, read_response_eq]
  by_cases h3 : (c.read_fb (c.read_rd_buf (c.reset impl.rd_buf)).1).1.length ≤ c.capacity
  · have h3' : ¬ c.capacity < (c.read_fb (c.read_rd_buf (c.reset impl.rd_buf)).1).1.length := by
      omega
    simp [handshake_op.drive, handshake_op.call, handshake_op.finish, impl_type.log,
      impl_type.checked, h0, h1, h2, h3, h3']
    split_ifs <;> simp [drive_invoke]
  · have h3' : c.capacity < (c.read_fb (c.read_rd_buf (c.reset impl.rd_buf)).1).1.length := by
      omega
    simp [handshake_op.drive, handshake_op.call, handshake_op.finish, impl_type.log,
      impl_type.checked, h0, h1, h2, h3, h3']
    split_ifs <;> simp_all [drive_invoke]

end websocket

namespace websocket

theorem leftovers_copied_back_witness :
    ((example_collaborators .buffer_overflow .success [9] .success).check_stop_now 0
        (example_collaborators .buffer_overflow .success [9] .success).write).1 = false ∧
    (do_handshake (example_collaborators .buffer_overflow .success [9] .success)
        ⟨[7], 0, []⟩ (some 0)).impl.rd_buf = [9] ∧
    (do_handshake (example_collaborators .buffer_overflow .success [9] .success)
        ⟨[7], 0, []⟩ (some 0)).ec = .success ∧
    (do_handshake (example_collaborators .buffer_overflow .success [5, 6, 7, 8, 9] .success)
        ⟨[7], 0, []⟩ (some 0)).impl.rd_buf = [] ∧
    (do_handshake (example_collaborators .buffer_overflow .success [5, 6, 7, 8, 9] .success)
        ⟨[7], 0, []⟩ (some 0)).ec = .buffer_overflow :=
  ⟨rfl,
    (leftovers_copied_back (example_collaborators .buffer_overflow .success [9] .success)
      ⟨[7], 0, []⟩ (some 0) rfl rfl rfl).elim fun _ ha => (ha.2.1 (by decide)).1,
    rfl,
    (leftovers_copied_back
      (example_collaborators .buffer_overflow .success [5, 6, 7, 8, 9] .success)
      ⟨[7], 0, []⟩ (some 0) rfl rfl rfl).elim fun _ ha => (ha.2.2 (by decide)).1,
    rfl⟩

/-- C16 (as amended): `handshake_op` always completes, and for all results of
the collaborators it and `do_handshake` make the same write, the same
response reads on the same buffer contents and the same `on_response` call,
and leave the same bytes in `rd_buf`.  When the handshake ends at the stop
check after the write or after the response reads, both end with the same
error and neither touches the caller's response object.  When `on_response`
is reached, `handshake_op` ends with the error of `on_response` and
`do_handshake` with what its third stop check, which only it makes, leaves of
that error: the same error whenever that check leaves the error as it is,
whether or not it stops.  `do_handshake` then leaves the caller's response
object as it was when that check stops, and otherwise holds the same response
object as `handshake_op`. -/
theorem handshake_sync_async {R : Type} (c : collaborators R) (impl : impl_type)
    (res_p : Option R) :
    ∃ a, async_handshake c impl res_p = some a ∧
      a.impl.rd_buf = (do_handshake c impl res_p).impl.rd_buf ∧
      a.impl.trace.filter step.io = (do_handshake c impl res_p).impl.trace.filter step.io ∧
      ((do_handshake c impl res_p).impl.stops ≤ impl.stops + 2 →
        a.ec = (do_handshake c impl res_p).ec ∧ a.res = res_p ∧
          (do_handshake c impl res_p).res = res_p ∧
          a.impl.stops = (do_handshake c impl res_p).impl.stops) ∧
      ((do_handshake c impl res_p).impl.stops = impl.stops + 3 →
        a.impl.stops = impl.stops + 2 ∧
        (do_handshake c impl res_p).ec = (c.check_stop_now (impl.stops + 2) a.ec).2 ∧
        (do_handshake c impl res_p).res =
          (if (c.check_stop_now (impl.stops + 2) a.ec).1 then res_p else a.res)) := by
  simp only [async_handshake, do_handshake, read_response_eq]
  by_cases h0 : (c.check_stop_now impl.stops c.write).1 = true
  · simp [handshake_op.drive, handshake_op.call, handshake_op.finish, impl_type.log,
      impl_type.checked, h0, step.io, List.filter_append]
  · by_cases h1 : (c.read_rd_buf (c.reset impl.rd_buf)).2.1 = .buffer_overflow
    · by_cases h2 : (c.read_fb (c.read_rd_buf (c.reset impl.rd_buf)).1).2.1 = .success
      · by_cases h3 :
            (c.read_fb (c.read_rd_buf (c.reset impl.rd_buf)).1).1.length ≤ c.capacity
        · simp [handshake_op.drive, handshake_op.call, handshake_op.finish, impl_type.log,
            impl_type.checked, h0, h1, h2, h3, step.io, List.filter_append]
          split_ifs with h4 h5 <;> simp_all [step.io, List.filter_append, drive_invoke]
        · simp [handshake_op.drive, handshake_op.call, handshake_op.finish, impl_type.log,
            impl_type.checked, h0, h1, h2, h3, step.io, List.filter_append]
          split_ifs with h4 h5 <;> simp_all [step.io, List.filter_append, drive_invoke]
      · simp [handshake_op.drive, handshake_op.call, handshake_op.finish, impl_type.log,
          impl_type.checked, h0, h1, h2, step.io, List.filter_append]
        split_ifs with h4 h5 <;> simp_all [step.io, List.filter_append, drive_invoke]
    · simp [handshake_op.drive, handshake_op.call, handshake_op.finish, impl_type.log,
        impl_type.checked, h0, h1, step.io, List.filter_append]
      split_ifs with h4 h5 <;> simp_all [step.io, List.filter_append, drive_invoke]

/-- The amended C16 at the input of the counterexample below: `on_response`
rejects the response with an error, the third stop check of `do_handshake`
stops and leaves that error as it is, and both handshakes end with it. -/
theorem handshake_sync_async_witness :
    ∃ a, async_handshake (example_collaborators .success .success [] (.other 7))
        ⟨[], 0, []⟩ (some 0) = some a ∧
      (do_handshake (example_collaborators .success .success [] (.other 7))
        ⟨[], 0, []⟩ (some 0)).ec = a.ec ∧
      (do_handshake (example_collaborators .success .success [] (.other 7))
        ⟨[], 0, []⟩ (some 0)).res = some 0 :=
  (handshake_sync_async (example_collaborators .success .success [] (.other 7))
    ⟨[], 0, []⟩ (some 0)).elim fun a ha =>
      ⟨a, ha.1, (ha.2.2.2.2 rfl).2.1, rfl⟩

/-- C16, counterexample: the response is read without error and
`on_response` rejects it with an error.  Both handshakes end with that
error, but `do_handshake` leaves the caller's response object as it was
(`0`) while `handshake_op` has put the response (`100`) into it; and the two
do not go through the same steps. -/
theorem handshake_sync_async_differ :
    (do_handshake (example_collaborators .success .success [] (.other 7))
        ⟨[], 0, []⟩ (some 0)).ec = .other 7 ∧
    (do_handshake (example_collaborators .success .success [] (.other 7))
        ⟨[], 0, []⟩ (some 0)).res = some 0 ∧
    (∃ a, async_handshake (example_collaborators .success .success [] (.other 7))
        ⟨[], 0, []⟩ (some 0) = some a ∧ a.ec = .other 7 ∧ a.res = some 100 ∧
      a.impl.trace ≠ (do_handshake (example_collaborators .success .success [] (.other 7))
        ⟨[], 0, []⟩ (some 0)).impl.trace) :=
  ⟨rfl, rfl, _, rfl, rfl, rfl, by decide⟩

end websocket

/-! ### The non-blocking read paths -/

theorem stage_eq (b : DynamicBuffer) (hs : b.size ≤ default_max_stack_buffer) :
    stage b =
      some (⟨b.bytes, default_max_stack_buffer, default_max_stack_buffer, 0⟩,
        ⟨[], b.capacity, b.max_size, 0⟩) := by
  have hp : stack_buffer.prepare b.size =
      some ⟨[], default_max_stack_buffer, default_max_stack_buffer, b.size⟩ := by
    have h : stack_buffer.size + b.size ≤ stack_buffer.max_size := by
      simpa [stack_buffer, DynamicBuffer.size] using hs
    rw [prepare_eq_some _ _ h]
    have hmax : max default_max_stack_buffer b.size = default_max_stack_buffer := by
      omega
    simp [stack_buffer, DynamicBuffer.size, hmax] at *
    omega
  unfold stage
  rw [hp]
  simp [DynamicBuffer.commit, DynamicBuffer.consume, DynamicBuffer.size]

theorem staged_prepare (bytes : List byte) (n : Nat)
    (h : bytes.length + n ≤ default_max_stack_buffer) :
    DynamicBuffer.prepare ⟨bytes, default_max_stack_buffer, default_max_stack_buffer, 0⟩ n =
      some ⟨bytes, default_max_stack_buffer, default_max_stack_buffer, n⟩ := by
  rw [prepare_eq_some _ _ (by simpa [DynamicBuffer.size] using h)]
  have hmax : max default_max_stack_buffer (bytes.length + n) = default_max_stack_buffer := by
    omega
  simp [DynamicBuffer.size, hmax]

theorem unstage_eq (cap mx : Nat) (sb : DynamicBuffer) (h : sb.size ≤ mx) :
    unstage ⟨[], cap, mx, 0⟩ sb = some ⟨sb.bytes, max cap sb.size, mx, 0⟩ := by
  have hp : DynamicBuffer.prepare ⟨[], cap, mx, 0⟩ sb.size =
      some ⟨[], max cap sb.size, mx, sb.size⟩ := by
    rw [prepare_eq_some _ _ (by simpa [DynamicBuffer.size] using h)]
    simp [DynamicBuffer.size]
  unfold unstage
  rw [hp]
  simp [DynamicBuffer.commit, DynamicBuffer.size]

theorem staged_size_le (limit : Nat) (bytes : List byte) (cap mx : Nat) :
    staged_size limit ⟨bytes, default_max_stack_buffer, default_max_stack_buffer, 0⟩
        ⟨[], cap, mx, 0⟩ =
      min limit (min (default_max_stack_buffer - bytes.length) (mx - bytes.length)) := rfl

/-- In the non-blocking `detail::read` for a socket, a round on a buffer of
at most `default_max_stack_buffer` bytes whose wait succeeds and whose
physical read reports `would_block` is retried: the round does not call the
condition, `total`, `limit` and the bytes of the buffer are as before, and
the loop does not end at the next loop head. -/
theorem would_block_retried {σ κ : Type} (sock : socket σ) (cond : CompletionCondition κ)
    (x : nb_state σ κ) (hm : x.buffer.size ≤ x.buffer.max_size)
    (hs : x.buffer.size ≤ default_max_stack_buffer)
    (hn : min x.limit (x.buffer.max_size - x.buffer.size) ≠ 0)
    (hw : (sock.wait x.stream).1 = .success)
    (hr : ∀ n, (sock.read_some (sock.wait x.stream).2 n).ec = .would_block) :
    ∃ y, basic_stream_socket.read_round sock cond x = .inl (some y) ∧
      y.total = x.total ∧ y.limit = x.limit ∧ y.cond = x.cond ∧
      y.buffer.bytes = x.buffer.bytes ∧
      y.buffer.max_size = x.buffer.max_size ∧ y.ec = .would_block ∧
      min y.limit (y.buffer.max_size - y.buffer.size) ≠ 0 := by
  have hsz : x.buffer.bytes.length ≤ default_max_stack_buffer := hs
  have hp := staged_prepare x.buffer.bytes
    (min x.limit (min (default_max_stack_buffer - x.buffer.bytes.length)
      (x.buffer.max_size - x.buffer.bytes.length))) (by omega)
  have hu := unstage_eq x.buffer.capacity x.buffer.max_size
    ⟨x.buffer.bytes, default_max_stack_buffer, default_max_stack_buffer,
      min x.limit (min (default_max_stack_buffer - x.buffer.bytes.length)
        (x.buffer.max_size - x.buffer.bytes.length))⟩ hm
  simp only [basic_stream_socket.read_round, hn, if_false, hw, ne_eq, not_true_eq_false,
    hs, if_true, basic_stream_socket.read_staged, stage_eq _ hs, staged_size_le, hp, hr, hu]
  exact ⟨_, rfl, rfl, rfl, rfl, rfl, rfl, rfl, hn⟩

/-- The text of `read_non_blocking_op` next to the blocking function, on a
socket whose wait succeeds and whose first physical read reports
`would_block` with no bytes (the next one would deliver `[1, 2, 3]`), with
the condition "transfer exactly 3, stop on error" and an empty buffer.  The
blocking function retries and returns 3 bytes with success; the coroutine as
written (lines 172-178 lack the test of lines 417 and 437) would give
`would_block` to the condition and then to the handler, with 0 bytes.  No
caller reaches the coroutine: the template parameter `Condition_` of its only
constructor (lines 125-131) cannot be deduced, and `async_read` calls
`run_read_op` with the handler first, which only the overload that builds
`read_op` accepts. -/
theorem read_non_blocking_op_delivers_would_block :
    (∃ x, basic_stream_socket.read scripted_socket (transfer_exactly 3) 10
        [([], .would_block), ([1, 2, 3], .success)] () ⟨[], 0, 64, 0⟩ = .returned x ∧
      x.ec = .success ∧ x.total = 3 ∧ x.buffer.bytes = [1, 2, 3] ∧
      x.log = [⟨3, 0, 0, .would_block⟩, ⟨3, 3, 3, .success⟩]) ∧
    (∃ x, async_read_non_blocking scripted_socket (transfer_exactly 3) 10
        [([], .would_block), ([1, 2, 3], .success)] () ⟨[], 0, 64, 0⟩ = .returned x ∧
      x.ec = .would_block ∧ x.total = 0 ∧ x.buffer.bytes = [] ∧
      x.log = [⟨3, 0, 0, .would_block⟩]) :=
  ⟨⟨_, rfl, rfl, rfl, rfl, rfl⟩, ⟨_, rfl, rfl, rfl, rfl, rfl⟩⟩

theorem content_inv_step {σ : Type} (pending : σ → Nat → byte) (src : Nat → byte)
    (b0 : List byte) (st st1 : σ) (bytes data : List byte) (total : Nat)
    (h : content_inv pending src b0 st bytes total)
    (hd : data = (List.range data.length).map (pending st))
    (hp : pending st1 = fun i => pending st (data.length + i)) :
    content_inv pending src b0 st1 (bytes ++ data) (total + data.length) := by
  obtain ⟨hb, hpend⟩ := h
  constructor
  · rw [hb, List.append_assoc, List.range_add, List.map_append, List.map_map]
    congr 1
    conv_lhs => rw [hd]
    rw [hpend]
    rfl
  · rw [hp, hpend]
    funext i
    show src (total + (data.length + i)) = src (total + data.length + i)
    rw [Nat.add_assoc]

theorem staged_round {σ κ : Type} (sock : socket σ) (pending : σ → Nat → byte)
    (cond : CompletionCondition κ) (src : Nat → byte) (b0 : List byte) (M N : Nat)
    (hsrc : sock.source pending) (hc : cond.exactly N)
    (hsmall : b0.length + N ≤ default_max_stack_buffer) (hroom : b0.length + N ≤ M)
    (x : nb_state σ κ) (hx : staged_inv pending src b0 M N x) :
    (x.total = N → basic_stream_socket.read_round sock cond x = .inr x ∧
      ∀ cont, read_non_blocking_op.loop_head x cont = .invoke x cont) ∧
    (x.total < N → ∃ y, basic_stream_socket.read_round sock cond x = .inl (some y) ∧
      staged_inv pending src b0 M N y ∧ x.total < y.total ∧
      (∀ cont, read_non_blocking_op.loop_head x cont = .async_wait x) ∧
      read_non_blocking_op.call sock cond .yielded
        { x with stream := (sock.wait x.stream).2 } (sock.wait x.stream).1 true =
        read_non_blocking_op.loop_head y true) := by
  obtain ⟨hlim, hle, hec, hM, hcont⟩ := hx
  have hlen : x.buffer.bytes.length = b0.length + x.total := by
    rw [hcont.1]; simp
  constructor
  · intro hN
    have : min x.limit (x.buffer.max_size - x.buffer.size) = 0 := by
      rw [hlim, hN]; simp
    simp only [basic_stream_socket.read_round, read_non_blocking_op.loop_head, this, if_true,
      implies_true, and_self]
  · intro hlt
    have hsz : x.buffer.size = b0.length + x.total := hlen
    have hn : min x.limit (x.buffer.max_size - x.buffer.size) ≠ 0 := by
      rw [hlim, hM, hsz]; omega
    obtain ⟨hw, hwp⟩ := hsrc.1 x.stream
    have hs : x.buffer.size ≤ default_max_stack_buffer := by omega
    have hst : min x.limit (min (default_max_stack_buffer - x.buffer.bytes.length)
        (x.buffer.max_size - x.buffer.bytes.length)) = N - x.total := by
      rw [hlim, hM, hlen]; omega
    have hp := staged_prepare x.buffer.bytes (N - x.total) (by omega)
    obtain ⟨re, r1, r2, rd, rp⟩ := hsrc.2 (sock.wait x.stream).2 (N - x.total) (by omega)
    have hnw : (sock.read_some (sock.wait x.stream).2 (N - x.total)).ec ≠ .would_block := by
      rw [re]; decide
    have hcommit : DynamicBuffer.commit
        ⟨x.buffer.bytes, default_max_stack_buffer, default_max_stack_buffer, N - x.total⟩
        (sock.read_some (sock.wait x.stream).2 (N - x.total)).data
        (sock.read_some (sock.wait x.stream).2 (N - x.total)).data.length =
        ⟨x.buffer.bytes ++ (sock.read_some (sock.wait x.stream).2 (N - x.total)).data,
          default_max_stack_buffer, default_max_stack_buffer, 0⟩ := by
      simp only [DynamicBuffer.commit]
      congr 1
      congr 1
      apply List.take_of_length_le
      omega
    obtain ⟨cw, ce, cb⟩ := hc x.cond
      (sock.read_some (sock.wait x.stream).2 (N - x.total)).ec
      (x.total + (sock.read_some (sock.wait x.stream).2 (N - x.total)).data.length)
      ⟨x.buffer.bytes ++ (sock.read_some (sock.wait x.stream).2 (N - x.total)).data,
          default_max_stack_buffer, default_max_stack_buffer, 0⟩
    have hu := unstage_eq x.buffer.capacity x.buffer.max_size
      ⟨x.buffer.bytes ++ (sock.read_some (sock.wait x.stream).2 (N - x.total)).data,
          default_max_stack_buffer, default_max_stack_buffer, 0⟩
      (by simp only [DynamicBuffer.size, List.length_append]; omega)
    simp only [basic_stream_socket.read_round, hn, if_false, hw, ne_eq, not_true_eq_false,
      hs, if_true, basic_stream_socket.read_staged, stage_eq _ hs, staged_size_le, hst, hp,
      hnw, not_false_eq_true, hcommit, cb, hu, read_non_blocking_op.call,
      read_non_blocking_op.staged]
    refine ⟨_, rfl, ⟨?_, ?_, ?_, ?_, ?_⟩, ?_, ?_, rfl⟩
    · show (cond _ _ _ _).wanted = _
      rw [cw]
    · show x.total + _ ≤ N
      omega
    · show (cond _ _ _ _).ec = _
      rw [ce, re]
    · exact hM
    · exact content_inv_step pending src b0 (sock.wait x.stream).2 _ x.buffer.bytes _
        x.total ⟨hcont.1, by rw [hwp]; exact hcont.2⟩ rd rp
    · show x.total < x.total + _
      omega
    · intro cont
      simp only [read_non_blocking_op.loop_head, hn, if_false]

theorem staged_loop {σ κ : Type} (sock : socket σ) (pending : σ → Nat → byte)
    (cond : CompletionCondition κ) (src : Nat → byte) (b0 : List byte) (M N : Nat)
    (hsrc : sock.source pending) (hc : cond.exactly N)
    (hsmall : b0.length + N ≤ default_max_stack_buffer) (hroom : b0.length + N ≤ M)
    (fuel : Nat) :
    ∀ x : nb_state σ κ, staged_inv pending src b0 M N x → N - x.total < fuel →
      ∃ y, basic_stream_socket.read_loop sock cond fuel x = .returned y ∧
        staged_inv pending src b0 M N y ∧ y.total = N ∧
        ∀ cont, read_non_blocking_op.drive sock cond fuel
          (read_non_blocking_op.loop_head x cont) = .returned y := by
  induction fuel with
  | zero => intro x _ h; omega
  | succ fuel ih =>
    intro x hx hf
    obtain ⟨h1, h2⟩ := staged_round sock pending cond src b0 M N hsrc hc hsmall hroom x hx
    have hle := hx.2.1
    rcases Nat.lt_or_ge x.total N with hlt | hge
    · obtain ⟨z, hz, hinv, hprog, hhead, hcall⟩ := h2 hlt
      have hz2 : N - z.total < fuel := by
        clear h1 h2 ih hz hinv hhead hcall
        omega
      obtain ⟨y, hy, hyinv, hyN, hyd⟩ := ih z hinv hz2
      refine ⟨y, by rw [basic_stream_socket.read_loop, hz]; exact hy, hyinv, hyN, ?_⟩
      intro cont
      rw [hhead cont, read_non_blocking_op.drive, hcall]
      exact hyd true
    · have hN : x.total = N := by omega
      refine ⟨x, by rw [basic_stream_socket.read_loop, (h1 hN).1], hx, hN, ?_⟩
      intro cont
      rw [(h1 hN).2 cont, read_non_blocking_op.drive]

theorem source_progressing {σ : Type} (sock : socket σ) (pending : σ → Nat → byte)
    (hsrc : sock.source pending) : ReadStream.progressing sock.read_some := by
  intro st n hn
  obtain ⟨re, r1, r2, _, _⟩ := hsrc.2 st n hn
  exact ⟨re, r1, r2⟩

theorem read_round_content {σ κ : Type} (sock : socket σ) (pending : σ → Nat → byte)
    (cond : CompletionCondition κ) (src : Nat → byte) (b0 : List byte) (N : Nat)
    (hsrc : sock.source pending) (hc : cond.exactly N) (x : loop_state σ κ)
    (hx : exactly_inv N x)
    (hcont : content_inv pending src b0 x.stream x.buffer.bytes x.total) :
    (∀ y, read_round sock.read_some cond x = .inr y →
      content_inv pending src b0 y.stream y.buffer.bytes y.total) ∧
    (∀ y, read_round sock.read_some cond x = .inl (some y) →
      content_inv pending src b0 y.stream y.buffer.bytes y.total) := by
  obtain ⟨hwf, hec, hle, hroom, _, _, _, _⟩ := hx
  obtain ⟨cw, ce, cb⟩ := hc x.cond x.ec x.total x.buffer
  constructor
  · intro y hy
    simp only [read_round] at hy
    split at hy
    · cases hy
      show content_inv pending src b0 x.stream (cond _ _ _ _).buffer.bytes x.total
      rw [cb]
      exact hcont
    · split at hy <;> cases hy
  · intro y hy
    simp only [read_round, cw, cb] at hy
    split at hy
    · cases hy
    · rename_i hne
      have hprep := prepare_max_prepare x.buffer (N - x.total) hwf
      rw [hprep] at hy
      simp only [Sum.inl.injEq, Option.some.injEq] at hy
      subst hy
      have hpos : 0 < max_prepare x.buffer (N - x.total) := by omega
      obtain ⟨re, r1, r2, rd, rp⟩ := hsrc.2 x.stream _ hpos
      have htake : List.take
          (min (sock.read_some x.stream (max_prepare x.buffer (N - x.total))).data.length
            (max_prepare x.buffer (N - x.total)))
          (sock.read_some x.stream (max_prepare x.buffer (N - x.total))).data =
          (sock.read_some x.stream (max_prepare x.buffer (N - x.total))).data := by
        apply List.take_of_length_le
        omega
      show content_inv pending src b0 _ (x.buffer.bytes ++ List.take _ _) _
      rw [htake]
      exact content_inv_step pending src b0 x.stream _ x.buffer.bytes _ x.total hcont rd rp

theorem read_loop_content {σ κ : Type} (sock : socket σ) (pending : σ → Nat → byte)
    (cond : CompletionCondition κ) (src : Nat → byte) (b0 : List byte) (N : Nat)
    (hsrc : sock.source pending) (hc : cond.exactly N) (fuel : Nat) :
    ∀ x y : loop_state σ κ, exactly_inv N x →
      content_inv pending src b0 x.stream x.buffer.bytes x.total →
      read_loop sock.read_some cond fuel x = .returned y →
      content_inv pending src b0 y.stream y.buffer.bytes y.total := by
  induction fuel with
  | zero => intro x y _ _ h; simp [read_loop] at h
  | succ fuel ih =>
    intro x y hx hcont h
    obtain ⟨c1, c2⟩ := read_round_content sock pending cond src b0 N hsrc hc x hx hcont
    obtain ⟨e1, e2⟩ := read_round_exactly sock.read_some cond N hc
      (source_progressing sock pending hsrc) x hx
    rw [read_loop] at h
    match hr : read_round sock.read_some cond x with
    | .inr z =>
      rw [hr] at h
      cases h
      exact c1 _ hr
    | .inl none => rw [hr] at h; cases h
    | .inl (some z) =>
      rw [hr] at h
      have hzinv : exactly_inv N z := by
        rcases Nat.lt_or_ge x.total N with hlt | hge
        · obtain ⟨z1, hz1, hinv, _⟩ := e2 hlt
          rw [hr] at hz1
          simp only [Sum.inl.injEq, Option.some.injEq] at hz1
          rw [hz1]
          exact hinv
        · have hle := hx.2.2.1
          obtain ⟨z1, hz1, _, _⟩ := e1 (by omega)
          rw [hr] at hz1
          cases hz1
      exact ih z y hzinv (c2 z hr) h

theorem counting_socket_source : counting_socket.source (fun st i => st.1 + i) := by
  constructor
  · intro st
    exact ⟨rfl, rfl⟩
  · intro st n hn
    simp only [counting_socket]
    split
    · refine ⟨rfl, ?_, ?_, ?_, ?_⟩
      · simp; omega
      · simp
      · simp
      · funext i
        simp [Nat.add_assoc]
    · refine ⟨rfl, ?_, ?_, ?_, ?_⟩
      · simp; omega
      · simp
      · simp
      · funext i
        simp [Nat.add_assoc]

/-- A special case of the agreement of the three read paths, for a source that
never runs dry: for a completion condition of the form "wanted = N - total"
that leaves `ec` and the buffer alone, a socket that is a reliable source of
a byte sequence, and a well-formed destination whose size plus `N` is at most
`default_max_stack_buffer` and at most its `max_size`, the straightforward
`detail::read`, the non-blocking `detail::read` for a socket and
`read_non_blocking_op` all return within `N + 1` rounds, with total `N`, with
success, and with the destination holding its initial bytes followed by the
first `N` bytes of the sequence. -/
theorem non_blocking_read_exactly {σ κ : Type} (sock : socket σ)
    (pending : σ → Nat → byte) (cond : CompletionCondition κ) (N fuel : Nat) (st : σ)
    (k : κ) (buffer : DynamicBuffer)
    (hsrc : sock.source pending) (hc : cond.exactly N) (hwf : buffer.wf)
    (hsmall : buffer.size + N ≤ default_max_stack_buffer)
    (hroom : buffer.size + N ≤ buffer.max_size) (hfuel : N < fuel) :
    ∃ x y z, read sock.read_some cond fuel st k buffer = .returned x ∧
      basic_stream_socket.read sock cond fuel st k buffer = .returned y ∧
      async_read_non_blocking sock cond fuel st k buffer = .returned z ∧
      x.total = N ∧ y.total = N ∧ z.total = N ∧
      x.ec = .success ∧ y.ec = .success ∧ z.ec = .success ∧
      x.buffer.bytes = buffer.bytes ++ (List.range N).map (pending st) ∧
      y.buffer.bytes = x.buffer.bytes ∧ z.buffer.bytes = x.buffer.bytes := by
  have hp0 : pending st = fun i => pending st (0 + i) := by
    funext i
    rw [Nat.zero_add]
  have hc0 : content_inv pending (pending st) buffer.bytes st buffer.bytes 0 :=
    ⟨by simp, hp0⟩
  have h0 : exactly_inv N (⟨st, k, buffer, .success, 0, []⟩ : loop_state σ κ) := by
    refine ⟨hwf, rfl, Nat.zero_le _, ?_, rfl, ?_, ?_, le_refl _⟩
    · show N - 0 ≤ buffer.max_size - buffer.size
      omega
    · intro i hi; cases hi
    · intro r hr; cases hr
  obtain ⟨x, hx, hinv, hN⟩ := read_loop_exactly sock.read_some cond N hc
    (source_progressing sock pending hsrc) fuel _ h0 (by simpa using hfuel)
  have hxc := read_loop_content sock pending cond (pending st) buffer.bytes N hsrc hc fuel
    _ x h0 hc0 hx
  obtain ⟨cw, ce, cb⟩ := hc k .success 0 buffer
  have h1 : staged_inv pending (pending st) buffer.bytes buffer.max_size N
      (⟨st, (cond k .success 0 buffer).self, (cond k .success 0 buffer).buffer,
        (cond k .success 0 buffer).ec, 0, (cond k .success 0 buffer).wanted, []⟩ :
        nb_state σ κ) := by
    refine ⟨cw, Nat.zero_le _, ce, ?_, ?_⟩
    · show (cond k .success 0 buffer).buffer.max_size = _
      rw [cb]
    · show content_inv pending (pending st) buffer.bytes st
        (cond k .success 0 buffer).buffer.bytes 0
      rw [cb]
      exact hc0
  obtain ⟨y, hy, hyinv, hyN, hyd⟩ := staged_loop sock pending cond (pending st)
    buffer.bytes buffer.max_size N hsrc hc hsmall hroom fuel _ h1 (by simpa using hfuel)
  refine ⟨x, y, y, hx, hy, hyd false, hN, hyN, hyN, hinv.2.1, hyinv.2.2.1, hyinv.2.2.1,
    ?_, ?_, ?_⟩
  · rw [hxc.1, hN]
  · rw [hxc.1, hyinv.2.2.2.2.1, hN, hyN]
  · rw [hxc.1, hyinv.2.2.2.2.1, hN, hyN]

theorem non_blocking_read_exactly_witness :
    counting_socket.source (fun st i => st.1 + i) ∧ (ignore_errors 5).exactly 5 ∧
    DynamicBuffer.wf ⟨[9, 9], 2, 64, 0⟩ ∧
    (DynamicBuffer.mk [9, 9] 2 64 0).size + 5 ≤ default_max_stack_buffer ∧
    (DynamicBuffer.mk [9, 9] 2 64 0).size + 5 ≤ (DynamicBuffer.mk [9, 9] 2 64 0).max_size ∧
    5 < 6 ∧
    (∃ x y z, read counting_socket.read_some (ignore_errors 5) 6 (0, [2, 1]) ()
        ⟨[9, 9], 2, 64, 0⟩ = .returned x ∧
      basic_stream_socket.read counting_socket (ignore_errors 5) 6 (0, [2, 1]) ()
        ⟨[9, 9], 2, 64, 0⟩ = .returned y ∧
      async_read_non_blocking counting_socket (ignore_errors 5) 6 (0, [2, 1]) ()
        ⟨[9, 9], 2, 64, 0⟩ = .returned z ∧
      x.buffer.bytes = [9, 9, 0, 1, 2, 3, 4] ∧ y.buffer.bytes = [9, 9, 0, 1, 2, 3, 4] ∧
      z.buffer.bytes = [9, 9, 0, 1, 2, 3, 4]) ∧
    (∃ x y z, read counting_socket.read_some (ignore_errors 5) 6 (0, [2, 1]) ()
        ⟨[9, 9], 2, 64, 0⟩ = .returned x ∧
      basic_stream_socket.read counting_socket (ignore_errors 5) 6 (0, [2, 1]) ()
        ⟨[9, 9], 2, 64, 0⟩ = .returned y ∧
      async_read_non_blocking counting_socket (ignore_errors 5) 6 (0, [2, 1]) ()
        ⟨[9, 9], 2, 64, 0⟩ = .returned z ∧
      x.total = 5 ∧ y.total = 5 ∧ z.total = 5 ∧
      x.ec = .success ∧ y.ec = .success ∧ z.ec = .success ∧
      x.buffer.bytes = (DynamicBuffer.mk [9, 9] 2 64 0).bytes ++
        (List.range 5).map ((fun (st : Nat × List Nat) i => st.1 + i) (0, [2, 1])) ∧
      y.buffer.bytes = x.buffer.bytes ∧ z.buffer.bytes = x.buffer.bytes) :=
  ⟨counting_socket_source, ignore_errors_exactly 5, by decide, by decide, by decide,
    by decide, ⟨_, _, _, rfl, rfl, rfl, rfl, rfl, rfl⟩,
    non_blocking_read_exactly counting_socket (fun st i => st.1 + i) (ignore_errors 5) 5 6
      (0, [2, 1]) () ⟨[9, 9], 2, 64, 0⟩ counting_socket_source (ignore_errors_exactly 5)
      (by decide) (by decide) (by decide) (by decide)⟩

set_option maxRecDepth 100000

/-- C18, counterexamples.  Chunk size: a socket that fills every region it is
given, the condition "up to 1000 bytes at a time until at least 1 byte has
arrived", and an empty buffer of `max_size` 4096; the straightforward
`detail::read` caps its request at `max(512, capacity - size)` and returns 512
bytes, the non-blocking read stages
`min(limit, 16384 - size, max_size - size)` and returns 1000 bytes.
`would_block`: with "transfer exactly 3, stop on error" and a first read that
reports `would_block`, the straightforward loop returns `would_block` with 0
bytes and the non-blocking one retries and returns 3 bytes with success.
Waits: when the wait reports an error the non-blocking read gives it to the
condition without reading and returns it with 0 bytes, while the
straightforward loop, which never waits, returns 3 bytes with success. -/
theorem non_blocking_read_differs :
    (∃ x, read counting_socket.read_some (transfer_at_least 1 1000) 5 (0, []) ()
        ⟨[], 0, 4096, 0⟩ = .returned x ∧
      x.total = 512 ∧ x.ec = .success ∧ x.buffer.bytes.length = 512 ∧
      x.log = [⟨512, 512, 512, .success⟩]) ∧
    (∃ y, basic_stream_socket.read counting_socket (transfer_at_least 1 1000) 5 (0, []) ()
        ⟨[], 0, 4096, 0⟩ = .returned y ∧
      y.total = 1000 ∧ y.ec = .success ∧ y.buffer.bytes.length = 1000 ∧
      y.log = [⟨1000, 1000, 1000, .success⟩]) ∧
    (∃ z, async_read_non_blocking counting_socket (transfer_at_least 1 1000) 5 (0, []) ()
        ⟨[], 0, 4096, 0⟩ = .returned z ∧
      z.total = 1000 ∧ z.ec = .success ∧ z.buffer.bytes.length = 1000 ∧
      z.log = [⟨1000, 1000, 1000, .success⟩]) ∧
    (∃ x, read scripted_socket.read_some (transfer_exactly 3) 10
        [([], .would_block), ([1, 2, 3], .success)] () ⟨[], 0, 64, 0⟩ = .returned x ∧
      x.total = 0 ∧ x.ec = .would_block ∧ x.buffer.bytes = []) ∧
    (∃ y, basic_stream_socket.read scripted_socket (transfer_exactly 3) 10
        [([], .would_block), ([1, 2, 3], .success)] () ⟨[], 0, 64, 0⟩ = .returned y ∧
      y.total = 3 ∧ y.ec = .success ∧ y.buffer.bytes = [1, 2, 3]) ∧
    (∃ x, read (failing_wait_socket .connection_reset).read_some (transfer_exactly 3) 10
        [([1, 2, 3], .success)] () ⟨[], 0, 64, 0⟩ = .returned x ∧
      x.total = 3 ∧ x.ec = .success ∧ x.buffer.bytes = [1, 2, 3]) ∧
    (∃ y, basic_stream_socket.read (failing_wait_socket .connection_reset)
        (transfer_exactly 3) 10 [([1, 2, 3], .success)] () ⟨[], 0, 64, 0⟩ = .returned y ∧
      y.total = 0 ∧ y.ec = .connection_reset ∧ y.buffer.bytes = []) := by
  refine ⟨⟨_, rfl, ?_, rfl, ?_, ?_⟩, ⟨_, rfl, ?_, rfl, ?_, ?_⟩, ⟨_, rfl, ?_, rfl, ?_, ?_⟩,
    ⟨_, rfl, ?_, ?_, ?_⟩, ⟨_, rfl, ?_, ?_, ?_⟩, ⟨_, rfl, ?_, ?_, ?_⟩,
    ⟨_, rfl, ?_, ?_, ?_⟩⟩ <;>
    decide

/-! ### Termination of the read engine -/

theorem read_round_progress {σ κ : Type} (s : ReadStream σ) (cond : CompletionCondition κ)
    (hs : s.conforming) (hp : s.makes_progress) (hc : cond.respects) (hn : cond.no_shrink)
    (M : Nat) (x : loop_state σ κ) (hx : read_inv M x) :
    ∀ y, read_round s cond x = .inl (some y) → x.buffer.size + 1 ≤ y.buffer.size := by
  obtain ⟨hwf, hM, _, _⟩ := hx
  obtain ⟨cwf, cM⟩ := hc x.cond x.ec x.total x.buffer hwf
  have hprep := prepare_max_prepare _ (cond x.cond x.ec x.total x.buffer).wanted cwf
  have hlen := hs x.stream (max_prepare (cond x.cond x.ec x.total x.buffer).buffer
    (cond x.cond x.ec x.total x.buffer).wanted)
  have hsh := hn x.cond x.ec x.total x.buffer
  intro y hy
  simp only [read_round] at hy
  split at hy
  · cases hy
  · rename_i hne
    have hpos := hp x.stream (max_prepare (cond x.cond x.ec x.total x.buffer).buffer
      (cond x.cond x.ec x.total x.buffer).wanted) (by omega)
    rw [hprep] at hy
    simp only [Sum.inl.injEq, Option.some.injEq] at hy
    subst hy
    simp only [DynamicBuffer.size, DynamicBuffer.commit,
      List.length_append, List.length_take] at *
    omega

theorem read_loop_terminates {σ κ : Type} (s : ReadStream σ) (cond : CompletionCondition κ)
    (hs : s.conforming) (hp : s.makes_progress) (hc : cond.respects) (hn : cond.no_shrink)
    (M : Nat) (fuel : Nat) :
    ∀ x : loop_state σ κ, read_inv M x → M - x.buffer.size < fuel →
      ∃ y, read_loop s cond fuel x = .returned y ∧
        y.log.length + x.buffer.size ≤ x.log.length + M := by
  induction fuel with
  | zero => intro x _ h; omega
  | succ fuel ih =>
    intro x hx hf
    obtain ⟨_, h2, h3⟩ := read_round_inv s cond hs hc M x hx
    obtain ⟨l1, l2⟩ := read_round_log s cond x
    have hpr := read_round_progress s cond hs hp hc hn M x hx
    have hxM : x.buffer.size ≤ M := by
      have := hx.1.2
      rw [hx.2.1] at this
      omega
    match hr : read_round s cond x with
    | .inr z =>
      refine ⟨z, by rw [read_loop, hr], ?_⟩
      rw [(l1 z hr).1]
      omega
    | .inl none => exact absurd hr h2
    | .inl (some z) =>
      have hz := hpr z hr
      have hzl := l2 z hr
      have hzM : z.buffer.size ≤ M := by
        have h4 := (h3 z hr).1.2
        rw [(h3 z hr).2.1] at h4
        omega
      obtain ⟨y, hy, hyl⟩ := ih z (h3 z hr) (by omega)
      refine ⟨y, by rw [read_loop, hr]; exact hy, ?_⟩
      omega

/-- C22: for a well-formed buffer, a completion condition that uses the buffer
through its interface and never shrinks it, and physical reads that each
transfer at least 1 byte and at most the size they were asked for,
`detail::read` returns (within `max_size - size + 1` loop iterations, whatever
errors the reads report) and has made at most `max_size - size` physical
reads, `size` being the buffer's size on entry. -/
theorem read_terminates {σ κ : Type} (s : ReadStream σ) (cond : CompletionCondition κ)
    (fuel : Nat) (st : σ) (k : κ) (buffer : DynamicBuffer)
    (hs : s.conforming) (hp : s.makes_progress) (hc : cond.respects) (hn : cond.no_shrink)
    (hwf : buffer.wf) (hfuel : buffer.max_size - buffer.size < fuel) :
    ∃ x, read s cond fuel st k buffer = .returned x ∧
      x.log.length ≤ buffer.max_size - buffer.size := by
  have h0 : read_inv buffer.max_size (⟨st, k, buffer, .success, 0, []⟩ : loop_state σ κ) :=
    ⟨hwf, rfl, rfl, rfl⟩
  obtain ⟨y, hy, hyl⟩ := read_loop_terminates s cond hs hp hc hn buffer.max_size fuel _ h0
    hfuel
  have hm := hwf.2
  refine ⟨y, hy, ?_⟩
  simp only [List.length_nil] at hyl
  omega

theorem chunked_conforming : chunked.conforming := by
  intro st n
  unfold chunked
  split <;> simp

theorem chunked_makes_progress : chunked.makes_progress := by
  intro st n hn
  exact (chunked_progressing st n hn).2.1

theorem read_terminates_witness :
    chunked.conforming ∧ chunked.makes_progress ∧ (transfer_exactly 100).respects ∧
    (transfer_exactly 100).no_shrink ∧ DynamicBuffer.wf ⟨[7], 1, 4, 0⟩ ∧
    (DynamicBuffer.mk [7] 1 4 0).max_size - (DynamicBuffer.mk [7] 1 4 0).size < 4 ∧
    (∃ x, read chunked (transfer_exactly 100) 4 [1, 1, 1, 1] () ⟨[7], 1, 4, 0⟩ =
        .returned x ∧
      x.log = [⟨3, 1, 1, .success⟩, ⟨2, 1, 1, .success⟩, ⟨1, 1, 1, .success⟩] ∧
      x.total = 3 ∧ x.buffer.bytes = [7, 0, 0, 0]) ∧
    (∃ x, read chunked (transfer_exactly 100) 4 [1, 1, 1, 1] () ⟨[7], 1, 4, 0⟩ =
        .returned x ∧
      x.log.length ≤ (DynamicBuffer.mk [7] 1 4 0).max_size -
        (DynamicBuffer.mk [7] 1 4 0).size) :=
  ⟨chunked_conforming, chunked_makes_progress, transfer_exactly_respects 100,
    transfer_exactly_no_shrink 100, by decide, by decide, ⟨_, rfl, rfl, rfl, rfl⟩,
    read_terminates chunked (transfer_exactly 100) 4 [1, 1, 1, 1] () ⟨[7], 1, 4, 0⟩
      chunked_conforming chunked_makes_progress (transfer_exactly_respects 100)
      (transfer_exactly_no_shrink 100) (by decide) (by decide)⟩

/-! ### The size of the staged read -/

/-- Below `default_max_stack_buffer` bytes the assertion `n > 0` of the staged
branch holds: the branch is entered, and with the loop guard
`min(limit, max_size - size) > 0` the size of the staged read is positive. -/
theorem staged_size_pos (limit : Nat) (b : DynamicBuffer)
    (hs : b.size < default_max_stack_buffer)
    (hg : min limit (b.max_size - b.size) ≠ 0) :
    ∃ p, stage b = some p ∧ 0 < staged_size limit p.1 p.2 := by
  refine ⟨_, stage_eq b (Nat.le_of_lt hs), ?_⟩
  rw [staged_size_le]
  simp only [DynamicBuffer.size] at hs hg
  omega

/-- At exactly `default_max_stack_buffer` bytes the staged branch is entered
as well (its test is `<=`), and the size of the staged read is 0 whatever the
limit. -/
theorem staged_size_zero (limit : Nat) (b : DynamicBuffer)
    (hs : b.size = default_max_stack_buffer) :
    ∃ p, stage b = some p ∧ staged_size limit p.1 p.2 = 0 := by
  refine ⟨_, stage_eq b (Nat.le_of_eq hs), ?_⟩
  rw [staged_size_le]
  simp only [DynamicBuffer.size] at hs
  omega

theorem full_stack_buffer_size (mx : Nat) :
    (full_stack_buffer mx).size = default_max_stack_buffer := by
  simp [full_stack_buffer, DynamicBuffer.size]

theorem staged_round_at_full (x : nb_state (Nat × List Nat) Unit)
    (hs : x.buffer.size = default_max_stack_buffer)
    (hm : default_max_stack_buffer < x.buffer.max_size)
    (hl : x.limit = 1) (ht : x.total = 0) (hst : x.stream.2 = []) :
    (∃ y, basic_stream_socket.read_round counting_socket (ignore_errors 1) x =
        .inl (some y) ∧
      y.log = x.log ++ [⟨0, 0, 0, .success⟩] ∧ y.buffer.size = default_max_stack_buffer ∧
      y.buffer.max_size = x.buffer.max_size ∧ y.limit = 1 ∧ y.total = 0 ∧
      y.stream.2 = []) ∧
    (∃ y, read_non_blocking_op.staged counting_socket (ignore_errors 1) x = some y ∧
      y.log = x.log ++ [⟨0, 0, 0, .success⟩] ∧ y.total = 0 ∧ y.limit = 1) := by
  have hle : x.buffer.size ≤ default_max_stack_buffer := Nat.le_of_eq hs
  have hlen : x.buffer.bytes.length = default_max_stack_buffer := hs
  have hn : min x.limit (x.buffer.max_size - x.buffer.size) ≠ 0 := by
    rw [hl, hs]
    omega
  have hz : min x.limit (min (default_max_stack_buffer - x.buffer.bytes.length)
      (x.buffer.max_size - x.buffer.bytes.length)) = 0 := by
    rw [hlen]
    simp
  have hp := staged_prepare x.buffer.bytes 0 (by rw [hlen]; simp)
  have hu := unstage_eq x.buffer.capacity x.buffer.max_size
    ⟨x.buffer.bytes, default_max_stack_buffer, default_max_stack_buffer, 0⟩
    (by show x.buffer.bytes.length ≤ _; omega)
  have hw : (counting_socket.wait x.stream) = (.success, x.stream) := rfl
  have hr : counting_socket.read_some x.stream 0 = ⟨[], .success, (x.stream.1 + 0, [])⟩ := by
    simp only [counting_socket, hst]
    rfl
  have hc : DynamicBuffer.commit
      ⟨x.buffer.bytes, default_max_stack_buffer, default_max_stack_buffer, 0⟩ [] 0 =
      ⟨x.buffer.bytes, default_max_stack_buffer, default_max_stack_buffer, 0⟩ := by
    simp [DynamicBuffer.commit]
  constructor
  · simp only [basic_stream_socket.read_round, hn, if_false, hw, ne_eq, not_true_eq_false,
      hle, if_true, basic_stream_socket.read_staged, stage_eq _ hle, staged_size_le, hz, hp,
      hr, List.length_nil, Nat.add_zero, hc, ignore_errors, hu, ht]
    refine ⟨_, rfl, ?_, ?_, rfl, rfl, rfl, rfl⟩
    · simp [DynamicBuffer.size]
    · exact hlen
  · simp only [read_non_blocking_op.staged, stage_eq _ hle, staged_size_le, hz, hp,
      hr, List.length_nil, Nat.add_zero, hc, ignore_errors, hu, ht]
    refine ⟨_, rfl, ?_, rfl, rfl⟩
    simp [DynamicBuffer.size]

theorem staged_loop_at_full (fuel : Nat) :
    ∀ x : nb_state (Nat × List Nat) Unit, x.buffer.size = default_max_stack_buffer →
      default_max_stack_buffer < x.buffer.max_size → x.limit = 1 → x.total = 0 →
      x.stream.2 = [] →
      basic_stream_socket.read_loop counting_socket (ignore_errors 1) fuel x = .running := by
  induction fuel with
  | zero => intro x _ _ _ _ _; rfl
  | succ fuel ih =>
    intro x hs hm hl ht hst
    obtain ⟨y, hy, _, h1, h2, h3, h4, h5⟩ := (staged_round_at_full x hs hm hl ht hst).1
    rw [basic_stream_socket.read_loop, hy]
    exact ih y h1 (by rw [h2]; exact hm) h3 h4 h5

/-- C21, the failing input: a buffer that holds exactly 16384 bytes and may
grow to 32768, with a limit of 1.  The loop guard
`min(limit, max_size - size)` is 1 and `size <= default_max_stack_buffer`
holds, so the staged branch is entered, and the size computed for the staged
read, `min(limit, sb.capacity() - sb.size(), max_size - sb.size())`, is 0: the
assertion `n > 0` fails.  With the assertion compiled out, a round of the
non-blocking `detail::read` and of `read_non_blocking_op` makes the physical
read with a region of 0 bytes, and on a socket that then delivers nothing the
loop of `detail::read` does not end. -/
theorem staged_read_size_zero :
    min 1 ((full_stack_buffer 32768).max_size - (full_stack_buffer 32768).size) = 1 ∧
    (full_stack_buffer 32768).size ≤ default_max_stack_buffer ∧
    (∃ p, stage (full_stack_buffer 32768) = some p ∧ staged_size 1 p.1 p.2 = 0) ∧
    (∃ y, basic_stream_socket.read_round counting_socket (ignore_errors 1)
        ⟨(0, []), (), full_stack_buffer 32768, .success, 0, 1, []⟩ = .inl (some y) ∧
      y.log = [⟨0, 0, 0, .success⟩] ∧ y.total = 0 ∧ y.limit = 1) ∧
    (∃ y, read_non_blocking_op.staged counting_socket (ignore_errors 1)
        ⟨(0, []), (), full_stack_buffer 32768, .success, 0, 1, []⟩ = some y ∧
      y.log = [⟨0, 0, 0, .success⟩] ∧ y.total = 0 ∧ y.limit = 1) ∧
    (∀ fuel, basic_stream_socket.read counting_socket (ignore_errors 1) fuel (0, []) ()
      (full_stack_buffer 32768) = .running) := by
  have hsz := full_stack_buffer_size 32768
  have hm : default_max_stack_buffer < (full_stack_buffer 32768).max_size := by
    show default_max_stack_buffer < 32768
    decide
  have hn : min 1 ((full_stack_buffer 32768).max_size - (full_stack_buffer 32768).size) = 1 := by
    rw [hsz]
    show min 1 (32768 - default_max_stack_buffer) = 1
    decide
  obtain ⟨⟨y, hy, hlog, _, _, hlim, htot, _⟩, ⟨z, hz, hzlog, hztot, hzlim⟩⟩ :=
    staged_round_at_full ⟨(0, []), (), full_stack_buffer 32768, .success, 0, 1, []⟩
      hsz hm rfl rfl rfl
  refine ⟨hn, Nat.le_of_eq hsz, staged_size_zero 1 _ hsz, ⟨y, hy, hlog, htot, hlim⟩,
    ⟨z, hz, hzlog, hztot, hzlim⟩, ?_⟩
  intro fuel
  exact staged_loop_at_full fuel _ hsz hm rfl rfl rfl

/-! ### Teardown of the test stream -/

namespace test

theorem close_fc (s : state) : (state.close s).1.fc = s.fc := by
  unfold state.close
  rw [notify_read_fc]

theorem close_code (s : state) : (state.close s).1.code = .eof := by
  unfold state.close state.notify_read
  split <;> rfl

/-- C23: `async_teardown` posts its handler exactly once.  Without an injector
it closes the stream and the handler gets success.  With an injector whose
first consultation fails with `e`, the handler gets `e`, the stream is not
closed (the half is as before but for the injector, consulted once).  With an
injector whose first consultation does not fail, the stream is closed, the
injector is consulted a second time, and the handler gets `eof` when that
consultation fails (whatever error it injects) and success when it does
not. -/
theorem async_teardown_outcome (h : Nat) (in_ : state) :
    (in_.fc = none →
      (async_teardown h in_).closed = true ∧
      (async_teardown h in_).posts = [(h, .success)] ∧
      (async_teardown h in_).in_ = (state.close in_).1 ∧
      (async_teardown h in_).in_.code = .eof) ∧
    (∀ f e, in_.fc = some f → f.decision f.attempt = some e →
      (async_teardown h in_).closed = false ∧
      (async_teardown h in_).posts = [(h, e)] ∧
      (async_teardown h in_).effects = [] ∧
      (async_teardown h in_).in_ = { in_ with fc := some f.next }) ∧
    (∀ f, in_.fc = some f → f.decision f.attempt = none →
      (async_teardown h in_).closed = true ∧
      (async_teardown h in_).in_.code = .eof ∧
      (async_teardown h in_).in_.fc = some f.next.next ∧
      (∀ e, f.decision (f.attempt + 1) = some e →
        (async_teardown h in_).posts = [(h, .eof)]) ∧
      (f.decision (f.attempt + 1) = none →
        (async_teardown h in_).posts = [(h, .success)])) := by
  refine ⟨?_, ?_, ?_⟩
  · intro hfc
    have hin : ({ in_ with fc := none } : state) = in_ := by
      cases in_
      simp only [state.mk.injEq, true_and, and_true] at *
      exact hfc.symm
    simp only [async_teardown, test_failure, hfc, Bool.false_eq_true, if_false, close_fc, hin]
    refine ⟨trivial, trivial, ?_, close_code _⟩
    cases hc : state.close in_ with
    | mk a b =>
      have := close_fc in_
      rw [hc] at this
      cases a
      simp only [state.mk.injEq, true_and, and_true] at *
      rw [this, hfc]
  · intro f e hfc hd
    simp only [async_teardown, test_failure, hfc, hd, if_true]
    exact ⟨trivial, trivial, trivial, trivial⟩
  · intro f hfc hd
    simp only [async_teardown, test_failure, hfc, hd, Bool.false_eq_true, if_false, close_fc]
    refine ⟨trivial, close_code _, ?_, ?_, ?_⟩
    · cases hd2 : f.next.decision f.next.attempt <;> rfl
    · intro e he
      have : f.next.decision f.next.attempt = some e := he
      simp [this]
    · intro he
      have : f.next.decision f.next.attempt = none := he
      simp [this]

end test

/-! ### Retrying `would_block` in the non-blocking `detail::read` -/

theorem transfer_exactly_until (N : Nat) :
    (transfer_exactly N).exactly_until N (fun ec => decide (ec ≠ .success)) := by
  intro k ec total b
  refine ⟨?_, rfl, rfl⟩
  by_cases h : ec = .success <;> simp [transfer_exactly, h]

theorem ignore_errors_until (N : Nat) :
    (ignore_errors N).exactly_until N (fun _ => false) := by
  intro k ec total b
  exact ⟨by simp [ignore_errors], rfl, rfl⟩

theorem draining_socket_source (e : error_code) :
    (draining_socket e).source_until (fun st i => st.1 + i) (fun st => st.2.1) e := by
  refine ⟨fun st => ⟨rfl, rfl, rfl⟩, ?_, ?_⟩
  · intro st n hn hl
    have hl1 : 0 < st.2.1 := hl
    have h0 : ¬ st.2.1 = 0 := by omega
    have hr : (draining_socket e).read_some st n =
        ⟨(List.range (min (min (max 1 (st.2.2.headD n)) n) st.2.1)).map (fun i => st.1 + i),
          .success,
          (st.1 + min (min (max 1 (st.2.2.headD n)) n) st.2.1,
            st.2.1 - min (min (max 1 (st.2.2.headD n)) n) st.2.1, st.2.2.tail)⟩ := by
      simp only [draining_socket, h0, if_false]
    rw [hr]
    refine ⟨rfl, ?_, ?_, ?_, ?_, ?_, ?_⟩
    · simp only [List.length_map, List.length_range]
      omega
    · simp only [List.length_map, List.length_range]
      omega
    · simp only [List.length_map, List.length_range]
      omega
    · simp only [List.length_map, List.length_range]
    · funext i
      simp only [List.length_map, List.length_range]
      omega
    · simp only [List.length_map, List.length_range]
  · intro st n _ hl
    have hl1 : st.2.1 = 0 := hl
    simp only [draining_socket, hl1, if_true, and_self]

theorem until_inv_step {σ : Type} (sock : socket σ) (pending : σ → Nat → byte)
    (left : σ → Nat) (e : error_code) (src : Nat → byte) (b0 : List byte) (K N : Nat)
    (hsrc : sock.source_until pending left e) (he0 : K < N → e ≠ .success)
    (st : σ) (bytes : List byte) (total n : Nat) (hn : 0 < n) (hnle : total + n ≤ N)
    (hb : bytes = b0 ++ (List.range total).map src)
    (hp : pending st = fun i => src (total + i)) (hl : left st + total = K) :
    (sock.read_some st n).data.length ≤ n ∧
    until_inv pending left src b0 K N e (sock.read_some st n).next
      (bytes ++ (sock.read_some st n).data) (sock.read_some st n).ec
      (total + (sock.read_some st n).data.length) ∧
    ((sock.read_some st n).ec = .success → 0 < (sock.read_some st n).data.length) ∧
    ((sock.read_some st n).ec = .success ∨ (sock.read_some st n).ec = e) := by
  by_cases hleft : 0 < left st
  · obtain ⟨re, r1, r2, r3, rd, rp, rl⟩ := hsrc.2.1 st n hn hleft
    have hc := content_inv_step pending src b0 st (sock.read_some st n).next bytes
      (sock.read_some st n).data total ⟨hb, hp⟩ rd rp
    refine ⟨r2, ⟨by omega, hc.1, Or.inl ⟨re, hc.2, ?_⟩⟩, fun _ => by omega, Or.inl re⟩
    rw [rl]
    omega
  · obtain ⟨re, rd⟩ := hsrc.2.2 st n hn (by omega)
    have hK : total = K := by omega
    have hKN : K < N := by omega
    refine ⟨by rw [rd]; simp, ⟨?_, ?_, Or.inr ⟨re, ?_, hKN⟩⟩, ?_, Or.inr re⟩
    · rw [rd]; simp; omega
    · rw [rd]; simpa using hb
    · rw [rd]; simpa using hK
    · intro h
      rw [re] at h
      exact absurd h (he0 hKN)

theorem read_round_until {σ κ : Type} (sock : socket σ) (pending : σ → Nat → byte)
    (left : σ → Nat) (cond : CompletionCondition κ) (stops : error_code → Bool)
    (e : error_code) (src : Nat → byte) (b0 : List byte) (K N M : Nat)
    (hsrc : sock.source_until pending left e) (hc : cond.exactly_until N stops)
    (hs0 : stops .success = false) (hstop : K < N → stops e = true)
    (hroom : b0.length + N ≤ M)
    (x : loop_state σ κ) (hwf : x.buffer.wf) (hM : x.buffer.max_size = M)
    (hx : until_inv pending left src b0 K N e x.stream x.buffer.bytes x.ec x.total) :
    ((x.total = N ∨ x.ec ≠ .success) →
      ∃ y, read_round sock.read_some cond x = .inr y ∧
        y.total = x.total ∧ y.ec = x.ec ∧ y.buffer = x.buffer) ∧
    (x.total < N → x.ec = .success →
      ∃ y, read_round sock.read_some cond x = .inl (some y) ∧
        y.buffer.wf ∧ y.buffer.max_size = M ∧
        until_inv pending left src b0 K N e y.stream y.buffer.bytes y.ec y.total ∧
        (y.ec = .success → x.total < y.total)) := by
  obtain ⟨hle, hb, hd⟩ := hx
  obtain ⟨cw, ce, cb⟩ := hc x.cond x.ec x.total x.buffer
  have he0 : K < N → e ≠ .success := by
    intro hK h
    have := hstop hK
    rw [h, hs0] at this
    cases this
  have hsize : x.buffer.size = b0.length + x.total := by
    simp [DynamicBuffer.size, hb]
  constructor
  · intro hterm
    have hw : (cond x.cond x.ec x.total x.buffer).wanted = 0 := by
      rw [cw]
      rcases hterm with hN | hne
      · rw [hN]; simp
      · rcases hd with ⟨h1, _, _⟩ | ⟨h1, _, h3⟩
        · exact absurd h1 hne
        · rw [h1, hstop h3]; simp
    have hmp : max_prepare (cond x.cond x.ec x.total x.buffer).buffer
        (cond x.cond x.ec x.total x.buffer).wanted = 0 := by
      rw [hw]
      simp [max_prepare]
    simp only [read_round, hmp, if_true]
    exact ⟨_, rfl, rfl, ce, cb⟩
  · intro hlt hec
    have hw : (cond x.cond x.ec x.total x.buffer).wanted = N - x.total := by
      rw [cw, hec, hs0]; simp
    have hpl : pending x.stream = (fun i => src (x.total + i)) ∧ left x.stream + x.total = K := by
      rcases hd with ⟨_, h2, h3⟩ | ⟨h1, _, h3⟩
      · exact ⟨h2, h3⟩
      · exact absurd (h1.symm.trans hec) (he0 h3)
    have hmpl := max_prepare_le_wanted x.buffer (N - x.total)
    have hmp0 : ¬ max_prepare x.buffer (N - x.total) = 0 := by
      have h1 := hwf.2
      simp only [max_prepare]
      rw [hsize, hM] at *
      omega
    have hprep := prepare_max_prepare x.buffer (N - x.total) hwf
    obtain ⟨s1, s2, s3, _⟩ := until_inv_step sock pending left e src b0 K N hsrc he0 x.stream
      x.buffer.bytes x.total (max_prepare x.buffer (N - x.total)) (by omega) (by omega)
      hb hpl.1 hpl.2
    have htake : List.take
        (min (sock.read_some x.stream (max_prepare x.buffer (N - x.total))).data.length
          (max_prepare x.buffer (N - x.total)))
        (sock.read_some x.stream (max_prepare x.buffer (N - x.total))).data =
        (sock.read_some x.stream (max_prepare x.buffer (N - x.total))).data := by
      apply List.take_of_length_le
      omega
    simp only [read_round, hw, cb, hmp0, if_false, hprep]
    refine ⟨_, rfl, ?_, ?_, ?_, ?_⟩
    · have h1 := hwf.1
      have h2 := hwf.2
      have h3 := max_prepare_le_room x.buffer (N - x.total)
      simp only [DynamicBuffer.wf, DynamicBuffer.size, DynamicBuffer.commit,
        List.length_append, List.length_take] at *
      omega
    · exact hM
    · show until_inv pending left src b0 K N e _ (x.buffer.bytes ++ List.take _ _) _ _
      rw [htake]
      exact s2
    · exact fun h => Nat.lt_add_of_pos_right (s3 h)

theorem until_inv_final {σ : Type} (pending : σ → Nat → byte) (left : σ → Nat)
    (src : Nat → byte) (b0 : List byte) (K N : Nat) (e : error_code)
    (stream : σ) (bytes : List byte) (ec : error_code) (total : Nat)
    (h : until_inv pending left src b0 K N e stream bytes ec total)
    (hterm : total = N ∨ ec ≠ .success) :
    bytes = b0 ++ (List.range total).map src ∧
      ((total = N ∧ ec = .success ∧ N ≤ K) ∨ (total = K ∧ ec = e ∧ K < N)) := by
  obtain ⟨_, hb, hd⟩ := h
  refine ⟨hb, ?_⟩
  rcases hd with ⟨h1, _, h3⟩ | ⟨h1, h2, h3⟩
  · rcases hterm with hN | hne
    · exact Or.inl ⟨hN, h1, by omega⟩
    · exact absurd h1 hne
  · exact Or.inr ⟨h2, h1, h3⟩

theorem read_loop_until {σ κ : Type} (sock : socket σ) (pending : σ → Nat → byte)
    (left : σ → Nat) (cond : CompletionCondition κ) (stops : error_code → Bool)
    (e : error_code) (src : Nat → byte) (b0 : List byte) (K N M : Nat)
    (hsrc : sock.source_until pending left e) (hc : cond.exactly_until N stops)
    (hs0 : stops .success = false) (hstop : K < N → stops e = true)
    (hroom : b0.length + N ≤ M) (fuel : Nat) :
    ∀ x : loop_state σ κ, x.buffer.wf → x.buffer.max_size = M →
      until_inv pending left src b0 K N e x.stream x.buffer.bytes x.ec x.total →
      (x.ec = .success → N - x.total + 1 < fuel) → 0 < fuel →
      ∃ y, read_loop sock.read_some cond fuel x = .returned y ∧
        y.buffer.bytes = b0 ++ (List.range y.total).map src ∧
        ((y.total = N ∧ y.ec = .success ∧ N ≤ K) ∨ (y.total = K ∧ y.ec = e ∧ K < N)) := by
  induction fuel with
  | zero => intro x _ _ _ _ h; omega
  | succ fuel ih =>
    intro x hwf hM hx hf _
    obtain ⟨h1, h2⟩ := read_round_until sock pending left cond stops e src b0 K N M hsrc hc
      hs0 hstop hroom x hwf hM hx
    by_cases hterm : x.total = N ∨ x.ec ≠ .success
    · obtain ⟨y, hy, ht, he, hb⟩ := h1 hterm
      refine ⟨y, by rw [read_loop, hy], ?_⟩
      rw [ht, he, hb]
      exact until_inv_final pending left src b0 K N e x.stream _ _ _ hx hterm
    · have hec : x.ec = .success := by
        by_contra h
        exact hterm (Or.inr h)
      have hlt : x.total < N := by
        have := hx.1
        have hne : x.total ≠ N := fun h => hterm (Or.inl h)
        omega
      obtain ⟨z, hz, zwf, zM, zinv, zprog⟩ := h2 hlt hec
      have hf1 := hf hec
      have hzN := zinv.1
      obtain ⟨y, hy, hfin⟩ := ih z zwf zM zinv
        (by
          intro h
          have := zprog h
          clear ih h1 h2 hz zinv
          omega)
        (by omega)
      exact ⟨y, by rw [read_loop, hz]; exact hy, hfin⟩

theorem staged_round_until {σ κ : Type} (sock : socket σ) (pending : σ → Nat → byte)
    (left : σ → Nat) (cond : CompletionCondition κ) (stops : error_code → Bool)
    (e : error_code) (src : Nat → byte) (b0 : List byte) (K N M : Nat)
    (hsrc : sock.source_until pending left e) (hc : cond.exactly_until N stops)
    (hs0 : stops .success = false) (hstop : K < N → stops e = true)
    (he : e ≠ .would_block)
    (hsmall : b0.length + N ≤ default_max_stack_buffer) (hroom : b0.length + N ≤ M)
    (x : nb_state σ κ) (hlim : x.limit = (if stops x.ec then 0 else N - x.total))
    (hM : x.buffer.max_size = M)
    (hx : until_inv pending left src b0 K N e x.stream x.buffer.bytes x.ec x.total) :
    ((x.total = N ∨ x.ec ≠ .success) →
      basic_stream_socket.read_round sock cond x = .inr x ∧
      ∀ cont, read_non_blocking_op.loop_head x cont = .invoke x cont) ∧
    (x.total < N → x.ec = .success →
      ∃ y, basic_stream_socket.read_round sock cond x = .inl (some y) ∧
        y.limit = (if stops y.ec then 0 else N - y.total) ∧ y.buffer.max_size = M ∧
        until_inv pending left src b0 K N e y.stream y.buffer.bytes y.ec y.total ∧
        (y.ec = .success → x.total < y.total) ∧
        (∀ cont, read_non_blocking_op.loop_head x cont = .async_wait x) ∧
        read_non_blocking_op.call sock cond .yielded
          { x with stream := (sock.wait x.stream).2 } (sock.wait x.stream).1 true =
          read_non_blocking_op.loop_head y true) := by
  obtain ⟨hle, hb, hd⟩ := hx
  have he0 : K < N → e ≠ .success := by
    intro hK h
    have := hstop hK
    rw [h, hs0] at this
    cases this
  have hlen : x.buffer.bytes.length = b0.length + x.total := by
    simp [hb]
  constructor
  · intro hterm
    have hl0 : x.limit = 0 := by
      rw [hlim]
      rcases hterm with hN | hne
      · rw [hN]; simp
      · rcases hd with ⟨h1, _, _⟩ | ⟨h1, _, h3⟩
        · exact absurd h1 hne
        · rw [h1, hstop h3]; simp
    have : min x.limit (x.buffer.max_size - x.buffer.size) = 0 := by
      rw [hl0]; simp
    simp only [basic_stream_socket.read_round, read_non_blocking_op.loop_head, this, if_true,
      implies_true, and_self]
  · intro hlt hec
    have hlimv : x.limit = N - x.total := by
      rw [hlim, hec, hs0]; simp
    have hpl : pending x.stream = (fun i => src (x.total + i)) ∧ left x.stream + x.total = K := by
      rcases hd with ⟨_, h2, h3⟩ | ⟨h1, _, h3⟩
      · exact ⟨h2, h3⟩
      · exact absurd (h1.symm.trans hec) (he0 h3)
    have hsz : x.buffer.size = b0.length + x.total := hlen
    have hn : min x.limit (x.buffer.max_size - x.buffer.size) ≠ 0 := by
      rw [hlimv, hM, hsz]; omega
    obtain ⟨hw, hwp, hwl⟩ := hsrc.1 x.stream
    have hs : x.buffer.size ≤ default_max_stack_buffer := by omega
    have hst : min x.limit (min (default_max_stack_buffer - x.buffer.bytes.length)
        (x.buffer.max_size - x.buffer.bytes.length)) = N - x.total := by
      rw [hlimv, hM, hlen]; omega
    have hp := staged_prepare x.buffer.bytes (N - x.total) (by omega)
    obtain ⟨s1, s2, s3, s4⟩ := until_inv_step sock pending left e src b0 K N hsrc he0
      (sock.wait x.stream).2 x.buffer.bytes x.total (N - x.total) (by omega) (by omega)
      hb (hwp.trans hpl.1) (by rw [hwl]; exact hpl.2)
    have hnw : (sock.read_some (sock.wait x.stream).2 (N - x.total)).ec ≠ .would_block := by
      rcases s4 with h | h
      · rw [h]; decide
      · rw [h]; exact he
    have hcommit : DynamicBuffer.commit
        ⟨x.buffer.bytes, default_max_stack_buffer, default_max_stack_buffer, N - x.total⟩
        (sock.read_some (sock.wait x.stream).2 (N - x.total)).data
        (sock.read_some (sock.wait x.stream).2 (N - x.total)).data.length =
        ⟨x.buffer.bytes ++ (sock.read_some (sock.wait x.stream).2 (N - x.total)).data,
          default_max_stack_buffer, default_max_stack_buffer, 0⟩ := by
      simp only [DynamicBuffer.commit]
      congr 1
      congr 1
      apply List.take_of_length_le
      omega
    obtain ⟨cw, ce, cb⟩ := hc x.cond
      (sock.read_some (sock.wait x.stream).2 (N - x.total)).ec
      (x.total + (sock.read_some (sock.wait x.stream).2 (N - x.total)).data.length)
      ⟨x.buffer.bytes ++ (sock.read_some (sock.wait x.stream).2 (N - x.total)).data,
          default_max_stack_buffer, default_max_stack_buffer, 0⟩
    have hu := unstage_eq x.buffer.capacity x.buffer.max_size
      ⟨x.buffer.bytes ++ (sock.read_some (sock.wait x.stream).2 (N - x.total)).data,
          default_max_stack_buffer, default_max_stack_buffer, 0⟩
      (by simp only [DynamicBuffer.size, List.length_append]; omega)
    simp only [basic_stream_socket.read_round, hn, if_false, hw, ne_eq, not_true_eq_false,
      hs, if_true, basic_stream_socket.read_staged, stage_eq _ hs, staged_size_le, hst, hp,
      hnw, not_false_eq_true, hcommit, cb, hu, read_non_blocking_op.call,
      read_non_blocking_op.staged]
    refine ⟨_, rfl, ?_, ?_, ?_, ?_, ?_, rfl⟩
    · show (cond _ _ _ _).wanted = if stops (cond _ _ _ _).ec = true then 0 else _
      rw [cw, ce]
    · exact hM
    · show until_inv pending left src b0 K N e _ _ (cond _ _ _ _).ec _
      rw [ce]
      exact s2
    · show (cond _ _ _ _).ec = _ → x.total < x.total + _
      rw [ce]
      exact fun h => Nat.lt_add_of_pos_right (s3 h)
    · intro cont
      simp only [read_non_blocking_op.loop_head, hn, if_false]

theorem staged_loop_until {σ κ : Type} (sock : socket σ) (pending : σ → Nat → byte)
    (left : σ → Nat) (cond : CompletionCondition κ) (stops : error_code → Bool)
    (e : error_code) (src : Nat → byte) (b0 : List byte) (K N M : Nat)
    (hsrc : sock.source_until pending left e) (hc : cond.exactly_until N stops)
    (hs0 : stops .success = false) (hstop : K < N → stops e = true)
    (he : e ≠ .would_block)
    (hsmall : b0.length + N ≤ default_max_stack_buffer) (hroom : b0.length + N ≤ M)
    (fuel : Nat) :
    ∀ x : nb_state σ κ, x.limit = (if stops x.ec then 0 else N - x.total) →
      x.buffer.max_size = M →
      until_inv pending left src b0 K N e x.stream x.buffer.bytes x.ec x.total →
      (x.ec = .success → N - x.total + 1 < fuel) → 0 < fuel →
      ∃ y, basic_stream_socket.read_loop sock cond fuel x = .returned y ∧
        (∀ cont, read_non_blocking_op.drive sock cond fuel
          (read_non_blocking_op.loop_head x cont) = .returned y) ∧
        y.buffer.bytes = b0 ++ (List.range y.total).map src ∧
        ((y.total = N ∧ y.ec = .success ∧ N ≤ K) ∨ (y.total = K ∧ y.ec = e ∧ K < N)) := by
  induction fuel with
  | zero => intro x _ _ _ _ h; omega
  | succ fuel ih =>
    intro x hlim hM hx hf _
    obtain ⟨h1, h2⟩ := staged_round_until sock pending left cond stops e src b0 K N M hsrc hc
      hs0 hstop he hsmall hroom x hlim hM hx
    by_cases hterm : x.total = N ∨ x.ec ≠ .success
    · obtain ⟨hy, hhead⟩ := h1 hterm
      refine ⟨x, by rw [basic_stream_socket.read_loop, hy], ?_,
        until_inv_final pending left src b0 K N e x.stream _ _ _ hx hterm⟩
      intro cont
      rw [hhead cont, read_non_blocking_op.drive]
    · have hec : x.ec = .success := by
        by_contra h
        exact hterm (Or.inr h)
      have hlt : x.total < N := by
        have := hx.1
        have hne : x.total ≠ N := fun h => hterm (Or.inl h)
        omega
      obtain ⟨z, hz, zlim, zM, zinv, zprog, hhead, hcall⟩ := h2 hlt hec
      have hf1 := hf hec
      have hzN := zinv.1
      obtain ⟨y, hy, hyd, hfin⟩ := ih z zlim zM zinv
        (by
          intro h
          have := zprog h
          clear ih h1 h2 hz zinv hhead hcall
          omega)
        (by omega)
      refine ⟨y, by rw [basic_stream_socket.read_loop, hz]; exact hy, ?_, hfin⟩
      intro cont
      rw [hhead cont, read_non_blocking_op.drive, hcall]
      exact hyd true

theorem until_final_canon (total N K : Nat) (ec e : error_code)
    (h : (total = N ∧ ec = .success ∧ N ≤ K) ∨ (total = K ∧ ec = e ∧ K < N)) :
    total = min N K ∧ ec = (if N ≤ K then .success else e) := by
  rcases h with ⟨h1, h2, h3⟩ | ⟨h1, h2, h3⟩
  · refine ⟨by omega, ?_⟩
    rw [if_pos h3]
    exact h2
  · refine ⟨by omega, ?_⟩
    rw [if_neg (by omega)]
    exact h2

/-- C18 (amended): for a completion condition of the form "wanted is 0 when
given an error that `stops` selects and `N - total` otherwise" that leaves
`ec` and the buffer alone (transfer exactly `N`, stopping on error or not), a
socket whose waits succeed and whose reads deliver its byte sequence in
order, between 1 and the requested number of bytes at a time, until after
`left` bytes it runs dry and reports the error `e` (not `would_block`, and
one the condition stops on if fewer than `N` bytes are left), and a
well-formed destination whose size plus `N` is at most
`default_max_stack_buffer` and at most its `max_size`: the straightforward
`detail::read`, the non-blocking `detail::read` for a socket and the text of
`read_non_blocking_op` all return within `N + 2` rounds, with the same total
`min(N, left)`, the same error (success when `N <= left`, else `e`), and the
destination holding its initial bytes followed by the first `min(N, left)`
bytes of the sequence. -/
theorem non_blocking_read_agrees {σ κ : Type} (sock : socket σ)
    (pending : σ → Nat → byte) (left : σ → Nat) (cond : CompletionCondition κ)
    (stops : error_code → Bool) (e : error_code) (N fuel : Nat) (st : σ) (k : κ)
    (buffer : DynamicBuffer)
    (hsrc : sock.source_until pending left e) (hc : cond.exactly_until N stops)
    (hs0 : stops .success = false) (hstop : left st < N → stops e = true)
    (he : e ≠ .would_block) (hwf : buffer.wf)
    (hsmall : buffer.size + N ≤ default_max_stack_buffer)
    (hroom : buffer.size + N ≤ buffer.max_size) (hfuel : N + 1 < fuel) :
    ∃ x y z, read sock.read_some cond fuel st k buffer = .returned x ∧
      basic_stream_socket.read sock cond fuel st k buffer = .returned y ∧
      async_read_non_blocking sock cond fuel st k buffer = .returned z ∧
      x.total = min N (left st) ∧
      x.ec = (if N ≤ left st then .success else e) ∧
      x.buffer.bytes = buffer.bytes ++ (List.range (min N (left st))).map (pending st) ∧
      y.total = x.total ∧ y.ec = x.ec ∧ y.buffer.bytes = x.buffer.bytes ∧
      z.total = x.total ∧ z.ec = x.ec ∧ z.buffer.bytes = x.buffer.bytes := by
  have hp0 : pending st = fun i => pending st (0 + i) := by
    funext i
    rw [Nat.zero_add]
  have hi0 : until_inv pending left (pending st) buffer.bytes (left st) N e st
      buffer.bytes .success 0 :=
    ⟨Nat.zero_le _, by simp, Or.inl ⟨rfl, hp0, rfl⟩⟩
  obtain ⟨x, hx, hxb, hxd⟩ := read_loop_until sock pending left cond stops e (pending st)
    buffer.bytes (left st) N buffer.max_size hsrc hc hs0 hstop hroom fuel
    ⟨st, k, buffer, .success, 0, []⟩ hwf rfl hi0 (fun _ => by simpa using hfuel) (by omega)
  obtain ⟨cw, ce, cb⟩ := hc k .success 0 buffer
  obtain ⟨y, hy, hyd, hyb, hydj⟩ := staged_loop_until sock pending left cond stops e
    (pending st) buffer.bytes (left st) N buffer.max_size hsrc hc hs0 hstop he hsmall hroom
    fuel
    ⟨st, (cond k .success 0 buffer).self, (cond k .success 0 buffer).buffer,
      (cond k .success 0 buffer).ec, 0, (cond k .success 0 buffer).wanted, []⟩
    (by
      show (cond k .success 0 buffer).wanted =
        if stops (cond k .success 0 buffer).ec = true then 0 else N - 0
      rw [cw, ce])
    (by
      show (cond k .success 0 buffer).buffer.max_size = _
      rw [cb])
    (by
      show until_inv pending left (pending st) buffer.bytes (left st) N e st
        (cond k .success 0 buffer).buffer.bytes (cond k .success 0 buffer).ec 0
      rw [cb, ce]
      exact hi0)
    (fun _ => by simpa using hfuel) (by omega)
  obtain ⟨xt, xe⟩ := until_final_canon _ _ _ _ _ hxd
  obtain ⟨yt, ye⟩ := until_final_canon _ _ _ _ _ hydj
  refine ⟨x, y, y, hx, hy, hyd false, xt, xe, ?_, ?_, ?_, ?_, ?_, ?_, ?_⟩
  · rw [hxb, xt]
  · rw [yt, xt]
  · rw [ye, xe]
  · rw [hyb, hxb, yt, xt]
  · rw [yt, xt]
  · rw [ye, xe]
  · rw [hyb, hxb, yt, xt]

theorem non_blocking_read_agrees_witness :
    (draining_socket .eof).source_until (fun st i => st.1 + i) (fun st => st.2.1) .eof ∧
    (transfer_exactly 5).exactly_until 5 (fun ec => decide (ec ≠ .success)) ∧
    DynamicBuffer.wf ⟨[9, 9], 2, 64, 0⟩ ∧
    (DynamicBuffer.mk [9, 9] 2 64 0).size + 5 ≤ default_max_stack_buffer ∧
    (DynamicBuffer.mk [9, 9] 2 64 0).size + 5 ≤ (DynamicBuffer.mk [9, 9] 2 64 0).max_size ∧
    5 + 1 < 7 ∧
    (∃ x y z, read (draining_socket .eof).read_some (transfer_exactly 5) 7 (0, 3, [2]) ()
        ⟨[9, 9], 2, 64, 0⟩ = .returned x ∧
      basic_stream_socket.read (draining_socket .eof) (transfer_exactly 5) 7 (0, 3, [2]) ()
        ⟨[9, 9], 2, 64, 0⟩ = .returned y ∧
      async_read_non_blocking (draining_socket .eof) (transfer_exactly 5) 7 (0, 3, [2]) ()
        ⟨[9, 9], 2, 64, 0⟩ = .returned z ∧
      x.total = 3 ∧ x.ec = .eof ∧ x.buffer.bytes = [9, 9, 0, 1, 2] ∧
      y.total = 3 ∧ y.ec = .eof ∧ y.buffer.bytes = [9, 9, 0, 1, 2] ∧
      z.total = 3 ∧ z.ec = .eof ∧ z.buffer.bytes = [9, 9, 0, 1, 2] ∧
      x.log = [⟨5, 2, 2, .success⟩, ⟨3, 1, 1, .success⟩, ⟨2, 0, 0, .eof⟩]) ∧
    (∃ x y z, read (draining_socket .eof).read_some (transfer_exactly 5) 7 (0, 3, [2]) ()
        ⟨[9, 9], 2, 64, 0⟩ = .returned x ∧
      basic_stream_socket.read (draining_socket .eof) (transfer_exactly 5) 7 (0, 3, [2]) ()
        ⟨[9, 9], 2, 64, 0⟩ = .returned y ∧
      async_read_non_blocking (draining_socket .eof) (transfer_exactly 5) 7 (0, 3, [2]) ()
        ⟨[9, 9], 2, 64, 0⟩ = .returned z ∧
      x.total = min 5 3 ∧
      x.ec = (if 5 ≤ 3 then .success else .eof) ∧
      x.buffer.bytes = [9, 9] ++ (List.range (min 5 3)).map (fun i => 0 + i) ∧
      y.total = x.total ∧ y.ec = x.ec ∧ y.buffer.bytes = x.buffer.bytes ∧
      z.total = x.total ∧ z.ec = x.ec ∧ z.buffer.bytes = x.buffer.bytes) :=
  ⟨draining_socket_source .eof, transfer_exactly_until 5, by decide, by decide, by decide,
    by decide, ⟨_, _, _, rfl, rfl, rfl, rfl, rfl, rfl, rfl, rfl, rfl, rfl, rfl, rfl, rfl⟩,
    non_blocking_read_agrees (draining_socket .eof) (fun st i => st.1 + i)
      (fun st => st.2.1) (transfer_exactly 5) (fun ec => decide (ec ≠ .success)) .eof 5 7
      (0, 3, [2]) () ⟨[9, 9], 2, 64, 0⟩ (draining_socket_source .eof)
      (transfer_exactly_until 5) rfl (fun _ => rfl) (by decide) (by decide) (by decide)
      (by decide) (by decide)⟩

end Beast
